import Mathlib

/-!
# Uintah: a verification development

A shallow embedding of `src/CCA/Components/Schedulers/DynamicMPIScheduler.cc`
(`problemSetup`, `createSubScheduler`, the main loop of `execute`, the
send-draining epilogue and the restart propagation) together with the
properties proved about it, followed by smaller embeddings of functions of
`meanTurbFluxes.cc`, `sstruct_LGMRES.h`, `ArmPostProcessorTanhParallel.h`,
`ArmPostProcessorFactory.h`, `SimulationController.h` and `Heat.h`.

Conventions
* C++ `int` values are `Int`; sizes of containers are `Nat`.
* a `std::map<int, T>` read with `operator[]` is a total function whose
  default is the value-initialised `T`; `find(k) != end()` is `Option.isSome`.
* an object address (`DetailedTask*`) is the `id` field of `DetailedTask`.
* code that is called but lives outside the translated file is a field of
  the record `Collab`, acting on an abstract collaborator state.
-/

namespace Uintah

/-! ## Ready-queue policy and `problemSetup` -/

/-- The enumerators of `QueueAlg` that `DynamicMPIScheduler.cc` assigns to
`m_task_queue_alg` (the enumeration itself is declared in `DetailedTasks.h`). -/
inductive QueueAlg where
  | FCFS
  | Random
  | Stack
  | MostChildren
  | LeastChildren
  | MostL2Children
  | LeastL2Children
  | MostMessages
  | LeastMessages
  | PatchOrder
  | PatchOrderRandom
  deriving DecidableEq, Repr

/-- The `<Scheduler>` block of a problem specification, as far as
`problemSetup` reads it: the optional `taskReadyQueueAlg` entry. -/
structure SchedulerBlock where
  taskReadyQueueAlg : Option String
  deriving DecidableEq, Repr

/-- The problem specification handed to `problemSetup`:
`findBlock("Scheduler")` yields the block or a null handle. -/
structure ProblemSpec where
  Scheduler : Option SchedulerBlock
  deriving DecidableEq, Repr

/-- What left `problemSetup` as an exception: either the
`ProblemSetupException` thrown at line 144 of `DynamicMPIScheduler.cc`
(with its message), or whatever `SchedulerCommon::problemSetup` raised. -/
inductive Raised (ε : Type) where
  | here (msg : String)
  | inCommon (e : ε)
  deriving DecidableEq, Repr

/-- A `DynamicMPIScheduler` object: its own member `m_task_queue_alg` and
the state `common` of its base classes (`MPIScheduler`, `SchedulerCommon`). -/
structure DynamicMPIScheduler (β : Type) where
  m_task_queue_alg : QueueAlg
  common : β

/-- Constructor, lines 55-61: the base part is built by the `MPIScheduler`
constructor (result passed in as `base`) and the policy is `MostMessages`. -/
def DynamicMPIScheduler.new {β : Type} (base : β) : DynamicMPIScheduler β :=
  { m_task_queue_alg := QueueAlg.MostMessages, common := base }

/-- Lines 94-102: the name looked up by `problemSetup`. -/
def taskQueueAlgName (prob_spec : ProblemSpec) : String :=
  let taskQueueAlg : String :=
    match prob_spec.Scheduler with
    | some params =>
      match params.taskReadyQueueAlg with
      | some v => v
      | none => ""
    | none => ""
  if taskQueueAlg = "" then "MostMessages" else taskQueueAlg

/-- Lines 104-145: the `if / else if` chain.  `none` is the final `else`,
where the exception is thrown. -/
def selectQueueAlg (taskQueueAlg : String) : Option QueueAlg :=
  if taskQueueAlg = "FCFS" then some QueueAlg.FCFS
  else if taskQueueAlg = "Random" then some QueueAlg.Random
  else if taskQueueAlg = "Stack" then some QueueAlg.Stack
  else if taskQueueAlg = "MostChildren" then some QueueAlg.MostChildren
  else if taskQueueAlg = "LeastChildren" then some QueueAlg.LeastChildren
  else if taskQueueAlg = "MostAllChildren" then some QueueAlg.MostChildren
  else if taskQueueAlg = "LeastAllChildren" then some QueueAlg.LeastChildren
  else if taskQueueAlg = "MostL2Children" then some QueueAlg.MostL2Children
  else if taskQueueAlg = "LeastL2Children" then some QueueAlg.LeastL2Children
  else if taskQueueAlg = "MostMessages" then some QueueAlg.MostMessages
  else if taskQueueAlg = "LeastMessages" then some QueueAlg.LeastMessages
  else if taskQueueAlg = "PatchOrder" then some QueueAlg.PatchOrder
  else if taskQueueAlg = "PatchOrderRandom" then some QueueAlg.PatchOrderRandom
  else none

/-- `DynamicMPIScheduler::problemSetup`, lines 90-148.  The result is the
object after the call and the exception that propagated, if any.
`commonSetup` is `SchedulerCommon::problemSetup`, which acts on the base part
of the object only. -/
def problemSetup {β ε : Type} (commonSetup : ProblemSpec → β → β × Option ε)
    (prob_spec : ProblemSpec) (s : DynamicMPIScheduler β) :
    DynamicMPIScheduler β × Option (Raised ε) :=
  match selectQueueAlg (taskQueueAlgName prob_spec) with
  | none => (s, some (Raised.here "Unknown task ready queue algorithm"))
  | some alg =>
    let r := commonSetup prob_spec s.common
    ({ m_task_queue_alg := alg, common := r.1 }, r.2.map Raised.inCommon)

/-- A problem specification whose `<Scheduler>` block sets
`taskReadyQueueAlg` to `name`. -/
def specWithAlg (name : String) : ProblemSpec :=
  { Scheduler := some { taskReadyQueueAlg := some name } }

/-- The eleven policy names of section 4.4 with the like-named enumerator. -/
def namedPolicies : List (String × QueueAlg) :=
  [("FCFS", QueueAlg.FCFS), ("Random", QueueAlg.Random), ("Stack", QueueAlg.Stack),
   ("MostChildren", QueueAlg.MostChildren), ("LeastChildren", QueueAlg.LeastChildren),
   ("MostL2Children", QueueAlg.MostL2Children), ("LeastL2Children", QueueAlg.LeastL2Children),
   ("MostMessages", QueueAlg.MostMessages), ("LeastMessages", QueueAlg.LeastMessages),
   ("PatchOrder", QueueAlg.PatchOrder), ("PatchOrderRandom", QueueAlg.PatchOrderRandom)]

/-- A base-class `problemSetup` that counts its invocations and never throws;
used to observe whether the base class was entered. -/
def countingSetup : ProblemSpec → Nat → Nat × Option Unit :=
  fun _ n => (n + 1, none)

end Uintah

namespace Uintah

/-! ## Tasks and the collaborators of `execute` -/

/-- The type tag of a task descriptor (`Task::getType()`). -/
inductive TaskType where
  | Normal
  | Reduction
  | OncePerProc
  deriving DecidableEq, Repr

/-- A task descriptor, as far as `execute` reads it: `m_phase`, `getType()`,
`usesMPI()` and `getSortedOrder()`. -/
structure Task where
  m_phase : Int
  type : TaskType
  usesMPI : Bool
  sortedOrder : Int
  deriving DecidableEq, Repr

/-- A detailed task: the object identity (its address, `id`) and the task
descriptor returned by `getTask()`. -/
structure DetailedTask where
  id : Nat
  task : Task
  deriving DecidableEq, Repr

/-- The test of line 260: the task is kept back as a synchronization task. -/
def DetailedTask.isSync (t : DetailedTask) : Bool :=
  decide (t.task.type = TaskType.Reduction) || t.task.usesMPI

/-- The two polling modes handed to `processMPIRecvs` by `execute`. -/
inductive RecvMode where
  | TEST
  | WAIT_ONCE
  deriving DecidableEq, Repr

/-- The calls `execute` makes to its collaborators, in the order made.  For
the two queue pops the argument is the task that was returned. -/
inductive Call where
  | getNextInternalReadyTask (t : DetailedTask)
  | initiateTask (t : DetailedTask)
  | getNextExternalReadyTask (t : DetailedTask)
  | runTask (t : DetailedTask)
  | initiateReduction (t : DetailedTask)
  | processMPIRecvs (mode : RecvMode)
  deriving DecidableEq, Repr

/-- The code `execute` calls that is not part of `DynamicMPIScheduler.cc`:
the ready queues of `DetailedTasks`, the dependency counter of a
`DetailedTask`, the `MPIScheduler` members and the abort flag of the newest
data warehouse.  `σ` is the state all of them act on. -/
structure Collab (σ : Type) where
  numInternalReadyTasks : σ → Nat
  getNextInternalReadyTask : σ → DetailedTask × σ
  numExternalReadyTasks : σ → Nat
  getNextExternalReadyTask : σ → DetailedTask × σ
  getExternalDepCount : DetailedTask → σ → Int
  initiateTask : DetailedTask → Bool → Int → σ → σ
  markInitiated : DetailedTask → σ → σ
  checkExternalDepCount : DetailedTask → σ → σ
  runTask : DetailedTask → σ → σ
  initiateReduction : DetailedTask → σ → σ
  processMPIRecvs : RecvMode → σ → σ
  timestepAborted : σ → Bool

/-! ## The main loop of `execute` -/

/-- Modelled from the spec: the macros `ASSERT` and `ASSERTEQ`
(`Core/Util/Assert.h`, not in the sources), section 7: a violated assertion
is an unconditional abort.  The ways a piece of `execute` can fail: the
assertions of the main loop and of the epilogue, and the places where the
behaviour of the C++ code is undefined. -/
inductive Fault where
  /-- line 290: `pending_tasks.erase(pending_tasks.find(task))` with the task
  not in the set, i.e. `erase(end())`, which is undefined. -/
  | eraseEnd
  /-- line 291: `ASSERTEQ(task->getExternalDepCount(), 0)`. -/
  | assertExternalDepCount
  /-- line 316: `ASSERT(reducetask->getTask()->usesMPI())`. -/
  | assertUsesMPI
  /-- line 319: `ASSERT(reducetask->getExternalDepCount() == 0)`. -/
  | assertSyncExternalDepCount
  /-- line 325: `ASSERT(reducetask->getTask()->m_phase == currphase)`. -/
  | assertPhase
  /-- line 352: `task->getTask()` through the null pointer `task`. -/
  | nullTask
  /-- line 409: `ASSERT(m_sends.size() == 0u)`. -/
  | assertSends
  /-- line 410: `ASSERT(m_recvs.size() == 0u)`. -/
  | assertRecvs
  /-- line 415: `m_dws[m_dws.size() - 1]->timestepRestarted()` through a null
  handle. -/
  | nullDataWarehouse
  deriving DecidableEq, Repr

/-- The result of running a piece of `execute`: it got through (`ok`), it
failed (`fault`, with the state reached when it failed), or the bound on the
number of loop passes given to the model was used up (`outOfFuel`). -/
inductive Outcome (α : Type) where
  | ok (a : α)
  | fault (f : Fault) (reached : α)
  | outOfFuel

/-- Sequencing: go on with `f` after a piece that got through. -/
def Outcome.andThen {α : Type} (o : Outcome α) (f : α → Outcome α) : Outcome α :=
  match o with
  | Outcome.ok a => f a
  | Outcome.fault e a => Outcome.fault e a
  | Outcome.outOfFuel => Outcome.outOfFuel

/-- Writing `m[k] = v` in a map keyed by `int`. -/
def mapSet {α : Type} (m : Int → α) (k : Int) (v : α) : Int → α :=
  fun j => if j = k then v else m j

/-- Lines 228-230: `phaseTasks[dts->localTask(i)->getTask()->m_phase]++` for
every local task. -/
def phaseTasksOf (localTasks : List DetailedTask) : Int → Int :=
  localTasks.foldl (fun m t => mapSet m t.task.m_phase (m t.task.m_phase + 1)) (fun _ => 0)

/-- The local variables of `execute` that live across iterations of the main
loop (lines 222-248), the collaborator state `env`, and the calls made so
far (`log`, oldest first). -/
structure LoopState (σ : Type) where
  env : σ
  numTasksDone : Int
  currphase : Int
  phaseTasksDone : Int → Int
  phaseSyncTask : Int → Option DetailedTask
  pending_tasks : List DetailedTask
  abort : Bool
  abort_point : Int
  log : List Call

/-- Lines 222-248: the values of the locals when the main loop is entered. -/
def initLoopState {σ : Type} (env : σ) : LoopState σ :=
  { env := env
    numTasksDone := 0
    currphase := 0
    phaseTasksDone := fun _ => 0
    phaseSyncTask := fun _ => none
    pending_tasks := []
    abort := false
    abort_point := 987654
    log := [] }

/-- Lines 257-272: the inner loop that empties Internal-Ready.  `fuel`
bounds the number of passes. -/
def drainInternalReady {σ : Type} (E : Collab σ) : Nat → LoopState σ → Outcome (LoopState σ)
  | 0, st => if 0 < E.numInternalReadyTasks st.env then Outcome.outOfFuel else Outcome.ok st
  | fuel + 1, st =>
    if 0 < E.numInternalReadyTasks st.env then
      let r := E.getNextInternalReadyTask st.env
      let task := r.1
      if task.task.type = TaskType.Reduction ∨ task.task.usesMPI = true then
        drainInternalReady E fuel
          { st with
            env := r.2
            phaseSyncTask := mapSet st.phaseSyncTask task.task.m_phase (some task)
            log := st.log ++ [Call.getNextInternalReadyTask task] }
      else
        let env1 := E.initiateTask task st.abort st.abort_point r.2
        let env2 := E.markInitiated task env1
        let env3 := E.checkExternalDepCount task env2
        drainInternalReady E fuel
          { st with
            env := env3
            pending_tasks := st.pending_tasks.insert task
            log := st.log ++ [Call.getNextInternalReadyTask task, Call.initiateTask task] }
    else Outcome.ok st

/-- Lines 274-299: run one External-Ready task, if there is one. -/
def runExternalReady {σ : Type} (E : Collab σ) (st : LoopState σ) : Outcome (LoopState σ) :=
  if 0 < E.numExternalReadyTasks st.env then
    let r := E.getNextExternalReadyTask st.env
    let task := r.1
    let st1 : LoopState σ :=
      { st with env := r.2, log := st.log ++ [Call.getNextExternalReadyTask task] }
    if task ∈ st.pending_tasks then
      let st2 : LoopState σ := { st1 with pending_tasks := st.pending_tasks.erase task }
      if E.getExternalDepCount task r.2 = 0 then
        Outcome.ok
          { st2 with
            env := E.runTask task r.2
            numTasksDone := st.numTasksDone + 1
            phaseTasksDone :=
              mapSet st.phaseTasksDone task.task.m_phase (st.phaseTasksDone task.task.m_phase + 1)
            log := st1.log ++ [Call.runTask task] }
      else Outcome.fault Fault.assertExternalDepCount st2
    else Outcome.fault Fault.eraseEnd st1
  else Outcome.ok st

/-- The condition of line 301 (and the last disjunct of line 339): a
synchronization task is registered for `currphase` and all but one of the
tasks of that phase are done. -/
def syncTrigger {σ : Type} (phaseTasks : Int → Int) (st : LoopState σ) : Bool :=
  (st.phaseSyncTask st.currphase).isSome &&
    decide (st.phaseTasksDone st.currphase = phaseTasks st.currphase - 1)

/-- Lines 301-332: run the synchronization task of the current phase when
the condition of line 301 holds. -/
def runSyncTask {σ : Type} (E : Collab σ) (phaseTasks : Int → Int) (st : LoopState σ) :
    Outcome (LoopState σ) :=
  match st.phaseSyncTask st.currphase with
  | none => Outcome.ok st
  | some reducetask =>
    if st.phaseTasksDone st.currphase = phaseTasks st.currphase - 1 then
      let ran : Outcome (LoopState σ) :=
        if reducetask.task.type = TaskType.Reduction then
          Outcome.ok
            { st with
              env := E.initiateReduction reducetask st.env
              log := st.log ++ [Call.initiateReduction reducetask] }
        else if reducetask.task.usesMPI = true then
          let env1 := E.initiateTask reducetask st.abort st.abort_point st.env
          let env2 := E.markInitiated reducetask env1
          let st1 : LoopState σ :=
            { st with env := env2, log := st.log ++ [Call.initiateTask reducetask] }
          if E.getExternalDepCount reducetask env2 = 0 then
            Outcome.ok
              { st1 with
                env := E.runTask reducetask env2
                log := st1.log ++ [Call.runTask reducetask] }
          else Outcome.fault Fault.assertSyncExternalDepCount st1
        else Outcome.fault Fault.assertUsesMPI st
      ran.andThen fun st2 =>
        if reducetask.task.m_phase = st.currphase then
          Outcome.ok
            { st2 with
              numTasksDone := st.numTasksDone + 1
              phaseTasksDone :=
                mapSet st.phaseTasksDone reducetask.task.m_phase
                  (st.phaseTasksDone reducetask.task.m_phase + 1) }
        else Outcome.fault Fault.assertPhase st2
    else Outcome.ok st

/-- Lines 334-347: advance the phase or poll the receives. -/
def advanceOrPoll {σ : Type} (E : Collab σ) (phaseTasks : Int → Int) (ntasks : Int)
    (st : LoopState σ) : LoopState σ :=
  if st.numTasksDone < ntasks then
    if phaseTasks st.currphase = st.phaseTasksDone st.currphase then
      { st with currphase := st.currphase + 1 }
    else if 0 < E.numExternalReadyTasks st.env ∨ 0 < E.numInternalReadyTasks st.env
        ∨ syncTrigger phaseTasks st = true then
      { st with
        env := E.processMPIRecvs RecvMode.TEST st.env
        log := st.log ++ [Call.processMPIRecvs RecvMode.TEST] }
    else
      { st with
        env := E.processMPIRecvs RecvMode.WAIT_ONCE st.env
        log := st.log ++ [Call.processMPIRecvs RecvMode.WAIT_ONCE] }
  else st

/-- Lines 349-354: latch the abort flag.  `task` is the variable declared at
line 254, the one the assignment of `abort_point` reads. -/
def checkAbort {σ : Type} (E : Collab σ) (task : Option DetailedTask) (st : LoopState σ) :
    Outcome (LoopState σ) :=
  if st.abort = false ∧ E.timestepAborted st.env = true then
    match task with
    | none => Outcome.fault Fault.nullTask { st with abort := true }
    | some t => Outcome.ok { st with abort := true, abort_point := t.task.sortedOrder }
  else Outcome.ok st

/-- Lines 252-354: one pass through the body of the main loop.  The `task`
of line 254 is initialised with the null pointer and is not assigned
afterwards: the declarations of lines 258 and 285 introduce new variables of
the same name in inner scopes.  The pass counter `i` of line 252 is never
read and is left out, as are the diagnostics (`DOUT`, the queue-length
histogram). -/
def iteration {σ : Type} (E : Collab σ) (phaseTasks : Int → Int) (ntasks : Int) (fuel : Nat)
    (st : LoopState σ) : Outcome (LoopState σ) :=
  let task : Option DetailedTask := none
  (drainInternalReady E fuel st).andThen fun st1 =>
    (runExternalReady E st1).andThen fun st2 =>
      (runSyncTask E phaseTasks st2).andThen fun st3 =>
        checkAbort E task (advanceOrPoll E phaseTasks ntasks st3)

/-- The state after at most `n` passes through the main loop (line 250): the
body is entered while `numTasksDone < ntasks`, and the state stays as it is
once the loop has been left. -/
def loopAfter {σ : Type} (E : Collab σ) (phaseTasks : Int → Int) (ntasks : Int) (fuel : Nat) :
    Nat → LoopState σ → Outcome (LoopState σ)
  | 0, st => Outcome.ok st
  | n + 1, st =>
    if st.numTasksDone < ntasks then
      (iteration E phaseTasks ntasks fuel st).andThen (loopAfter E phaseTasks ntasks fuel n)
    else Outcome.ok st

/-- Lines 250-355: the main loop, given `n` passes at most. -/
def mainLoop {σ : Type} (E : Collab σ) (phaseTasks : Int → Int) (ntasks : Int) (fuel n : Nat)
    (st : LoopState σ) : Outcome (LoopState σ) :=
  (loopAfter E phaseTasks ntasks fuel n st).andThen fun st1 =>
    if st1.numTasksDone < ntasks then Outcome.outOfFuel else Outcome.ok st1

/-- Lines 187-355 of `execute` on a non-copy-data timestep: `ntasks` and
`phaseTasks` are computed from the local tasks, the locals are initialised
and the main loop runs.  `env` is the collaborator state when the loop is
entered. -/
def executeLoop {σ : Type} (E : Collab σ) (localTasks : List DetailedTask) (fuel n : Nat)
    (env : σ) : Outcome (LoopState σ) :=
  mainLoop E (phaseTasksOf localTasks) (localTasks.length : Int) fuel n (initLoopState env)

/-! ## Reading the call log -/

/-- The tasks handed out by `getNextInternalReadyTask`, oldest first. -/
def internalPops (log : List Call) : List DetailedTask :=
  log.filterMap fun c =>
    match c with
    | Call.getNextInternalReadyTask t => some t
    | _ => none

/-- The tasks handed out by `getNextExternalReadyTask`, oldest first. -/
def externalPops (log : List Call) : List DetailedTask :=
  log.filterMap fun c =>
    match c with
    | Call.getNextExternalReadyTask t => some t
    | _ => none

/-- The tasks that were executed, oldest first: those handed to `runTask`
and the reduction tasks handed to `initiateReduction`. -/
def ranTasks (log : List Call) : List DetailedTask :=
  log.filterMap fun c =>
    match c with
    | Call.runTask t => some t
    | Call.initiateReduction t => some t
    | _ => none

/-- The ready queues deliver each local task at most once: the tasks popped
from Internal-Ready are local tasks and no task is popped twice. -/
def DeliversOnce (localTasks : List DetailedTask) (log : List Call) : Prop :=
  (internalPops log).Nodup ∧ ∀ t ∈ internalPops log, t ∈ localTasks

/-- Each phase has at most one synchronization task among the local tasks. -/
def OneSyncPerPhase (localTasks : List DetailedTask) : Prop :=
  ∀ a ∈ localTasks, ∀ b ∈ localTasks,
    a.isSync = true → b.isSync = true → a.task.m_phase = b.task.m_phase → a = b

/-- The number of tasks of `l` whose phase is `k`. -/
def phaseCount (l : List DetailedTask) (k : Int) : Nat :=
  l.countP fun t => decide (t.task.m_phase = k)

/-- A property of the call log: whenever a synchronization task `S` was
executed, every other local task of the phase of `S`, and every local task
of a phase between 0 and the phase of `S`, had been executed before. -/
def SyncAfterPeers (localTasks : List DetailedTask) (log : List Call) : Prop :=
  ∀ (pre post : List Call) (c : Call) (S : DetailedTask), log = pre ++ c :: post →
    (c = Call.runTask S ∨ c = Call.initiateReduction S) → S.isSync = true →
    ∀ t ∈ localTasks, t ≠ S →
      (t.task.m_phase = S.task.m_phase ∨ (0 ≤ t.task.m_phase ∧ t.task.m_phase < S.task.m_phase)) →
      t ∈ ranTasks pre

/-- What holds of the locals of `execute` between any two steps of the main
loop, as long as the ready queues deliver each local task at most once. -/
structure LoopInv {σ : Type} (localTasks : List DetailedTask) (st : LoopState σ) : Prop where
  done_eq : st.numTasksDone = ((ranTasks st.log).length : Int)
  phase_eq : ∀ k, st.phaseTasksDone k = (phaseCount (ranTasks st.log) k : Int)
  ran_nodup : (ranTasks st.log).Nodup
  ran_popped : ∀ t ∈ ranTasks st.log, t ∈ internalPops st.log
  pend_nodup : st.pending_tasks.Nodup
  pend : ∀ t ∈ st.pending_tasks,
    t ∈ internalPops st.log ∧ t.isSync = false ∧ t ∉ ranTasks st.log
  sync_reg : ∀ k S, st.phaseSyncTask k = some S →
    S ∈ internalPops st.log ∧ S.isSync = true ∧ S.task.m_phase = k
  sync_ran : ∀ S ∈ ranTasks st.log, S.isSync = true →
    st.phaseSyncTask S.task.m_phase = some S ∧
      phaseTasksOf localTasks S.task.m_phase ≤ st.phaseTasksDone S.task.m_phase
  phase_nonneg : 0 ≤ st.currphase
  phases_done : ∀ j, 0 ≤ j → j < st.currphase →
    phaseTasksOf localTasks j ≤ st.phaseTasksDone j
  ordered : SyncAfterPeers localTasks st.log

end Uintah

namespace Uintah

/-! ## The collaborators, modelled from the specification

`DetailedTasks`, `DetailedTask`, `DependencyBatch` and `MPIScheduler` are not
among the sources at hand; what follows is their behaviour as sections 2, 3,
4.2 and 4.3 of the specification describe it. -/

/-- Modelled from the spec: a node of the Detailed Task Graph, which
`DetailedTasks` holds (class not in the sources).  Section 3, "Detailed
Task" and "Dependency Edge": the detailed task, its local predecessor edges
(`preds`, the `id`s of the local tasks that must complete first) and its
remote edges (`recvs`, the messages it requires from other ranks). -/
structure Node where
  dtask : DetailedTask
  preds : List Nat
  recvs : List Nat
  deriving DecidableEq, Repr

/-- Modelled from the spec: what is fixed during one `execute` call outside
`DynamicMPIScheduler.cc`: the Detailed Task Graph; which posted receive a
non-blocking poll finds complete (`ready`, by number of the poll and the
receives outstanding; `none` when it finds none); which outstanding receive
completes first when a poll blocks (`first`, an index into the outstanding
receives); the ready-queue policy of section 4.4 (`policy`, an index into
External-Ready); and the abort flag of the newest data warehouse as a
function of the tasks executed so far (`aborts`). -/
structure World where
  graph : List Node
  ready : Nat → List Nat → Option Nat
  first : Nat → List Nat → Nat
  policy : List DetailedTask → Nat
  aborts : List Nat → Bool

/-- Modelled from the spec: the state of the Dependency Tracker, the Ready
Queues and the Communication Engine (sections 4.2, 4.3; classes not in the
sources): the tasks completed and initiated (by `id`), the messages received,
the receives posted and not yet completed, the two ready queues, and the
number of polls made. -/
structure Tracker where
  done : List Nat
  initiated : List Nat
  received : List Nat
  posted : List Nat
  internalReady : List DetailedTask
  externalReady : List DetailedTask
  polls : Nat
  deriving DecidableEq, Repr

/-- Modelled from the spec: the null pointer a queue of `DetailedTasks` (not
in the sources) hands out when it is empty. -/
def DetailedTask.null : DetailedTask :=
  { id := 0, task := { m_phase := 0, type := TaskType.Normal, usesMPI := false, sortedOrder := 0 } }

/-- Modelled from the spec: the local tasks of the graph, `dts->localTask(i)`
for `i < dts->numLocalTasks()` (`DetailedTasks` is not in the sources). -/
def World.localTasks (W : World) : List DetailedTask :=
  W.graph.map fun n => n.dtask

/-- Modelled from the spec: the remote messages a detailed task requires
(`DetailedTask` is not in the sources; section 3, "Dependency Edge"). -/
def World.recvsOf (W : World) (t : DetailedTask) : List Nat :=
  match W.graph.find? fun n => decide (n.dtask.id = t.id) with
  | some n => n.recvs
  | none => []

/-- Modelled from the spec: `DetailedTask::getExternalDepCount` (not in the
sources), section 2: "external dependency count (number of unsatisfied
incoming messages)". -/
def Tracker.externalDepCount (W : World) (s : Tracker) (t : DetailedTask) : Nat :=
  ((W.recvsOf t).filter fun m => decide (m ∉ s.received)).length

/-- Modelled from the spec: `DetailedTasks::initTimestep` and
`resetDependencyCounts` (not in the sources), section 4.2: nothing is done,
nothing received, and the tasks without unsatisfied local predecessors are
in Internal-Ready. -/
def Tracker.init (W : World) : Tracker :=
  { done := []
    initiated := []
    received := []
    posted := []
    internalReady := (W.graph.filter fun n => n.preds.all fun p => decide (p ∈ ([] : List Nat))).map
      fun n => n.dtask
    externalReady := []
    polls := 0 }

/-- Modelled from the spec: `MPIScheduler::initiateTask` (not in the
sources), section 4.3: a non-blocking receive is posted for every remote
"requires" edge of the task, unless it is already posted or received. -/
def Tracker.initiateTask (W : World) (t : DetailedTask) (s : Tracker) : Tracker :=
  { s with
    posted := s.posted ++
      ((W.recvsOf t).filter fun m => decide (m ∉ s.received ∧ m ∉ s.posted)).dedup }

/-- Modelled from the spec: `DetailedTask::markInitiated` (not in the
sources): the "initiated" flag of section 3 is set. -/
def Tracker.markInitiated (t : DetailedTask) (s : Tracker) : Tracker :=
  { s with initiated := t.id :: s.initiated }

/-- Modelled from the spec: `DetailedTask::checkExternalDepCount` (not in the
sources), section 4.2: an initiated task whose external count is zero moves
to External-Ready. -/
def Tracker.checkExternalDepCount (W : World) (t : DetailedTask) (s : Tracker) : Tracker :=
  if s.externalDepCount W t = 0 ∧ t.id ∈ s.initiated then
    { s with externalReady := s.externalReady ++ [t] }
  else s

/-- Modelled from the spec: the completion of a task, as `runTask` and
`initiateReduction` of `MPIScheduler` (not in the sources) bring it about,
section 4.2: the internal count of every successor is decremented, and a
successor whose count reaches zero moves to Internal-Ready. -/
def Tracker.complete (W : World) (t : DetailedTask) (s : Tracker) : Tracker :=
  { s with
    done := t.id :: s.done
    internalReady := s.internalReady ++
      (W.graph.filter fun n =>
        decide (t.id ∈ n.preds) && n.preds.all fun p => decide (p ∈ t.id :: s.done)).map
        fun n => n.dtask }

/-- Modelled from the spec: the completion of the receive `m` inside
`MPIScheduler::processMPIRecvs` (not in the sources), section 4.3: the
external counts of the tasks waiting on that message are decremented, and
the initiated ones that reach zero move to External-Ready. -/
def Tracker.receive (W : World) (m : Nat) (s : Tracker) : Tracker :=
  { s with
    received := m :: s.received
    posted := s.posted.erase m
    externalReady := s.externalReady ++
      (W.graph.filter fun n =>
        decide (m ∈ n.recvs) && decide (n.dtask.id ∈ s.initiated) &&
          n.recvs.all fun r => decide (r ∈ m :: s.received)).map
        fun n => n.dtask }

/-- Modelled from the spec: `MPIScheduler::processMPIRecvs` (not in the
sources), section 4.3: `TEST` completes a receive only if the poll finds one
complete; `WAIT_ONCE` blocks until one outstanding receive completes, and
returns at once when none is outstanding. -/
def Tracker.processMPIRecvs (W : World) (mode : RecvMode) (s : Tracker) : Tracker :=
  let s1 : Tracker := { s with polls := s.polls + 1 }
  match mode with
  | RecvMode.TEST =>
    match W.ready s.polls s.posted with
    | some m => if m ∈ s.posted then s1.receive W m else s1
    | none => s1
  | RecvMode.WAIT_ONCE =>
    match s.posted[W.first s.polls s.posted % s.posted.length]? with
    | some m => s1.receive W m
    | none => s1

/-- Modelled from the spec: `DetailedTasks::getNextInternalReadyTask` (not
in the sources): the oldest task of Internal-Ready. -/
def Tracker.getNextInternalReadyTask (s : Tracker) : DetailedTask × Tracker :=
  match s.internalReady with
  | t :: rest => (t, { s with internalReady := rest })
  | [] => (DetailedTask.null, s)

/-- Modelled from the spec: `DetailedTasks::getNextExternalReadyTask` (not
in the sources), section 4.4: the policy is queried once per pop and picks
one of the tasks in External-Ready. -/
def Tracker.getNextExternalReadyTask (W : World) (s : Tracker) : DetailedTask × Tracker :=
  match s.externalReady[W.policy s.externalReady % s.externalReady.length]? with
  | some t => (t, { s with externalReady := s.externalReady.erase t })
  | none => (DetailedTask.null, s)

/-- Modelled from the spec: the collaborators of `execute` (`DetailedTasks`,
`DetailedTask`, `MPIScheduler`, the data warehouse; none in the sources)
put together from the pieces above. -/
def World.collab (W : World) : Collab Tracker where
  numInternalReadyTasks s := s.internalReady.length
  getNextInternalReadyTask s := s.getNextInternalReadyTask
  numExternalReadyTasks s := s.externalReady.length
  getNextExternalReadyTask s := s.getNextExternalReadyTask W
  getExternalDepCount t s := (s.externalDepCount W t : Int)
  initiateTask t _ _ s := s.initiateTask W t
  markInitiated t s := s.markInitiated t
  checkExternalDepCount t s := s.checkExternalDepCount W t
  runTask t s := s.complete W t
  initiateReduction t s := s.complete W t
  processMPIRecvs mode s := s.processMPIRecvs W mode
  timestepAborted s := W.aborts s.done

/-- The main loop of `execute` on the graph of `W`, at most `n` passes. -/
def World.loopAfter (W : World) (fuel n : Nat) : Outcome (LoopState Tracker) :=
  Uintah.loopAfter W.collab (phaseTasksOf W.localTasks) (W.localTasks.length : Int) fuel n
    (initLoopState (Tracker.init W))

/-- What is read off a state in the examples: `numTasksDone`, `currphase`,
and the tasks executed (by `id`, oldest first). -/
def LoopState.summary {σ : Type} (st : LoopState σ) : Int × Int × List Nat :=
  (st.numTasksDone, st.currphase, (ranTasks st.log).map fun t => t.id)

/-- The state an outcome carries, if it got through. -/
def Outcome.state? {α : Type} (o : Outcome α) : Option α :=
  match o with
  | Outcome.ok a => some a
  | _ => none

/-- A normal task with the given `id` and phase. -/
def normalTask (id : Nat) (phase : Int) : DetailedTask :=
  { id := id
    task := { m_phase := phase, type := TaskType.Normal, usesMPI := false, sortedOrder := id } }

/-- A reduction task with the given `id` and phase. -/
def reductionTask (id : Nat) (phase : Int) : DetailedTask :=
  { id := id
    task := { m_phase := phase, type := TaskType.Reduction, usesMPI := false, sortedOrder := id } }

/-- A world on the given graph in which a non-blocking poll finds the oldest
outstanding receive complete, a blocking poll is ended by the oldest one,
External-Ready is served oldest first and no abort is signalled. -/
def quietWorld (graph : List Node) : World :=
  { graph := graph
    ready := fun _ posted => posted.head?
    first := fun _ _ => 0
    policy := fun _ => 0
    aborts := fun _ => false }

end Uintah

namespace Uintah

/-! ## The epilogue of `execute`: waiting for the sends -/

/-- The two request pools of `MPIScheduler` that the epilogue reads; a request
is named by a number. -/
structure CommPools where
  m_sends : List Nat
  m_recvs : List Nat
  deriving DecidableEq, Repr

/-- Lines 399-406: the loop that waits on the pending sends.  `find_any` is
`m_sends.find_any(ready_request)`: in the `k`-th pass it yields a position
in the pool or an invalid iterator (`none`).  `fuel` bounds the passes. -/
def waitForSends (find_any : Nat → (sends : List Nat) → Option (Fin sends.length)) :
    Nat → Nat → CommPools → Outcome CommPools
  | 0, _, p => if p.m_sends.length ≠ 0 then Outcome.outOfFuel else Outcome.ok p
  | fuel + 1, k, p =>
    if p.m_sends.length ≠ 0 then
      match find_any k p.m_sends with
      | some i => waitForSends find_any fuel (k + 1) { p with m_sends := p.m_sends.eraseIdx i }
      | none => waitForSends find_any fuel (k + 1) p
    else Outcome.ok p

/-- Lines 398-410: the sends are waited for, then both pools are asserted
empty (`ASSERT` as in `Fault`). -/
def executeEpilogue (find_any : Nat → (sends : List Nat) → Option (Fin sends.length))
    (fuel : Nat) (p : CommPools) : Outcome CommPools :=
  (waitForSends find_any fuel 0 p).andThen fun p1 =>
    if p1.m_sends.length = 0 then
      if p1.m_recvs.length = 0 then Outcome.ok p1 else Outcome.fault Fault.assertRecvs p1
    else Outcome.fault Fault.assertSends p1

/-- A `find_any` that always finds the oldest send complete. -/
def findOldest : Nat → (sends : List Nat) → Option (Fin sends.length) :=
  fun _ sends => if h : 0 < sends.length then some ⟨0, h⟩ else none

/-! ## Example graphs -/

/-- Two tasks of phase 0 without any dependency: a normal task and a
reduction task. -/
def graphBoth : List Node :=
  [ { dtask := normalTask 1 0, preds := [], recvs := [] },
    { dtask := reductionTask 2 0, preds := [], recvs := [] } ]

/-- The state after one pass of the main loop on `graphBoth`. -/
def afterBoth : LoopState Tracker :=
  (((quietWorld graphBoth).loopAfter 5 1).state?).getD
    (initLoopState (Tracker.init (quietWorld graphBoth)))

/-- Phase 0 holds a normal task that requires the remote message 7 and a
reduction task that waits for it; phase 1 holds a normal task without any
dependency. -/
def graphEarly : List Node :=
  [ { dtask := normalTask 1 0, preds := [], recvs := [7] },
    { dtask := reductionTask 2 0, preds := [1], recvs := [] },
    { dtask := normalTask 3 1, preds := [], recvs := [] } ]

/-- The state after one pass of the main loop on `graphEarly`. -/
def afterEarly1 : LoopState Tracker :=
  (((quietWorld graphEarly).loopAfter 5 1).state?).getD
    (initLoopState (Tracker.init (quietWorld graphEarly)))

/-- The state after four passes of the main loop on `graphEarly`. -/
def afterEarly : LoopState Tracker :=
  (((quietWorld graphEarly).loopAfter 5 4).state?).getD
    (initLoopState (Tracker.init (quietWorld graphEarly)))

/-- A normal task of phase 0 and a reduction task of phase 1, without any
dependency. -/
def graphLater : List Node :=
  [ { dtask := normalTask 1 0, preds := [], recvs := [] },
    { dtask := reductionTask 2 1, preds := [], recvs := [] } ]

/-- The state after two passes of the main loop on `graphLater`. -/
def afterLater : LoopState Tracker :=
  (((quietWorld graphLater).loopAfter 5 2).state?).getD
    (initLoopState (Tracker.init (quietWorld graphLater)))

end Uintah

namespace Uintah

/-! ## Valid graphs and termination -/

/-- Modelled from the spec: the remote messages of the graph (section 3,
"Dependency Edge"; `DetailedTasks` is not in the sources). -/
def World.allMsgs (W : World) : List Nat :=
  (W.graph.map fun n => n.recvs).flatten

/-- The largest phase of the graph, or 0. -/
def World.maxPhase (W : World) : Int :=
  W.graph.foldl (fun m n => max m n.dtask.task.m_phase) 0

/-- Modelled from the spec: "depends on, directly or transitively" (section 8,
P3) along the local dependency edges of the graph (`DetailedTasks` is not in
the sources): the task with `id` `a` waits, directly or through other local
tasks, for the task with `id` `b`. -/
inductive World.DependsOn (W : World) : Nat → Nat → Prop where
  | edge {n : Node} {p : Nat} : n ∈ W.graph → p ∈ n.preds → World.DependsOn W n.dtask.id p
  | step {n : Node} {p b : Nat} : n ∈ W.graph → p ∈ n.preds → World.DependsOn W p b →
      World.DependsOn W n.dtask.id b

/-- A valid Detailed Task Graph in the sense of claim C6: the tasks are
distinct objects and the local edges join local tasks; the graph is acyclic
(the tasks can be ranked so that every task ranks above its predecessors);
no phase is negative; each phase has at most one synchronization task.
That every posted receive eventually completes is part of `World`: a
blocking poll always completes an outstanding receive. -/
structure World.ValidGraph (W : World) : Prop where
  ids_nodup : (W.graph.map fun n => n.dtask.id).Nodup
  preds_local : ∀ n ∈ W.graph, ∀ p ∈ n.preds, ∃ m ∈ W.graph, m.dtask.id = p
  acyclic : ∃ rank : Nat → Nat, ∀ n ∈ W.graph, ∀ p ∈ n.preds, rank p < rank n.dtask.id
  phase_nonneg : ∀ n ∈ W.graph, 0 ≤ n.dtask.task.m_phase
  one_sync : OneSyncPerPhase W.localTasks

/-- What the main loop needs on top of `ValidGraph` to terminate: no task
depends, directly or transitively, on a synchronization task of its own or
of a later phase; a synchronization task that is not a reduction has no
remote "requires" (section 4.5, step 3: "by construction"); and the data
warehouse does not signal a timestep abort. -/
structure World.Schedulable (W : World) : Prop where
  sync_before : ∀ n ∈ W.graph, ∀ s ∈ W.graph, s.dtask.isSync = true →
    World.DependsOn W n.dtask.id s.dtask.id → s.dtask.task.m_phase < n.dtask.task.m_phase
  sync_no_recvs : ∀ n ∈ W.graph, n.dtask.isSync = true →
    n.dtask.task.type ≠ TaskType.Reduction → n.recvs = []
  no_abort : ∀ done, W.aborts done = false

/-- The main loop of `execute` on the graph of `W`, given `n` passes at
most. -/
def World.mainLoop (W : World) (fuel n : Nat) : Outcome (LoopState Tracker) :=
  Uintah.mainLoop W.collab (phaseTasksOf W.localTasks) (W.localTasks.length : Int) fuel n
    (initLoopState (Tracker.init W))

/-- How far an `execute` call has got: the tasks popped from Internal-Ready,
the tasks executed, the messages received and the phases passed. -/
def score (st : LoopState Tracker) : Nat :=
  (internalPops st.log).length + (ranTasks st.log).length + st.env.received.length
    + st.currphase.toNat

/-- The Internal-Ready queue and the set of completed tasks agree with the
calls made: the completed tasks are the executed ones, the queue holds local
tasks that were not popped yet, and a task has all its local predecessors
completed exactly when it is in the queue or was popped from it. -/
structure QueueOK (W : World) (done : List Nat) (queue pops ran : List DetailedTask) :
    Prop where
  done_iff : ∀ i, i ∈ done ↔ ∃ t ∈ ran, t.id = i
  nodup : queue.Nodup
  fresh : ∀ t ∈ queue, t ∈ W.localTasks ∧ t ∉ pops
  ready_iff : ∀ n ∈ W.graph, (∀ p ∈ n.preds, p ∈ done) ↔ (n.dtask ∈ queue ∨ n.dtask ∈ pops)

/-- Every task popped from Internal-Ready is accounted for: a synchronization
task is registered under its phase, any other task is pending or executed. -/
structure PoppedOK (pops : List DetailedTask) (syncs : Int → Option DetailedTask)
    (pending ran : List DetailedTask) : Prop where
  sync : ∀ t ∈ pops, t.isSync = true → syncs t.task.m_phase = some t
  normal : ∀ t ∈ pops, t.isSync = false → t ∈ pending ∨ t ∈ ran

/-- The External-Ready queue, the pending set and the receives agree: the
queue holds pending tasks whose messages have all arrived; a pending task is
initiated, is in the queue or misses a message, and each message it misses
is posted; an initiated task is pending or has all its messages; posted
receives are outstanding. -/
structure CommOK (W : World) (initiated received posted : List Nat)
    (extq pending : List DetailedTask) : Prop where
  ext_nodup : extq.Nodup
  ext : ∀ t ∈ extq, t ∈ pending ∧ ∀ m ∈ W.recvsOf t, m ∈ received
  pend : ∀ t ∈ pending, t.id ∈ initiated ∧
    (t ∈ extq ∨ ∃ m ∈ W.recvsOf t, m ∉ received) ∧
    (∀ m ∈ W.recvsOf t, m ∉ received → m ∈ posted)
  init : ∀ n ∈ W.graph, n.dtask.id ∈ initiated →
    n.dtask ∈ pending ∨ ∀ m ∈ n.recvs, m ∈ received
  posted_nodup : posted.Nodup
  posted_out : ∀ m ∈ posted, m ∉ received ∧ m ∈ W.allMsgs
  recv_nodup : received.Nodup
  recv_sub : ∀ m ∈ received, m ∈ W.allMsgs

/-- What holds of the locals of `execute` and of the modelled collaborators
between any two steps of the main loop. -/
structure Sys (W : World) (st : LoopState Tracker) : Prop where
  inv : LoopInv W.localTasks st
  once : DeliversOnce W.localTasks st.log
  queue : QueueOK W st.env.done st.env.internalReady (internalPops st.log) (ranTasks st.log)
  popped : PoppedOK (internalPops st.log) st.phaseSyncTask st.pending_tasks (ranTasks st.log)
  comm : CommOK W st.env.initiated st.env.received st.env.posted st.env.externalReady
    st.pending_tasks
  phase_le : st.currphase ≤ W.maxPhase

/-- A reduction task of phase 0 without any dependency, and a normal task of
phase 0 that waits for it. -/
def graphStuck : List Node :=
  [ { dtask := reductionTask 1 0, preds := [], recvs := [] },
    { dtask := normalTask 2 0, preds := [1], recvs := [] } ]

/-- The state the main loop is caught in on `graphStuck`: nothing is done,
the reduction task is registered for phase 0, both ready queues are empty,
no receive is outstanding and no task is completed. -/
structure Stuck (st : LoopState Tracker) : Prop where
  none_done : st.numTasksDone = 0
  phase : st.currphase = 0
  phase_done : st.phaseTasksDone 0 = 0
  registered : st.phaseSyncTask 0 = some (reductionTask 1 0)
  internal : st.env.internalReady = []
  external : st.env.externalReady = []
  posted : st.env.posted = []
  done : st.env.done = []

end Uintah

namespace Uintah

/-! ## The life of a task, and step 1 of the loop body in the words of the
specification -/

/-- The fault an outcome carries, with the state reached, if it failed. -/
def Outcome.reached? {α : Type} (o : Outcome α) : Option (Fault × α) :=
  match o with
  | Outcome.fault f a => some (f, a)
  | _ => none

/-- The task `t` was popped from Internal-Ready and initiated right after. -/
def Initiated (log : List Call) (t : DetailedTask) : Prop :=
  ∃ a b, log = a ++ Call.getNextInternalReadyTask t :: Call.initiateTask t :: b

/-- A property of the call log: whenever a task that is not a
synchronization task was handed to `runTask`, it had been popped from
Internal-Ready and initiated, and it was popped from External-Ready just
before. -/
def Lifecycle (log : List Call) : Prop :=
  ∀ (pre post : List Call) (t : DetailedTask), log = pre ++ Call.runTask t :: post →
    t.isSync = false →
    ∃ a b, pre = a ++ Call.getNextInternalReadyTask t :: Call.initiateTask t :: b
      ++ [Call.getNextExternalReadyTask t]

/-- What holds of the pending set and the registered tasks between any two
steps of the main loop, whatever the collaborators do. -/
structure LifeInv {σ : Type} (st : LoopState σ) : Prop where
  pend_init : ∀ t ∈ st.pending_tasks, Initiated st.log t
  cycle : Lifecycle st.log

/-- Section 4.5, step 1, in the words of the specification: the
registrations after the tasks `popped` were taken from Internal-Ready, each
synchronization task being registered under its own phase. -/
def registerAll (syncs : Int → Option DetailedTask) (popped : List DetailedTask) :
    Int → Option DetailedTask :=
  popped.foldl (fun m t => if t.isSync = true then mapSet m t.task.m_phase (some t) else m) syncs

/-- Section 4.5, step 1, in the words of the specification: the pending set
after the tasks `popped` were taken from Internal-Ready, each task that is
not a synchronization task being added. -/
def pendAll (pending : List DetailedTask) (popped : List DetailedTask) : List DetailedTask :=
  popped.foldl (fun p t => if t.isSync = true then p else p.insert t) pending

/-- Section 4.5, step 1, in the words of the specification: the calls made
for the tasks `popped`: a pop for each, followed by `initiateTask` unless
the task is a synchronization task. -/
def drainCalls (popped : List DetailedTask) : List Call :=
  (popped.map fun t =>
    if t.isSync = true then [Call.getNextInternalReadyTask t]
    else [Call.getNextInternalReadyTask t, Call.initiateTask t]).flatten

/-- Section 4.5, step 1, in the words of the specification: the collaborator
state after the tasks `popped` were taken from Internal-Ready one after the
other, each task that is not a synchronization task being initiated, marked
initiated and checked for its external dependency count. -/
def drainEnv {σ : Type} (E : Collab σ) (abort : Bool) (abort_point : Int) :
    List DetailedTask → σ → σ
  | [], env => env
  | t :: rest, env =>
    let env1 := (E.getNextInternalReadyTask env).2
    if t.isSync = true then drainEnv E abort abort_point rest env1
    else
      drainEnv E abort abort_point rest
        (E.checkExternalDepCount t (E.markInitiated t (E.initiateTask t abort abort_point env1)))

/-- The tasks `popped` are what Internal-Ready hands out, one after the
other, from the state `env` on, until it is empty. -/
def PoppedFrom {σ : Type} (E : Collab σ) (abort : Bool) (abort_point : Int) :
    List DetailedTask → σ → Prop
  | [], env => E.numInternalReadyTasks env = 0
  | t :: rest, env =>
    0 < E.numInternalReadyTasks env ∧ (E.getNextInternalReadyTask env).1 = t ∧
      PoppedFrom E abort abort_point rest (drainEnv E abort abort_point [t] env)

instance PoppedFrom.decidable {σ : Type} (E : Collab σ) (abort : Bool) (abort_point : Int) :
    ∀ (popped : List DetailedTask) (env : σ), Decidable (PoppedFrom E abort abort_point popped env)
  | [], env => inferInstanceAs (Decidable (E.numInternalReadyTasks env = 0))
  | t :: rest, env =>
    have := PoppedFrom.decidable E abort abort_point rest (drainEnv E abort abort_point [t] env)
    inferInstanceAs (Decidable (0 < E.numInternalReadyTasks env ∧
      (E.getNextInternalReadyTask env).1 = t ∧
      PoppedFrom E abort abort_point rest (drainEnv E abort abort_point [t] env)))

/-! ## Restart, sub-schedulers, and more example worlds -/

/-- Modelled from the spec: a data warehouse (`OnDemandDataWarehouse`, not in
the sources), section 6, as far as the end of `execute` uses it: the flag
`timestepRestarted()` reads and `restartTimestep()` sets, and the flag
`setRestarted()` sets. -/
structure DataWarehouse where
  restart : Bool
  hasRestarted : Bool
  deriving DecidableEq, Repr

/-- Modelled from the spec: `DataWarehouse::restartTimestep` (not in the
sources), section 6: the data warehouse is told to restart the timestep,
which is what `timestepRestarted()` reports from then on. -/
def DataWarehouse.restartTimestep (dw : DataWarehouse) : DataWarehouse :=
  { dw with restart := true }

/-- Modelled from the spec: `DataWarehouse::setRestarted` (not in the
sources), section 6: the data warehouse is marked as belonging to a
restarted timestep. -/
def DataWarehouse.setRestarted (dw : DataWarehouse) : DataWarehouse :=
  { dw with hasRestarted := true }

/-- The newest data warehouse, `m_dws[m_dws.size() - 1]`; `none` is a null
handle (or no generation at all). -/
def newestDW : List (Option DataWarehouse) → Option DataWarehouse
  | [] => none
  | [d] => d
  | _ :: d :: rest => newestDW (d :: rest)

/-- Line 421: `m_dws[m_dws.size() - 1]->restartTimestep()`. -/
def restartNewest : List (Option DataWarehouse) → List (Option DataWarehouse)
  | [] => []
  | [d] => [d.map DataWarehouse.restartTimestep]
  | d0 :: d :: rest => d0 :: restartNewest (d :: rest)

/-- Lines 422-424: `if (m_dws[0]) m_dws[0]->setRestarted()`. -/
def setRestartedOldest : List (Option DataWarehouse) → List (Option DataWarehouse)
  | [] => []
  | d :: rest => d.map DataWarehouse.setRestarted :: rest

/-- Lines 413-426 on all the ranks of the communicator at once: `ranks`
holds the `m_dws` of each rank, `m_restartable` and the task graphs are the
same on every rank, and `Allreduce` with `MPI_LOR` yields on every rank the
disjunction of the flags of all ranks. -/
def propagateRestart (m_restartable : Bool) (tgnum : Int) (numTaskGraphs : Nat)
    (ranks : List (List (Option DataWarehouse))) :
    Outcome (List (List (Option DataWarehouse))) :=
  if m_restartable = true ∧ tgnum = (numTaskGraphs : Int) - 1 then
    if ranks.all (fun m_dws => (newestDW m_dws).isSome) = true then
      let netrestart : Bool :=
        ranks.any fun m_dws =>
          match newestDW m_dws with
          | some dw => dw.restart
          | none => false
      if netrestart = true then
        Outcome.ok (ranks.map fun m_dws => setRestartedOldest (restartNewest m_dws))
      else Outcome.ok ranks
    else Outcome.fault Fault.nullDataWarehouse ranks
  else Outcome.ok ranks

/-- Modelled from the spec: the members of `MPIScheduler`, `SchedulerCommon`
and `UintahParallelComponent` (not in the sources) that `createSubScheduler`
reads and writes: the process group, the output port, the parent scheduler
(an address, or null), the shared state (a handle, or null) and the ports
attached by name, newest first. -/
structure SchedulerBase where
  d_myworld : Nat
  m_out_port : Nat
  m_parent_scheduler : Option Nat
  m_shared_state : Option Nat
  ports : List (String × Option Nat)
  deriving DecidableEq, Repr

/-- Modelled from the spec: the constructor of `MPIScheduler` (not in the
sources), section 6: the scheduler keeps the process group, the output port
and the parent scheduler it is given; it has no shared state and no port
yet. -/
def MPIScheduler.new (myworld oport : Nat) (parentScheduler : Option Nat) : SchedulerBase :=
  { d_myworld := myworld
    m_out_port := oport
    m_parent_scheduler := parentScheduler
    m_shared_state := none
    ports := [] }

/-- Modelled from the spec: `UintahParallelComponent::getPort` (not in the
sources): the port attached last under the name, or null. -/
def SchedulerBase.getPort (s : SchedulerBase) (name : String) : Option Nat :=
  match s.ports.find? fun p => decide (p.1 = name) with
  | some p => p.2
  | none => none

/-- Modelled from the spec: `UintahParallelComponent::attachPort` (not in
the sources): the port is attached under the name. -/
def SchedulerBase.attachPort (s : SchedulerBase) (name : String) (port : Option Nat) :
    SchedulerBase :=
  { s with ports := (name, port) :: s.ports }

/-- `DynamicMPIScheduler::createSubScheduler`, lines 152-161.  `heap` holds
the scheduler objects by address, `this` is the address of the parent;
`scinew` puts the new object at the next free address, which is returned. -/
def createSubScheduler (heap : List (DynamicMPIScheduler SchedulerBase)) (this : Nat) :
    Option (List (DynamicMPIScheduler SchedulerBase) × Nat) :=
  match heap[this]? with
  | none => none
  | some self =>
    let lbp := self.common.getPort "load balancer"
    let newsched0 : DynamicMPIScheduler SchedulerBase :=
      DynamicMPIScheduler.new
        (MPIScheduler.new self.common.d_myworld self.common.m_out_port (some this))
    let newsched1 : DynamicMPIScheduler SchedulerBase :=
      { newsched0 with
        common := { newsched0.common with m_shared_state := self.common.m_shared_state } }
    let newsched2 : DynamicMPIScheduler SchedulerBase :=
      { newsched1 with common := newsched1.common.attachPort "load balancer" lbp }
    let newsched3 : DynamicMPIScheduler SchedulerBase :=
      { newsched2 with
        common := { newsched2.common with m_shared_state := self.common.m_shared_state } }
    some (heap ++ [newsched3], heap.length)

/-- A world like `quietWorld` whose newest data warehouse reports the
timestep aborted as soon as one task was executed. -/
def abortingWorld (graph : List Node) : World :=
  { quietWorld graph with aborts := fun done => !done.isEmpty }

/-- Two reduction tasks of phase 0 without any dependency. -/
def graphTwoSync : List Node :=
  [ { dtask := reductionTask 1 0, preds := [], recvs := [] },
    { dtask := reductionTask 2 0, preds := [], recvs := [] } ]

/-- The state after one pass of the main loop on `graphLater`. -/
def afterLater1 : LoopState Tracker :=
  (((quietWorld graphLater).loopAfter 5 1).state?).getD
    (initLoopState (Tracker.init (quietWorld graphLater)))

/-- The state after one pass of the main loop on `graphTwoSync`. -/
def afterTwoSync : LoopState Tracker :=
  (((quietWorld graphTwoSync).loopAfter 5 1).state?).getD
    (initLoopState (Tracker.init (quietWorld graphTwoSync)))

/-- The state in which the main loop fails on `graphEarly` when the newest
data warehouse reports the timestep aborted as soon as one task was
executed. -/
def abortedEarly : LoopState Tracker :=
  ((((abortingWorld graphEarly).loopAfter 5 1).reached?).map fun p => p.2).getD
    (initLoopState (Tracker.init (abortingWorld graphEarly)))

/-- The state in which the main loop fails on `graphLater` when the newest
data warehouse reports the timestep aborted as soon as one task was
executed. -/
def abortedLater : LoopState Tracker :=
  ((((abortingWorld graphLater).loopAfter 5 1).reached?).map fun p => p.2).getD
    (initLoopState (Tracker.init (abortingWorld graphLater)))

/-- A state of the main loop on `graphEarly` in which External-Ready holds
the pending task 1 although its message 7 has not arrived. -/
def earlyUnreceived : LoopState Tracker :=
  { initLoopState
      { Tracker.init (quietWorld graphEarly) with
        internalReady := []
        externalReady := [normalTask 1 0] } with
    pending_tasks := [normalTask 1 0] }

/-- A parent scheduler at address 0: process group 7, output port 3, policy
`Stack`, shared state 11, load balancer 5 attached. -/
def parentHeap : List (DynamicMPIScheduler SchedulerBase) :=
  [ { m_task_queue_alg := QueueAlg.Stack
      common :=
        { d_myworld := 7
          m_out_port := 3
          m_parent_scheduler := none
          m_shared_state := some 11
          ports := [("load balancer", some 5)] } } ]

end Uintah

namespace Uintah

/-! ## More about the registered synchronization tasks -/

/-- Every task registered in `phaseSyncTask` is a synchronization task and is
registered under its own phase. -/
def SyncRegistered {σ : Type} (st : LoopState σ) : Prop :=
  ∀ k S, st.phaseSyncTask k = some S → S.isSync = true ∧ S.task.m_phase = k

/-- A property of the call log: every synchronization task that was executed
has a phase that is not negative. -/
def RanSyncPhases (log : List Call) : Prop :=
  ∀ S ∈ ranTasks log, S.isSync = true → 0 ≤ S.task.m_phase

/-- A once-per-process task that uses MPI, with the given `id` and phase. -/
def oncePerProcTask (id : Nat) (phase : Int) : DetailedTask :=
  { id := id
    task :=
      { m_phase := phase, type := TaskType.OncePerProc, usesMPI := true, sortedOrder := id } }

/-- A normal task of phase 0 and a once-per-process task of phase 0 that
waits for it; no remote message is required. -/
def graphOpp : List Node :=
  [ { dtask := normalTask 1 0, preds := [], recvs := [] },
    { dtask := oncePerProcTask 2 0, preds := [1], recvs := [] } ]

/-- The state after two passes of the main loop on `graphOpp`. -/
def afterOpp : LoopState Tracker :=
  (((quietWorld graphOpp).loopAfter 5 2).state?).getD
    (initLoopState (Tracker.init (quietWorld graphOpp)))

/-- A scheduler at address 0 that `problemSetup` has configured with the
policy `Stack`. -/
def configuredHeap : List (DynamicMPIScheduler SchedulerBase) :=
  [ (problemSetup (fun (_ : ProblemSpec) (b : SchedulerBase) => (b, (none : Option Unit)))
      (specWithAlg "Stack") (DynamicMPIScheduler.new (MPIScheduler.new 7 3 none))).1 ]

end Uintah

namespace Uintah

/-! # The other components

Conventions
* a C++ `double` is a rational number (`ℚ`): the arithmetic is exact.
* a C++ `int` is an `Int`; where the code computes with it, the result is
  wrapped to 32 bits (`wrap32`).  Signed overflow is undefined in C++, so a
  theorem that depends on such a result assumes that it is in range.
-/

/-- The largest `int`. -/
def INT_MAX : Int := 2147483647

/-- The smallest `int`. -/
def INT_MIN : Int := -2147483648

/-- The 32-bit two's-complement value of an integer. -/
def wrap32 (x : Int) : Int := (x + 2147483648) % 4294967296 - 2147483648

/-- Modelled from the spec: the exception `ProblemSetupException`
(`Core/Exceptions/ProblemSetupException.h`, not in the sources), built from
a message, `__FILE__` and `__LINE__`; the file is left out. -/
structure ProblemSetupException where
  msg : String
  line : Nat
  deriving DecidableEq, Repr

/-- Modelled from the spec: the class `IntVector` (`Core/Geometry/IntVector.h`,
not in the sources): three `int` components, added and multiplied
componentwise. -/
structure IntVector where
  x : Int
  y : Int
  z : Int
  deriving DecidableEq, Repr

instance : Add IntVector := ⟨fun a b => ⟨a.x + b.x, a.y + b.y, a.z + b.z⟩⟩

instance : Mul IntVector := ⟨fun a b => ⟨a.x * b.x, a.y * b.y, a.z * b.z⟩⟩

/-! ## `meanTurbFluxes` (`OnTheFlyAnalysis/meanTurbFluxes.cc`) -/

/-- Modelled from the spec: the enumeration `TypeDescription::Type`
(`Core/Disclosure/TypeDescription.h`, not in the sources).
`meanTurbFluxes.cc` names the enumerators `CCVariable` and `double_type`;
the others stand for the remaining kinds of variable and of element. -/
inductive TypeKind where
  | CCVariable
  | NCVariable
  | SFCXVariable
  | ParticleVariable
  | double_type
  | int_type
  | Vector
  | Other
  deriving DecidableEq, Repr

/-- Modelled from the spec: a variable label (`VarLabel`, not in the
sources), as far as `problemSetup` reads it: `getName()`,
`typeDescription()->getType()` and
`typeDescription()->getSubType()->getType()`. -/
structure VarLabel where
  name : String
  baseType : TypeKind
  subType : TypeKind
  deriving DecidableEq, Repr

/-- The entry pushed onto `d_Qvars` for an `<analyze>` block, lines 261-269. -/
structure Qvar where
  label : VarLabel
  primeLabel : VarLabel
  turbFluxLabel : VarLabel
  matl : Int
  level : Int
  baseType : TypeKind
  subType : TypeKind
  deriving DecidableEq, Repr

/-- Line 53: `#define ALL_LEVELS 99`. -/
def ALL_LEVELS : Int := 99

/-- The body of the loop over the `<analyze>` blocks of
`meanTurbFluxes::problemSetup`, lines 207-269.  `attrs` is the map `attribute` filled
by `getAttributes` (read with `operator[]`, so a missing key is the empty
string), `find` is `VarLabel::find`, `atoi` is the C function and
`defaultMatl` the index computed at line 143. -/
def meanTurbFluxes.analyze (find : String → Option VarLabel) (atoi : String → Int)
    (defaultMatl : Int) (attrs : String → String) : Except ProblemSetupException Qvar :=
  let labelName := attrs "label"
  match find labelName with
  | none =>
    Except.error
      { msg := "meanTurbFluxes: analyze label not found: " ++ labelName, line := 214 }
  | some label =>
    let baseType := label.baseType
    let subType := label.subType
    if baseType ≠ TypeKind.CCVariable ∧ subType ≠ TypeKind.double_type then
      Except.error
        { msg := "ERROR:AnalysisModule:meanTurbFluxes: (" ++ label.name ++ " "
            ++ " only CCVariable<double> variables work" ++ "\n"
          line := 231 }
    else
      let primeLabel : VarLabel :=
        { name := labelName ++ "_prime"
          baseType := TypeKind.CCVariable
          subType := TypeKind.double_type }
      let turbFluxLabel : VarLabel :=
        { name := labelName ++ "_turbFlux"
          baseType := TypeKind.CCVariable
          subType := TypeKind.Vector }
      if labelName = "press_CC" ∧ attrs "matl" = "" then
        Except.error
          { msg := "meanTurbFluxes: You must add (matl=\x270\x27) to the press_CC line."
            line := 244 }
      else
        let level := if attrs "level" ≠ "" then atoi (attrs "level") else ALL_LEVELS
        let matl := if attrs "matl" ≠ "" then atoi (attrs "matl") else defaultMatl
        Except.ok
          { label := label
            primeLabel := primeLabel
            turbFluxLabel := turbFluxLabel
            matl := matl
            level := level
            baseType := baseType
            subType := subType }

/-- The loop over the `<analyze>` blocks of `meanTurbFluxes::problemSetup`,
lines 205-270: `blocks` holds the attribute map of each block in document
order, `d_Qvars` the entries pushed so far.  The part of `problemSetup`
before the loop (timing, materials, plane orientation, velocity label) is
not translated. -/
def meanTurbFluxes.problemSetup (find : String → Option VarLabel) (atoi : String → Int)
    (defaultMatl : Int) :
    List (String → String) → List Qvar → Except ProblemSetupException (List Qvar)
  | [], d_Qvars => Except.ok d_Qvars
  | attrs :: rest, d_Qvars =>
    match meanTurbFluxes.analyze find atoi defaultMatl attrs with
    | Except.error e => Except.error e
    | Except.ok me => meanTurbFluxes.problemSetup find atoi defaultMatl rest (d_Qvars ++ [me])

/-- Modelled from the spec: the class `Vector` (`Core/Geometry/Vector.h`, not
in the sources): three components read by `x()`, `y()` and `z()`; `u()`,
`v()` and `w()` are second names of the same three accessors, so `w()` reads
the third component. -/
structure Vector (α : Type) where
  x : α
  y : α
  z : α
  deriving DecidableEq, Repr

/-- Modelled from the spec: `Vector::w()` (not in the sources), the third
component. -/
def Vector.w {α : Type} (v : Vector α) : α := v.z

/-- Writing `var[c] = v` in a cell-centred variable. -/
def setCell {β : Type} (var : IntVector → β) (c : IntVector) (v : β) : IntVector → β :=
  fun d => if d = c then v else var d

/-- The loop over the cells of a patch that computes the turbulent stresses
in `meanTurbFluxes::calc_TurbFluxes`, lines 535-552.  `cells` is what the
cell iterator of the patch runs through; the result is `diag` (the normal
stress) and `offdiag` (the shear stress). -/
def meanTurbFluxes.calc_TurbFluxes {α : Type} [Mul α] (cells : List IntVector)
    (velPrime : IntVector → Vector α) (diag offdiag : IntVector → Vector α) :
    (IntVector → Vector α) × (IntVector → Vector α) :=
  cells.foldl
    (fun r c =>
      let vel := velPrime c
      (setCell r.1 c { x := vel.x * vel.x, y := vel.y * vel.y, z := vel.z * vel.z },
       setCell r.2 c { x := vel.x * vel.y, y := vel.y * vel.w, z := vel.z * vel.z }))
    (diag, offdiag)

/-! ## The LGMRES solver (`Solvers/HypreSStruct/detail/sstruct_LGMRES.h`) -/

/-- Modelled from the spec: the solver parameters (`SolverParams`, not in
the sources) that `solverInitialize` forwards; the value -1 stands for "not
set".  The parameters named in `IGNOREPARAM` are left out. -/
structure SolverParams where
  tol : ℚ
  abs_tol : ℚ
  cf_tol : ℚ
  min_iter : Int
  max_iter : Int
  two_norm : Int
  k_dim : Int
  aug_dim : Int
  logging : Int
  deriving DecidableEq, Repr

/-- The calls of the HYPRE library made by `solverInitialize`, with the value
passed. -/
inductive HypreCall where
  | SStructLGMRESCreate
  | LGMRESSetTol (v : ℚ)
  | LGMRESSetAbsoluteTol (v : ℚ)
  | LGMRESSetConvergenceFactorTol (v : ℚ)
  | LGMRESSetMinIter (v : Int)
  | LGMRESSetMaxIter (v : Int)
  | LGMRESSetKDim (v : Int)
  | LGMRESSetAugDim (v : Int)
  | LGMRESSetLogging (v : Int)
  deriving DecidableEq, Repr

/-- The solver `sstruct_solver<S::LGMRES>`, `solverInitialize`, lines 78-115:
the calls made, in order, and the new value of `solver_initialized`; `none`
when `ASSERT ( !solver_initialized )` fails.  The macro `IGNOREPARAM` (not in
the sources) makes no call of the library. -/
def solverInitialize (solver_initialized : Bool) (params : SolverParams) :
    Option (List HypreCall × Bool) :=
  if solver_initialized = true then none
  else
    some
      ([HypreCall.SStructLGMRESCreate]
        ++ (if params.tol ≠ -1 then [HypreCall.LGMRESSetTol params.tol] else [])
        ++ (if params.abs_tol ≠ -1 then [HypreCall.LGMRESSetAbsoluteTol params.abs_tol] else [])
        ++ (if params.cf_tol ≠ -1 then [HypreCall.LGMRESSetConvergenceFactorTol params.cf_tol]
            else [])
        ++ (if params.min_iter ≠ -1 then [HypreCall.LGMRESSetMinIter params.min_iter] else [])
        ++ (if params.max_iter ≠ -1 then [HypreCall.LGMRESSetMaxIter params.max_iter] else [])
        ++ (if params.two_norm ≠ -1 then [HypreCall.LGMRESSetKDim params.k_dim] else [])
        ++ (if params.two_norm ≠ -1 then [HypreCall.LGMRESSetAugDim params.aug_dim] else [])
        ++ (if params.logging ≠ -1 then [HypreCall.LGMRESSetLogging params.logging] else []),
       true)

/-- Solver parameters with nothing set. -/
def unsetParams : SolverParams :=
  { tol := -1, abs_tol := -1, cf_tol := -1, min_iter := -1, max_iter := -1, two_norm := -1,
    k_dim := -1, aug_dim := -1, logging := -1 }

/-! ## The arm post-processors (`PhaseField/PostProcess`) -/

/-- The first loop of `ArmPostProcessorTanhParallel::initializeData`, line
361: `for ( i = n; i > 0 && m_locations[i - 1] == INT_MAX; --i );`, started
at `i = n`; the result is the final `i`. -/
def skipUnset (m_locations : List Int) : Nat → Nat
  | 0 => 0
  | i + 1 => if m_locations.getD i 0 = INT_MAX then skipUnset m_locations i else i + 1

/-- The second loop of `initializeData`, line 366:
`for ( ; i > 1 && m_locations[i - 2] < INT_MAX && m_locations[i - 2] >= m_locations[i]; --i );`,
started at `i`; the result is the final `i`. -/
def skipBack (m_locations : List Int) : Nat → Nat
  | 0 => 0
  | 1 => 1
  | i + 2 =>
    if m_locations.getD i 0 < INT_MAX ∧ m_locations.getD i 0 ≥ m_locations.getD (i + 2) 0 then
      skipBack m_locations (i + 1)
    else i + 2

/-- The method `ArmPostProcessorTanhParallel::initializeData`, lines 360-374:
the values of `m_data_n0` and `m_data_size` computed from the array
`m_locations` (whose length is `m_locations_size`).  Every element read by
the two loops lies inside the array. -/
def initializeData (m_locations : List Int) : Int × Int :=
  let i := skipUnset m_locations m_locations.length
  let m_data_size : Int := i
  if m_data_size ≠ 0 then
    let i2 := skipBack m_locations (i - 1)
    let m_data_n0 : Int := (i2 : Int) - 1
    (m_data_n0, m_data_size - m_data_n0)
  else (-1, m_data_size)

/-- Modelled from the spec: the enumeration `VarType` of the PhaseField
component (not in the sources): cell-centred or node-centred. -/
inductive VarType where
  | CC
  | NC
  deriving DecidableEq, Repr

/-- Modelled from the spec: the enumeration `DimType` of the PhaseField
component (not in the sources). -/
inductive DimType where
  | D1
  | D2
  | D3
  deriving DecidableEq, Repr

/-- The `<ArmPostProcessor>` block handed to `ArmPostProcessorFactory::create`,
as far as it is read: the `type` attribute and the entries read with
`getWithDefault`. -/
structure ArmSpec where
  type : Option String
  ints : List (String × Int)
  doubles : List (String × ℚ)
  deriving DecidableEq, Repr

/-- Modelled from the spec: `ProblemSpec::getWithDefault` (not in the
sources) for an `int`: the value of the entry, or the default. -/
def ArmSpec.getInt (spec : ArmSpec) (name : String) (defaultVal : Int) : Int :=
  match spec.ints.find? fun p => decide (p.1 = name) with
  | some p => p.2
  | none => defaultVal

/-- Modelled from the spec: `ProblemSpec::getWithDefault` (not in the
sources) for a `double`: the value of the entry, or the default. -/
def ArmSpec.getDouble (spec : ArmSpec) (name : String) (defaultVal : ℚ) : ℚ :=
  match spec.doubles.find? fun p => decide (p.1 = name) with
  | some p => p.2
  | none => defaultVal

/-- The arguments of the constructors of the polynomial post-processors. -/
structure PolyArgs where
  npts0 : Int
  npts1 : Int
  npts2 : Int
  npts3 : Int
  deg0 : Int
  deg1 : Int
  deg2 : Int
  deg3 : Int
  alpha : ℚ
  dbg : Bool
  deriving DecidableEq, Repr

/-- The arguments of the constructors of the tanh post-processors, in the
order passed. -/
structure TanhArgs where
  ftol : ℚ
  xtol : ℚ
  gtol : ℚ
  trtol : ℚ
  max_nfev : Int
  max_triter : Int
  npts0 : Int
  npts3 : Int
  npts1 : Int
  alpha : ℚ
  dbg : Bool
  deriving DecidableEq, Repr

/-- The object `create` returns: the class instantiated and the arguments of
its constructor. -/
inductive ArmPostProcessor where
  | PolyD3 (args : PolyArgs)
  | PolyD2Diagonal (args : PolyArgs)
  | PolyD2Parallel (args : PolyArgs)
  | TanhDiagonal (args : TanhArgs)
  | TanhParallel (args : TanhArgs)
  deriving DecidableEq, Repr

/-- Line 66: `std::transform ( type.begin(), type.end(), type.begin(), ::tolower )`,
every character replaced by its lower-case form. -/
def tolower (s : String) : String :=
  String.mk (s.data.map Char.toLower)

/-- The function `ArmPostProcessorFactory<VAR, DIM>::create`, lines 53-144.
`none` as `spec` is the null handle, `none` as result is `nullptr`.  The
constructors are taken to return. -/
def ArmPostProcessorFactory.create (VAR : VarType) (DIM : DimType) (spec : Option ArmSpec)
    (epsilon : ℚ) (dbg : Bool) : Except ProblemSetupException (Option ArmPostProcessor) :=
  match spec with
  | none => Except.ok none
  | some spec =>
    match spec.type with
    | none =>
      Except.error
        { msg := "Cannot find type attribute in ArmPostProcessor block within problem specification file."
          line := 65 }
    | some type0 =>
      let type := tolower type0
      if type = "polynomial" then
        let npts0 := spec.getInt "npts0" 6
        let npts1 := spec.getInt "npts1" 2
        let npts2 := spec.getInt "npts2" npts1
        let npts3 := spec.getInt "npts3" 5
        let deg0 := spec.getInt "deg0" (wrap32 (npts0 - 1))
        let deg1 := spec.getInt "deg1" 1
        let deg2 := spec.getInt "deg2" (wrap32 (npts2 - 1))
        let deg3 := spec.getInt "deg3" (wrap32 (npts3 - 1))
        if deg0 ≥ npts0 then
          Except.error
            { msg := "Cannot use polynomial interpolation with deg0 >= npts0.", line := 95 }
        else if deg1 ≥ npts1 then
          Except.error
            { msg := "Cannot use polynomial interpolation with deg1 >= npts1.", line := 97 }
        else if deg2 ≥ npts2 then
          Except.error
            { msg := "Cannot use polynomial interpolation with deg2 >= npts2.", line := 99 }
        else if deg3 ≥ npts3 then
          Except.error
            { msg := "Cannot use polynomial interpolation with deg3 >= npts3.", line := 101 }
        else
          let alpha := spec.getDouble "alpha" 0.125
          let args : PolyArgs :=
            { npts0 := npts0, npts1 := npts1, npts2 := npts2, npts3 := npts3, deg0 := deg0,
              deg1 := deg1, deg2 := deg2, deg3 := deg3, alpha := alpha, dbg := dbg }
          if DIM = DimType.D3 then Except.ok (some (ArmPostProcessor.PolyD3 args))
          else if epsilon < 0 then Except.ok (some (ArmPostProcessor.PolyD2Diagonal args))
          else Except.ok (some (ArmPostProcessor.PolyD2Parallel args))
      else if type = "tanh" then
        let npts0 := spec.getInt "npts0" 6
        let npts1 := spec.getInt "npts1" 2
        let npts3 := spec.getInt "npts3" 5
        let ftol := spec.getDouble "ftol" 1e-8
        let xtol := spec.getDouble "xtol" 1e-8
        let gtol := spec.getDouble "gtol" 1e-8
        let trtol := spec.getDouble "trtol" 1e-2
        let max_nfev := spec.getInt "max_nfev" 200
        let max_triter := spec.getInt "max_triter" 10
        let alpha := spec.getDouble "alpha" 0.125
        if VAR = VarType.CC ∧ DIM = DimType.D3 then
          Except.error { msg := "Cannot Create Tanh ArmPostProcessor for 3D CC", line := 135 }
        else
          let args : TanhArgs :=
            { ftol := ftol, xtol := xtol, gtol := gtol, trtol := trtol, max_nfev := max_nfev,
              max_triter := max_triter, npts0 := npts0, npts3 := npts3, npts1 := npts1,
              alpha := alpha, dbg := dbg }
          if epsilon < 0 then Except.ok (some (ArmPostProcessor.TanhDiagonal args))
          else Except.ok (some (ArmPostProcessor.TanhParallel args))
      else
        Except.error
          { msg := "Cannot Create ArmPostProcessor of type \x27" ++ type ++ "\x27", line := 143 }

/-- An `<ArmPostProcessor>` block of type `polynomial` with the given `int`
entries. -/
def polySpec (ints : List (String × Int)) : ArmSpec :=
  { type := some "polynomial", ints := ints, doubles := [] }

/-! ## Wall timers (`SimulationController/SimulationController.h`) -/

/-- Line 53: `#define AVERAGE_WINDOW 10`. -/
def AVERAGE_WINDOW : Int := 10

/-- The members of `WallTimers` that `updateExpMovingAverage` reads and
writes: the number of samples and the value of the timer
`ExpMovingAverage`. -/
structure WallTimers where
  d_nSamples : Int
  ExpMovingAverage : ℚ
  deriving DecidableEq, Repr

/-- The inline `WallTimers::resetWindow`, line 90. -/
def WallTimers.resetWindow (t : WallTimers) : WallTimers :=
  { t with d_nSamples := 0 }

/-- The inline `WallTimers::updateExpMovingAverage`, lines 92-113; `laptime`
is the value of `TimeStep.lap()`.  The result is the value returned and the
object after the call. -/
def WallTimers.updateExpMovingAverage (laptime : ℚ) (t : WallTimers) : ℚ × WallTimers :=
  let ExpMovingAverage : ℚ :=
    if t.d_nSamples ≠ 0 then
      let mult : ℚ := 2.0 / ((min t.d_nSamples AVERAGE_WINDOW : Int) + 1.0)
      mult * laptime + (1.0 - mult) * t.ExpMovingAverage
    else laptime
  (laptime, { d_nSamples := wrap32 (t.d_nSamples + 1), ExpMovingAverage := ExpMovingAverage })

/-- The object after calls of `updateExpMovingAverage` with the lap times
`laps`, oldest first. -/
def WallTimers.run (laps : List ℚ) (t : WallTimers) : WallTimers :=
  laps.foldl (fun s lap => (s.updateExpMovingAverage lap).2) t

/-! ## The error norm of the heat application (`PhaseField/Applications/Heat.h`) -/

/-- The values a loop `for ( o = 0; o < r; ++o )` runs through. -/
def upTo (r : Int) : List Int :=
  List.map (fun i : Nat => Int.ofNat i) (List.range r.toNat)

/-- The values a loop `for ( o = 1; o < r; ++o )` runs through. -/
def between (r : Int) : List Int :=
  List.map (fun i : Nat => Int.ofNat i + 1) (List.range (r - 1).toNat)

/-- The three blocks on `offset[Z]` that the node-centred branch repeats for
every pair of `offset[X]` and `offset[Y]`: `offset[Z] = 0`, the loop from 1
to `refinement[Z] - 1`, and `offset[Z] = refinement[Z]`, with the weights
passed to `do_loop` in the three blocks. -/
def Heat.zBlocks (id_finest refinement : IntVector) (ox oy : Int) (w0 w1 w2 : ℚ) :
    List (IntVector × ℚ) :=
  [(id_finest + { x := ox, y := oy, z := 0 }, w0)]
    ++ (between refinement.z).map (fun oz => (id_finest + { x := ox, y := oy, z := oz }, w1))
    ++ [(id_finest + { x := ox, y := oy, z := refinement.z }, w2)]

/-- The multi-grid `Heat::time_advance_solution_error`, lines 5007-5214: the
calls of `do_loop` it makes, in order, each with the index of the fine cell
or node and the weight `w` (1 by default).  `is_refined` is the value of
`is_refined ( level, patch, id )`; what `do_loop` adds to the two norms for
an index and a weight is floating-point arithmetic and is not translated. -/
def Heat.time_advance_solution_error (VAR : VarType) (is_refined : Bool)
    (id refinement : IntVector) : List (IntVector × ℚ) :=
  if is_refined = true then []
  else
    let id_finest := id * refinement
    if VAR = VarType.CC then
      (upTo refinement.x).flatMap fun ox =>
        (upTo refinement.y).flatMap fun oy =>
          (upTo refinement.z).map fun oz => (id_finest + { x := ox, y := oy, z := oz }, 1)
    else
      (Heat.zBlocks id_finest refinement 0 0 0.125 0.25 0.125
        ++ (between refinement.y).flatMap (fun oy =>
            Heat.zBlocks id_finest refinement 0 oy 0.25 0.5 0.25)
        ++ Heat.zBlocks id_finest refinement 0 refinement.y 0.125 0.25 0.125)
      ++ (between refinement.x).flatMap (fun ox =>
          Heat.zBlocks id_finest refinement ox 0 0.25 0.5 0.25
            ++ (between refinement.y).flatMap (fun oy =>
                Heat.zBlocks id_finest refinement ox oy 0.5 1 0.5)
            ++ Heat.zBlocks id_finest refinement ox refinement.y 0.25 0.5 0.25)
      ++ (Heat.zBlocks id_finest refinement refinement.x 0 0.125 0.25 0.125
        ++ (between refinement.y).flatMap (fun oy =>
            Heat.zBlocks id_finest refinement refinement.x oy 0.25 0.5 0.25)
        ++ Heat.zBlocks id_finest refinement refinement.x refinement.y 0.125 0.25 0.125)

/-- The weight of the trapezoid rule on an axis with `r` intervals: one half
at the two ends, one in between. -/
def trapezoid (r o : Int) : ℚ :=
  if o = 0 ∨ o = r then 1 / 2 else 1

/-- The node-centred visits in the words of the claim: every offset of
`[0, rx] x [0, ry] x [0, rz]` once, in lexicographic order, with the product
of the trapezoid weights of the three axes. -/
def nodeVisits (id_finest refinement : IntVector) : List (IntVector × ℚ) :=
  (upTo (refinement.x + 1)).flatMap fun ox =>
    (upTo (refinement.y + 1)).flatMap fun oy =>
      (upTo (refinement.z + 1)).map fun oz =>
        (id_finest + { x := ox, y := oy, z := oz },
          trapezoid refinement.x ox * trapezoid refinement.y oy * trapezoid refinement.z oz)

end Uintah

namespace Uintah

/-! ## Theorems: `problemSetup` -/

/-- C1: for each of the eleven policy names of section 4.4, `problemSetup`
with `taskReadyQueueAlg` equal to that name does not raise the setup error
(the only exception that can leave is the one of the base-class call, none
when the base class raises none) and stores the like-named policy. -/
theorem problemSetup_named_policy {β ε : Type} (commonSetup : ProblemSpec → β → β × Option ε)
    (s : DynamicMPIScheduler β) :
    ∀ p ∈ namedPolicies,
      problemSetup commonSetup (specWithAlg p.1) s =
        ({ m_task_queue_alg := p.2, common := (commonSetup (specWithAlg p.1) s.common).1 },
          (commonSetup (specWithAlg p.1) s.common).2.map Raised.inCommon) := by
  intro p hp
  simp only [namedPolicies, List.mem_cons, List.mem_singleton, List.not_mem_nil, or_false] at hp
  rcases hp with h | h | h | h | h | h | h | h | h | h | h <;> subst h <;> rfl

/-- Witness of C1 at the name `LeastL2Children`, on a scheduler configured
with `Stack` whose base class has been set up three times. -/
theorem problemSetup_named_policy_witness :
    ("LeastL2Children", QueueAlg.LeastL2Children) ∈ namedPolicies ∧
    problemSetup countingSetup (specWithAlg "LeastL2Children")
        { m_task_queue_alg := QueueAlg.Stack, common := 3 } =
      ({ m_task_queue_alg := QueueAlg.LeastL2Children, common := 4 }, none) :=
  ⟨by decide,
   problemSetup_named_policy countingSetup { m_task_queue_alg := QueueAlg.Stack, common := 3 }
     ("LeastL2Children", QueueAlg.LeastL2Children) (by decide)⟩

/-- C2 as stated fails: `MostAllChildren` is not one of the eleven names, yet
`problemSetup` accepts it (and selects `MostChildren`) without any error. -/
theorem problemSetup_unknown_name_counterexample :
    "MostAllChildren" ∉ namedPolicies.map Prod.fst ∧
    problemSetup countingSetup (specWithAlg "MostAllChildren") (DynamicMPIScheduler.new 0) =
      ({ m_task_queue_alg := QueueAlg.MostChildren, common := 1 }, none) :=
  ⟨by decide, rfl⟩

/-- C2, amended: every string that is neither one of the eleven policy names
nor `MostAllChildren`, `LeastAllChildren` or the empty string makes
`problemSetup` raise the setup error "Unknown task ready queue algorithm"
(the comparison is case-sensitive). -/
theorem problemSetup_unknown_name {β ε : Type} (commonSetup : ProblemSpec → β → β × Option ε)
    (s : DynamicMPIScheduler β) (name : String)
    (h : name ∉ "" :: "MostAllChildren" :: "LeastAllChildren" :: namedPolicies.map Prod.fst) :
    (problemSetup commonSetup (specWithAlg name) s).2 =
      some (Raised.here "Unknown task ready queue algorithm") := by
  simp only [namedPolicies, List.map, List.mem_cons, List.mem_singleton, List.not_mem_nil,
    or_false, not_or] at h
  obtain ⟨h0, h1, h2, h3, h4, h5, h6, h7, h8, h9, h10, h11, h12, h13⟩ := h
  simp only [problemSetup, taskQueueAlgName, specWithAlg, selectQueueAlg, if_neg h0, if_neg h1,
    if_neg h2, if_neg h3, if_neg h4, if_neg h5, if_neg h6, if_neg h7, if_neg h8, if_neg h9,
    if_neg h10, if_neg h11, if_neg h12, if_neg h13]

/-- Witness of the amended C2 at the lower-case name `fcfs`. -/
theorem problemSetup_unknown_name_witness :
    "fcfs" ∉ "" :: "MostAllChildren" :: "LeastAllChildren" :: namedPolicies.map Prod.fst ∧
    (problemSetup countingSetup (specWithAlg "fcfs") (DynamicMPIScheduler.new 0)).2 =
      some (Raised.here "Unknown task ready queue algorithm") :=
  ⟨by decide, problemSetup_unknown_name countingSetup (DynamicMPIScheduler.new 0) "fcfs" (by decide)⟩

/-- C3: without a `<Scheduler>` block, or with a block that gives no
`taskReadyQueueAlg` (the name stays empty), `problemSetup` selects
`MostMessages` and goes on to the base class; `MostMessages` is also the
policy of a freshly constructed scheduler. -/
theorem problemSetup_default_policy {β ε : Type} (commonSetup : ProblemSpec → β → β × Option ε)
    (s : DynamicMPIScheduler β) (base : β) :
    problemSetup commonSetup { Scheduler := none } s =
        ({ m_task_queue_alg := QueueAlg.MostMessages,
           common := (commonSetup { Scheduler := none } s.common).1 },
          (commonSetup { Scheduler := none } s.common).2.map Raised.inCommon) ∧
    problemSetup commonSetup { Scheduler := some { taskReadyQueueAlg := none } } s =
        ({ m_task_queue_alg := QueueAlg.MostMessages,
           common := (commonSetup { Scheduler := some { taskReadyQueueAlg := none } } s.common).1 },
          (commonSetup { Scheduler := some { taskReadyQueueAlg := none } } s.common).2.map
            Raised.inCommon) ∧
    problemSetup commonSetup (specWithAlg "") s =
        ({ m_task_queue_alg := QueueAlg.MostMessages,
           common := (commonSetup (specWithAlg "") s.common).1 },
          (commonSetup (specWithAlg "") s.common).2.map Raised.inCommon) ∧
    (DynamicMPIScheduler.new base).m_task_queue_alg = QueueAlg.MostMessages :=
  ⟨rfl, rfl, rfl, rfl⟩

/-- C4: when `problemSetup` raises its own setup error, the object is exactly
as before the call, whatever the base-class `problemSetup` would have done:
the policy is unchanged and the base part is untouched, so the base-class
`problemSetup` was not entered; the message is the unknown-algorithm one. -/
theorem problemSetup_error_no_partial_state {β ε : Type}
    (commonSetup : ProblemSpec → β → β × Option ε) (prob_spec : ProblemSpec)
    (s s' : DynamicMPIScheduler β) (msg : String)
    (h : problemSetup commonSetup prob_spec s = (s', some (Raised.here msg))) :
    s' = s ∧ msg = "Unknown task ready queue algorithm" := by
  unfold problemSetup at h
  cases hsel : selectQueueAlg (taskQueueAlgName prob_spec) with
  | none =>
    rw [hsel] at h
    simp only [Prod.mk.injEq, Option.some.injEq, Raised.here.injEq] at h
    exact ⟨h.1.symm, h.2.symm⟩
  | some alg =>
    rw [hsel] at h
    simp only [Prod.mk.injEq] at h
    cases hc : (commonSetup prob_spec s.common).2 with
    | none => rw [hc] at h; simp at h
    | some e => rw [hc] at h; simp at h

/-- Witness of C4: a scheduler configured with `Stack` whose base class has
been set up five times is handed the name `stack`; the error is raised, the
policy is still `Stack` and the base-class counter is still five. -/
theorem problemSetup_error_no_partial_state_witness :
    problemSetup countingSetup (specWithAlg "stack")
        { m_task_queue_alg := QueueAlg.Stack, common := 5 } =
      ({ m_task_queue_alg := QueueAlg.Stack, common := 5 },
        some (Raised.here "Unknown task ready queue algorithm")) ∧
    (({ m_task_queue_alg := QueueAlg.Stack, common := 5 } : DynamicMPIScheduler Nat) =
        { m_task_queue_alg := QueueAlg.Stack, common := 5 } ∧
      "Unknown task ready queue algorithm" = "Unknown task ready queue algorithm") :=
  ⟨rfl, problemSetup_error_no_partial_state countingSetup (specWithAlg "stack")
    { m_task_queue_alg := QueueAlg.Stack, common := 5 }
    { m_task_queue_alg := QueueAlg.Stack, common := 5 }
    "Unknown task ready queue algorithm" rfl⟩

end Uintah

namespace Uintah

/-! ## Auxiliary facts about maps, counts and the call log -/

theorem mapSet_same {α : Type} (m : Int → α) (k : Int) (v : α) : mapSet m k v k = v := by
  simp [mapSet]

theorem mapSet_other {α : Type} (m : Int → α) {j k : Int} (v : α) (h : j ≠ k) :
    mapSet m k v j = m j := by
  simp [mapSet, h]

theorem phaseCount_nil (k : Int) : phaseCount [] k = 0 := rfl

theorem phaseCount_append (a b : List DetailedTask) (k : Int) :
    phaseCount (a ++ b) k = phaseCount a k + phaseCount b k := by
  simp [phaseCount, List.countP_append]

theorem phaseCount_singleton (t : DetailedTask) (k : Int) :
    phaseCount [t] k = if t.task.m_phase = k then 1 else 0 := by
  by_cases h : t.task.m_phase = k <;> simp [phaseCount, List.countP_cons, h]

theorem phaseCount_eq_length_filter (l : List DetailedTask) (k : Int) :
    phaseCount l k = (l.filter fun t => decide (t.task.m_phase = k)).length := by
  simp [phaseCount, List.countP_eq_length_filter]

theorem foldl_phaseTasks (l : List DetailedTask) (m : Int → Int) (k : Int) :
    (l.foldl (fun m t => mapSet m t.task.m_phase (m t.task.m_phase + 1)) m) k
      = m k + (phaseCount l k : Int) := by
  induction l generalizing m with
  | nil => simp [phaseCount]
  | cons t l ih =>
    rw [List.foldl_cons, ih]
    by_cases h : t.task.m_phase = k
    · subst h
      simp [mapSet, phaseCount, List.countP_cons]
      omega
    · have h2 : k ≠ t.task.m_phase := fun e => h e.symm
      simp [mapSet, phaseCount, List.countP_cons, h, h2]

/-- `phaseTasks[k]` is the number of local tasks whose phase is `k`. -/
theorem phaseTasksOf_eq (l : List DetailedTask) (k : Int) :
    phaseTasksOf l k = (phaseCount l k : Int) := by
  simp [phaseTasksOf, foldl_phaseTasks]

theorem length_le_of_nodup_subset {l m : List DetailedTask} (hn : l.Nodup)
    (hs : ∀ x ∈ l, x ∈ m) : l.length ≤ m.length :=
  (List.subperm_of_subset hn hs).length_le

theorem mem_of_nodup_subset_length {l m : List DetailedTask} (hn : l.Nodup)
    (hs : ∀ x ∈ l, x ∈ m) (hl : m.length ≤ l.length) {t : DetailedTask} (ht : t ∈ m) : t ∈ l :=
  ((List.subperm_of_subset hn hs).perm_of_length_le hl).mem_iff.mpr ht

theorem phaseCount_le_of_nodup_subset {l m : List DetailedTask} (hn : l.Nodup)
    (hs : ∀ x ∈ l, x ∈ m) (k : Int) : phaseCount l k ≤ phaseCount m k := by
  rw [phaseCount_eq_length_filter, phaseCount_eq_length_filter]
  apply length_le_of_nodup_subset (hn.filter _)
  intro x hx
  rw [List.mem_filter] at hx ⊢
  exact ⟨hs x hx.1, hx.2⟩

/-- If the executed tasks of phase `k` are at least as many as the local
tasks of phase `k`, every local task of phase `k` was executed. -/
theorem mem_of_phaseCount_le {l m : List DetailedTask} (hn : l.Nodup)
    (hs : ∀ x ∈ l, x ∈ m) {k : Int} (hc : phaseCount m k ≤ phaseCount l k)
    {t : DetailedTask} (ht : t ∈ m) (hk : t.task.m_phase = k) : t ∈ l := by
  rw [phaseCount_eq_length_filter, phaseCount_eq_length_filter] at hc
  have h1 : t ∈ l.filter fun t => decide (t.task.m_phase = k) := by
    apply mem_of_nodup_subset_length (hn.filter _) _ hc
    · rw [List.mem_filter]; exact ⟨ht, by simpa using hk⟩
    · intro x hx
      rw [List.mem_filter] at hx ⊢
      exact ⟨hs x hx.1, hx.2⟩
  exact (List.mem_filter.mp h1).1

/-- If all but one of the local tasks of phase `k` were executed and the
local task `S` of phase `k` was not, every other local task of phase `k`
was executed. -/
theorem mem_of_phaseCount_succ {l m : List DetailedTask} (hn : l.Nodup)
    (hs : ∀ x ∈ l, x ∈ m) {k : Int} {S : DetailedTask} (hS : S ∈ m) (hSl : S ∉ l)
    (hSk : S.task.m_phase = k) (hc : phaseCount m k ≤ phaseCount l k + 1)
    {t : DetailedTask} (ht : t ∈ m) (hk : t.task.m_phase = k) (hne : t ≠ S) : t ∈ l := by
  have hs2 : ∀ x ∈ l, x ∈ m.erase S := by
    intro x hx
    have hxS : x ≠ S := fun e => hSl (e ▸ hx)
    exact (List.mem_erase_of_ne hxS).mpr (hs x hx)
  have hc2 : phaseCount (m.erase S) k ≤ phaseCount l k := by
    have hperm : m.Perm (S :: m.erase S) := List.perm_cons_erase hS
    have : phaseCount m k = phaseCount (S :: m.erase S) k := by
      unfold phaseCount
      exact hperm.countP_eq _
    rw [this] at hc
    have h3 : phaseCount (S :: m.erase S) k = phaseCount (m.erase S) k + 1 := by
      simp [phaseCount, List.countP_cons, hSk]
    omega
  exact mem_of_phaseCount_le hn hs2 hc2 ((List.mem_erase_of_ne hne).mpr ht) hk

@[simp] theorem ranTasks_append (a b : List Call) :
    ranTasks (a ++ b) = ranTasks a ++ ranTasks b := by
  simp [ranTasks, List.filterMap_append]

@[simp] theorem internalPops_append (a b : List Call) :
    internalPops (a ++ b) = internalPops a ++ internalPops b := by
  simp [internalPops, List.filterMap_append]

@[simp] theorem ranTasks_nil : ranTasks [] = [] := rfl

@[simp] theorem internalPops_nil : internalPops [] = [] := rfl

@[simp] theorem ranTasks_cons_runTask (t : DetailedTask) (l : List Call) :
    ranTasks (Call.runTask t :: l) = t :: ranTasks l := rfl

@[simp] theorem ranTasks_cons_initiateReduction (t : DetailedTask) (l : List Call) :
    ranTasks (Call.initiateReduction t :: l) = t :: ranTasks l := rfl

@[simp] theorem ranTasks_cons_pop (t : DetailedTask) (l : List Call) :
    ranTasks (Call.getNextInternalReadyTask t :: l) = ranTasks l := rfl

@[simp] theorem ranTasks_cons_initiateTask (t : DetailedTask) (l : List Call) :
    ranTasks (Call.initiateTask t :: l) = ranTasks l := rfl

@[simp] theorem ranTasks_cons_extPop (t : DetailedTask) (l : List Call) :
    ranTasks (Call.getNextExternalReadyTask t :: l) = ranTasks l := rfl

@[simp] theorem ranTasks_cons_recvs (m : RecvMode) (l : List Call) :
    ranTasks (Call.processMPIRecvs m :: l) = ranTasks l := rfl

@[simp] theorem internalPops_cons_pop (t : DetailedTask) (l : List Call) :
    internalPops (Call.getNextInternalReadyTask t :: l) = t :: internalPops l := rfl

@[simp] theorem internalPops_cons_runTask (t : DetailedTask) (l : List Call) :
    internalPops (Call.runTask t :: l) = internalPops l := rfl

@[simp] theorem internalPops_cons_initiateReduction (t : DetailedTask) (l : List Call) :
    internalPops (Call.initiateReduction t :: l) = internalPops l := rfl

@[simp] theorem internalPops_cons_initiateTask (t : DetailedTask) (l : List Call) :
    internalPops (Call.initiateTask t :: l) = internalPops l := rfl

@[simp] theorem internalPops_cons_extPop (t : DetailedTask) (l : List Call) :
    internalPops (Call.getNextExternalReadyTask t :: l) = internalPops l := rfl

@[simp] theorem internalPops_cons_recvs (m : RecvMode) (l : List Call) :
    internalPops (Call.processMPIRecvs m :: l) = internalPops l := rfl

theorem DeliversOnce.of_append {L : List DetailedTask} {a b : List Call}
    (h : DeliversOnce L (a ++ b)) : DeliversOnce L a := by
  obtain ⟨h1, h2⟩ := h
  rw [internalPops_append] at h1 h2
  exact ⟨(List.nodup_append.mp h1).1, fun t ht => h2 t (List.mem_append_left _ ht)⟩

theorem snoc_eq_split {α : Type} {l pre post : List α} {c x : α}
    (h : l ++ [c] = pre ++ x :: post) :
    (pre = l ∧ x = c ∧ post = []) ∨ ∃ post', post = post' ++ [c] ∧ l = pre ++ x :: post' := by
  rcases List.eq_nil_or_concat post with rfl | ⟨post', a, rfl⟩
  · left
    have := List.append_inj' h (by simp)
    exact ⟨this.1.symm, by simpa using this.2.symm, rfl⟩
  · right
    have h2 : l ++ [c] = (pre ++ x :: post') ++ [a] := by simpa using h
    have := List.append_inj' h2 (by simp)
    refine ⟨post', ?_, this.1⟩
    have hca : c = a := by simpa using this.2
    simp [hca]

theorem SyncAfterPeers.snoc_other {L : List DetailedTask} {log : List Call}
    (h : SyncAfterPeers L log) (c : Call)
    (hc : ∀ S, c ≠ Call.runTask S ∧ c ≠ Call.initiateReduction S) :
    SyncAfterPeers L (log ++ [c]) := by
  intro pre post x S hsplit hx hS t ht hne hph
  rcases snoc_eq_split hsplit with ⟨_, hxc, _⟩ | ⟨post', _, hl⟩
  · subst hxc
    rcases hx with hx | hx
    · exact absurd hx (hc S).1
    · exact absurd hx (hc S).2
  · exact h pre post' x S hl hx hS t ht hne hph

theorem SyncAfterPeers.snoc_run {L : List DetailedTask} {log : List Call}
    (h : SyncAfterPeers L log) (c : Call)
    (hc : ∀ S, (c = Call.runTask S ∨ c = Call.initiateReduction S) → S.isSync = true →
      ∀ t ∈ L, t ≠ S →
        (t.task.m_phase = S.task.m_phase ∨ (0 ≤ t.task.m_phase ∧ t.task.m_phase < S.task.m_phase)) →
        t ∈ ranTasks log) :
    SyncAfterPeers L (log ++ [c]) := by
  intro pre post x S hsplit hx hS t ht hne hph
  rcases snoc_eq_split hsplit with ⟨hpre, hxc, _⟩ | ⟨post', _, hl⟩
  · subst hxc hpre
    exact hc S hx hS t ht hne hph
  · exact h pre post' x S hl hx hS t ht hne hph

theorem SyncAfterPeers.nil (L : List DetailedTask) : SyncAfterPeers L [] := by
  intro pre post x S hsplit
  simp at hsplit

end Uintah

namespace Uintah

/-! ## The loop invariant is kept by every step of the body -/

theorem LoopInv.init {σ : Type} (L : List DetailedTask) (env : σ) :
    LoopInv L (initLoopState env) where
  done_eq := by simp [initLoopState]
  phase_eq := by intro k; simp [initLoopState, phaseCount]
  ran_nodup := by simp [initLoopState]
  ran_popped := by simp [initLoopState]
  pend_nodup := by simp [initLoopState]
  pend := by simp [initLoopState]
  sync_reg := by simp [initLoopState]
  sync_ran := by simp [initLoopState]
  phase_nonneg := by simp [initLoopState]
  phases_done := by
    intro j h0 h1
    simp only [initLoopState] at h1
    omega
  ordered := SyncAfterPeers.nil L

/-- Popping a synchronization task from Internal-Ready (lines 260-262). -/
theorem LoopInv.pop_sync {σ : Type} {L : List DetailedTask} {st : LoopState σ}
    (hI : LoopInv L st) (env1 : σ) (t : DetailedTask) (ht : t.isSync = true)
    (hq : DeliversOnce L (st.log ++ [Call.getNextInternalReadyTask t]))
    (hs : OneSyncPerPhase L) :
    LoopInv L
      { st with
        env := env1
        phaseSyncTask := mapSet st.phaseSyncTask t.task.m_phase (some t)
        log := st.log ++ [Call.getNextInternalReadyTask t] } where
  done_eq := by simpa using hI.done_eq
  phase_eq := by simpa using hI.phase_eq
  ran_nodup := by simpa using hI.ran_nodup
  ran_popped := by
    intro x hx
    have := hI.ran_popped x (by simpa using hx)
    simp [this]
  pend_nodup := hI.pend_nodup
  pend := by
    intro x hx
    obtain ⟨h1, h2, h3⟩ := hI.pend x hx
    exact ⟨by simp [h1], h2, by simpa using h3⟩
  sync_reg := by
    intro k S hk
    dsimp only at hk ⊢
    by_cases hkt : k = t.task.m_phase
    · subst hkt
      rw [show (mapSet st.phaseSyncTask t.task.m_phase (some t)) t.task.m_phase = some t from
        mapSet_same _ _ _] at hk
      cases hk
      exact ⟨by simp, ht, rfl⟩
    · rw [show (mapSet st.phaseSyncTask t.task.m_phase (some t)) k = st.phaseSyncTask k from
        mapSet_other _ _ hkt] at hk
      obtain ⟨h1, h2, h3⟩ := hI.sync_reg k S hk
      exact ⟨by simp [h1], h2, h3⟩
  sync_ran := by
    intro S hS hSs
    have hS2 : S ∈ ranTasks st.log := by simpa using hS
    obtain ⟨h1, h2⟩ := hI.sync_ran S hS2 hSs
    refine ⟨?_, h2⟩
    by_cases hkt : S.task.m_phase = t.task.m_phase
    · have hSL : S ∈ L := hq.2 S (by simp [hI.ran_popped S hS2])
      have htL : t ∈ L := hq.2 t (by simp)
      have : S = t := hs S hSL t htL hSs ht hkt
      subst this
      exact mapSet_same _ _ _
    · show mapSet st.phaseSyncTask t.task.m_phase (some t) S.task.m_phase = some S
      rw [mapSet_other _ _ hkt]
      exact h1
  phase_nonneg := hI.phase_nonneg
  phases_done := hI.phases_done
  ordered := hI.ordered.snoc_other _ (by intro S; constructor <;> simp)

/-- Popping any other task from Internal-Ready (lines 264-270). -/
theorem LoopInv.pop_normal {σ : Type} {L : List DetailedTask} {st : LoopState σ}
    (hI : LoopInv L st) (env1 : σ) (t : DetailedTask) (ht : t.isSync = false)
    (hq : DeliversOnce L (st.log ++ [Call.getNextInternalReadyTask t, Call.initiateTask t])) :
    LoopInv L
      { st with
        env := env1
        pending_tasks := st.pending_tasks.insert t
        log := st.log ++ [Call.getNextInternalReadyTask t, Call.initiateTask t] } where
  done_eq := by simpa using hI.done_eq
  phase_eq := by simpa using hI.phase_eq
  ran_nodup := by simpa using hI.ran_nodup
  ran_popped := by
    intro x hx
    have := hI.ran_popped x (by simpa using hx)
    simp [this]
  pend_nodup := hI.pend_nodup.insert
  pend := by
    intro x hx
    have hx2 : x = t ∨ x ∈ st.pending_tasks := by simpa using hx
    have hnd : (internalPops st.log ++ [t]).Nodup := by simpa using hq.1
    rcases hx2 with rfl | hx2
    · refine ⟨by simp, ht, ?_⟩
      intro hran
      have h1 := hI.ran_popped x (by simpa using hran)
      have := List.disjoint_of_nodup_append hnd h1
      simp at this
    · obtain ⟨h1, h2, h3⟩ := hI.pend x hx2
      exact ⟨by simp [h1], h2, by simpa using h3⟩
  sync_reg := by
    intro k S hk
    obtain ⟨h1, h2, h3⟩ := hI.sync_reg k S hk
    exact ⟨by simp [h1], h2, h3⟩
  sync_ran := by
    intro S hS hSs
    exact hI.sync_ran S (by simpa using hS) hSs
  phase_nonneg := hI.phase_nonneg
  phases_done := hI.phases_done
  ordered := by
    have h1 := hI.ordered.snoc_other (Call.getNextInternalReadyTask t)
      (by intro S; constructor <;> simp)
    have h2 := h1.snoc_other (Call.initiateTask t) (by intro S; constructor <;> simp)
    simpa using h2

theorem mapSet_incr_ge (m : Int → Int) (k j : Int) : m j ≤ mapSet m k (m k + 1) j := by
  by_cases h : j = k
  · subst h; rw [mapSet_same]; omega
  · rw [mapSet_other _ _ h]

/-- Running a task popped from External-Ready (lines 285-298). -/
theorem LoopInv.ext_run {σ : Type} {L : List DetailedTask} {st : LoopState σ}
    (hI : LoopInv L st) (env1 : σ) (t : DetailedTask) (ht : t ∈ st.pending_tasks) :
    LoopInv L
      { st with
        env := env1
        pending_tasks := st.pending_tasks.erase t
        numTasksDone := st.numTasksDone + 1
        phaseTasksDone :=
          mapSet st.phaseTasksDone t.task.m_phase (st.phaseTasksDone t.task.m_phase + 1)
        log := (st.log ++ [Call.getNextExternalReadyTask t]) ++ [Call.runTask t] } where
  done_eq := by
    have := hI.done_eq
    simp only [ranTasks_append, ranTasks_cons_extPop, ranTasks_cons_runTask, ranTasks_nil,
      List.append_nil, List.length_append, List.length_singleton]
    push_cast
    omega
  phase_eq := by
    intro k
    have := hI.phase_eq k
    simp only [ranTasks_append, ranTasks_cons_extPop, ranTasks_cons_runTask, ranTasks_nil,
      List.append_nil, phaseCount_append, phaseCount_singleton]
    by_cases h : t.task.m_phase = k
    · subst h
      rw [mapSet_same]
      simp only [if_true]
      push_cast
      omega
    · have h2 : k ≠ t.task.m_phase := fun e => h e.symm
      rw [mapSet_other _ _ h2, if_neg h]
      simpa using this
  ran_nodup := by
    obtain ⟨_, _, h3⟩ := hI.pend t ht
    simp only [ranTasks_append, ranTasks_cons_extPop, ranTasks_cons_runTask, ranTasks_nil,
      List.append_nil]
    exact List.Nodup.append hI.ran_nodup (List.nodup_singleton t)
      (by simpa [List.disjoint_singleton] using h3)
  ran_popped := by
    intro x hx
    have hx2 : x ∈ ranTasks st.log ∨ x = t := by simpa using hx
    rcases hx2 with hx2 | rfl
    · simpa using hI.ran_popped x hx2
    · simpa using (hI.pend x ht).1
  pend_nodup := hI.pend_nodup.erase t
  pend := by
    intro x hx
    have hx2 := (hI.pend_nodup.mem_erase_iff).mp hx
    obtain ⟨h1, h2, h3⟩ := hI.pend x hx2.2
    refine ⟨by simpa using h1, h2, ?_⟩
    simp only [ranTasks_append, ranTasks_cons_extPop, ranTasks_cons_runTask, ranTasks_nil,
      List.append_nil, List.mem_append, List.mem_singleton, not_or]
    exact ⟨h3, hx2.1⟩
  sync_reg := by
    intro k S hk
    obtain ⟨h1, h2, h3⟩ := hI.sync_reg k S hk
    exact ⟨by simpa using h1, h2, h3⟩
  sync_ran := by
    intro S hS hSs
    have hS2 : S ∈ ranTasks st.log ∨ S = t := by simpa using hS
    rcases hS2 with hS2 | rfl
    · obtain ⟨h1, h2⟩ := hI.sync_ran S hS2 hSs
      exact ⟨h1, le_trans h2 (mapSet_incr_ge _ _ _)⟩
    · have := (hI.pend S ht).2.1
      rw [hSs] at this
      cases this
  phase_nonneg := hI.phase_nonneg
  phases_done := by
    intro j h0 h1
    exact le_trans (hI.phases_done j h0 h1) (mapSet_incr_ge _ _ _)
  ordered := by
    have h1 := hI.ordered.snoc_other (Call.getNextExternalReadyTask t)
      (by intro S; constructor <;> simp)
    apply h1.snoc_run
    intro S hc hS
    have hSt : S = t := by
      rcases hc with hc | hc
      · cases hc; rfl
      · cases hc
    subst hSt
    have := (hI.pend S ht).2.1
    rw [hS] at this
    cases this

/-- When a synchronization task is registered for phase `k` and all but one
of the tasks of that phase are done, the registered task has not been
executed and every other local task of the phase has. -/
theorem LoopInv.peers_done_at {σ : Type} {L : List DetailedTask} {st : LoopState σ}
    (hI : LoopInv L st) (hq : DeliversOnce L st.log) {k : Int} {S : DetailedTask}
    (hreg : st.phaseSyncTask k = some S)
    (htrig : st.phaseTasksDone k = phaseTasksOf L k - 1) :
    S ∉ ranTasks st.log ∧
    ∀ t ∈ L, t ≠ S → t.task.m_phase = k → t ∈ ranTasks st.log := by
  obtain ⟨hSpop, hSs, hSk⟩ := hI.sync_reg _ _ hreg
  have hsub : ∀ x ∈ ranTasks st.log, x ∈ L := fun x hx => hq.2 x (hI.ran_popped x hx)
  have hnot : S ∉ ranTasks st.log := by
    intro hran
    have := (hI.sync_ran S hran hSs).2
    rw [hSk] at this
    omega
  refine ⟨hnot, ?_⟩
  intro t ht hne hph
  apply mem_of_phaseCount_succ hI.ran_nodup hsub (hq.2 S hSpop) hnot hSk _ ht hph hne
  have h2 := hI.phase_eq k
  rw [htrig, phaseTasksOf_eq] at h2
  omega

/-- When the condition of line 301 holds, the registered task has not been
executed and every other local task of its phase, and every local task of
the phases from 0 up to it, has. -/
theorem LoopInv.peers_done {σ : Type} {L : List DetailedTask} {st : LoopState σ}
    (hI : LoopInv L st) (hq : DeliversOnce L st.log) {S : DetailedTask}
    (hreg : st.phaseSyncTask st.currphase = some S)
    (htrig : st.phaseTasksDone st.currphase = phaseTasksOf L st.currphase - 1) :
    S ∉ ranTasks st.log ∧
    ∀ t ∈ L, t ≠ S →
      (t.task.m_phase = S.task.m_phase ∨ (0 ≤ t.task.m_phase ∧ t.task.m_phase < S.task.m_phase)) →
      t ∈ ranTasks st.log := by
  obtain ⟨_, _, hSk⟩ := hI.sync_reg _ _ hreg
  have hsub : ∀ x ∈ ranTasks st.log, x ∈ L := fun x hx => hq.2 x (hI.ran_popped x hx)
  obtain ⟨hnot, hsame⟩ := hI.peers_done_at hq hreg htrig
  refine ⟨hnot, ?_⟩
  intro t ht hne hph
  rcases hph with hph | ⟨h0, h1⟩
  · exact hsame t ht hne (hph.trans hSk)
  · apply mem_of_phaseCount_le hI.ran_nodup hsub _ ht rfl
    have h2 := hI.phases_done t.task.m_phase h0 (by omega)
    rw [hI.phase_eq, phaseTasksOf_eq] at h2
    exact_mod_cast h2

/-- Running the synchronization task of the current phase (lines 308-331);
`log1` is the call log after the task was executed. -/
theorem LoopInv.sync_run {σ : Type} {L : List DetailedTask} {st : LoopState σ}
    (hI : LoopInv L st) (hq : DeliversOnce L st.log) (env1 : σ) {S : DetailedTask}
    (hreg : st.phaseSyncTask st.currphase = some S)
    (htrig : st.phaseTasksDone st.currphase = phaseTasksOf L st.currphase - 1)
    (log1 : List Call) (hran : ranTasks log1 = ranTasks st.log ++ [S])
    (hpop : internalPops log1 = internalPops st.log) (hord : SyncAfterPeers L log1) :
    LoopInv L
      { st with
        env := env1
        numTasksDone := st.numTasksDone + 1
        phaseTasksDone :=
          mapSet st.phaseTasksDone S.task.m_phase (st.phaseTasksDone S.task.m_phase + 1)
        log := log1 } where
  done_eq := by
    have := hI.done_eq
    simp only [hran, List.length_append, List.length_singleton]
    push_cast
    omega
  phase_eq := by
    intro k
    have := hI.phase_eq k
    simp only [hran, phaseCount_append, phaseCount_singleton]
    by_cases h : S.task.m_phase = k
    · subst h
      rw [mapSet_same]
      simp only [if_true]
      push_cast
      omega
    · have h2 : k ≠ S.task.m_phase := fun e => h e.symm
      rw [mapSet_other _ _ h2, if_neg h]
      simpa using this
  ran_nodup := by
    simp only [hran]
    exact List.Nodup.append hI.ran_nodup (List.nodup_singleton S)
      (by simpa [List.disjoint_singleton] using (hI.peers_done hq hreg htrig).1)
  ran_popped := by
    intro x hx
    simp only [hran, hpop] at hx ⊢
    have hx2 : x ∈ ranTasks st.log ∨ x = S := by simpa using hx
    rcases hx2 with hx2 | rfl
    · exact hI.ran_popped x hx2
    · exact (hI.sync_reg _ _ hreg).1
  pend_nodup := hI.pend_nodup
  pend := by
    intro x hx
    obtain ⟨h1, h2, h3⟩ := hI.pend x hx
    simp only [hran, hpop]
    refine ⟨h1, h2, ?_⟩
    simp only [List.mem_append, List.mem_singleton, not_or]
    refine ⟨h3, ?_⟩
    rintro rfl
    rw [(hI.sync_reg _ _ hreg).2.1] at h2
    cases h2
  sync_reg := by
    intro k S2 hk
    simp only [hpop]
    exact hI.sync_reg k S2 hk
  sync_ran := by
    intro S2 hS2 hSs
    simp only [hran] at hS2
    have hS3 : S2 ∈ ranTasks st.log ∨ S2 = S := by simpa using hS2
    rcases hS3 with hS3 | rfl
    · obtain ⟨h1, h2⟩ := hI.sync_ran S2 hS3 hSs
      exact ⟨h1, le_trans h2 (mapSet_incr_ge _ _ _)⟩
    · have hk := (hI.sync_reg _ _ hreg).2.2
      refine ⟨by dsimp only; rw [hk]; exact hreg, ?_⟩
      dsimp only
      rw [mapSet_same, hk, htrig]
      omega
  phase_nonneg := hI.phase_nonneg
  phases_done := by
    intro j h0 h1
    exact le_trans (hI.phases_done j h0 h1) (mapSet_incr_ge _ _ _)
  ordered := hord

/-- Advancing the phase (line 336). -/
theorem LoopInv.advance {σ : Type} {L : List DetailedTask} {st : LoopState σ}
    (hI : LoopInv L st) (h : phaseTasksOf L st.currphase = st.phaseTasksDone st.currphase) :
    LoopInv L { st with currphase := st.currphase + 1 } where
  done_eq := hI.done_eq
  phase_eq := hI.phase_eq
  ran_nodup := hI.ran_nodup
  ran_popped := hI.ran_popped
  pend_nodup := hI.pend_nodup
  pend := hI.pend
  sync_reg := hI.sync_reg
  sync_ran := hI.sync_ran
  phase_nonneg := by have := hI.phase_nonneg; dsimp only; omega
  phases_done := by
    intro j h0 h1
    dsimp only at h1 ⊢
    by_cases hj : j = st.currphase
    · subst hj; omega
    · exact hI.phases_done j h0 (by omega)
  ordered := hI.ordered

/-- Polling the receives (lines 341 and 345). -/
theorem LoopInv.poll {σ : Type} {L : List DetailedTask} {st : LoopState σ}
    (hI : LoopInv L st) (env1 : σ) (m : RecvMode) :
    LoopInv L { st with env := env1, log := st.log ++ [Call.processMPIRecvs m] } where
  done_eq := by simpa using hI.done_eq
  phase_eq := by simpa using hI.phase_eq
  ran_nodup := by simpa using hI.ran_nodup
  ran_popped := by
    intro x hx
    simpa using hI.ran_popped x (by simpa using hx)
  pend_nodup := hI.pend_nodup
  pend := by
    intro x hx
    obtain ⟨h1, h2, h3⟩ := hI.pend x hx
    exact ⟨by simpa using h1, h2, by simpa using h3⟩
  sync_reg := by
    intro k S hk
    obtain ⟨h1, h2, h3⟩ := hI.sync_reg k S hk
    exact ⟨by simpa using h1, h2, h3⟩
  sync_ran := by
    intro S hS hSs
    exact hI.sync_ran S (by simpa using hS) hSs
  phase_nonneg := hI.phase_nonneg
  phases_done := hI.phases_done
  ordered := hI.ordered.snoc_other _ (by intro S; constructor <;> simp)

/-- Latching the abort flag (lines 351-352) touches nothing the invariant
speaks of. -/
theorem LoopInv.set_abort {σ : Type} {L : List DetailedTask} {st : LoopState σ}
    (hI : LoopInv L st) (a : Bool) (p : Int) :
    LoopInv L { st with abort := a, abort_point := p } where
  done_eq := hI.done_eq
  phase_eq := hI.phase_eq
  ran_nodup := hI.ran_nodup
  ran_popped := hI.ran_popped
  pend_nodup := hI.pend_nodup
  pend := hI.pend
  sync_reg := hI.sync_reg
  sync_ran := hI.sync_ran
  phase_nonneg := hI.phase_nonneg
  phases_done := hI.phases_done
  ordered := hI.ordered

end Uintah

namespace Uintah

/-! ## The invariant along the main loop -/

theorem isSync_iff (t : DetailedTask) :
    t.isSync = true ↔ (t.task.type = TaskType.Reduction ∨ t.task.usesMPI = true) := by
  simp [DetailedTask.isSync]

theorem isSync_false_iff (t : DetailedTask) :
    t.isSync = false ↔ ¬ (t.task.type = TaskType.Reduction ∨ t.task.usesMPI = true) := by
  rw [← isSync_iff]; simp

theorem DeliversOnce.of_prefix {L : List DetailedTask} {a b : List Call}
    (hp : a <+: b) (h : DeliversOnce L b) : DeliversOnce L a := by
  obtain ⟨e, rfl⟩ := hp
  exact h.of_append

theorem drainInternalReady_log {σ : Type} (E : Collab σ) :
    ∀ (fuel : Nat) (st st1 : LoopState σ),
      drainInternalReady E fuel st = Outcome.ok st1 → st.log <+: st1.log := by
  intro fuel
  induction fuel with
  | zero =>
    intro st st1 h
    simp only [drainInternalReady] at h
    split at h
    · cases h
    · cases h; exact List.prefix_rfl
  | succ fuel ih =>
    intro st st1 h
    simp only [drainInternalReady] at h
    split at h
    · split at h
      · exact (List.prefix_append _ _).trans (ih _ _ h)
      · exact (List.prefix_append _ _).trans (ih _ _ h)
    · cases h; exact List.prefix_rfl

theorem drainInternalReady_inv {σ : Type} (E : Collab σ) {L : List DetailedTask}
    (hs : OneSyncPerPhase L) :
    ∀ (fuel : Nat) (st st1 : LoopState σ),
      drainInternalReady E fuel st = Outcome.ok st1 → DeliversOnce L st1.log →
      LoopInv L st → LoopInv L st1 := by
  intro fuel
  induction fuel with
  | zero =>
    intro st st1 h _ hI
    simp only [drainInternalReady] at h
    split at h
    · cases h
    · cases h; exact hI
  | succ fuel ih =>
    intro st st1 h hq hI
    simp only [drainInternalReady] at h
    split at h
    · split at h
      next hsync =>
        refine ih _ _ h hq ?_
        exact hI.pop_sync _ _ ((isSync_iff _).mpr hsync)
          (hq.of_prefix (drainInternalReady_log E _ _ _ h)) hs
      next hsync =>
        refine ih _ _ h hq ?_
        exact hI.pop_normal _ _ ((isSync_false_iff _).mpr hsync)
          (hq.of_prefix (drainInternalReady_log E _ _ _ h))
    · cases h; exact hI

theorem runExternalReady_log {σ : Type} (E : Collab σ) (st st1 : LoopState σ)
    (h : runExternalReady E st = Outcome.ok st1) : st.log <+: st1.log := by
  simp only [runExternalReady] at h
  split at h
  · split at h
    · split at h
      · cases h
        exact (List.prefix_append _ _).trans (List.prefix_append _ _)
      · cases h
    · cases h
  · cases h; exact List.prefix_rfl

theorem runExternalReady_inv {σ : Type} (E : Collab σ) {L : List DetailedTask}
    (st st1 : LoopState σ) (h : runExternalReady E st = Outcome.ok st1)
    (hI : LoopInv L st) : LoopInv L st1 := by
  simp only [runExternalReady] at h
  split at h
  · split at h
    next hmem =>
      split at h
      · cases h
        exact hI.ext_run _ _ hmem
      · cases h
    · cases h
  · cases h; exact hI

theorem runSyncTask_log {σ : Type} (E : Collab σ) (pt : Int → Int) (st st1 : LoopState σ)
    (h : runSyncTask E pt st = Outcome.ok st1) : st.log <+: st1.log := by
  simp only [runSyncTask] at h
  split at h
  · cases h; exact List.prefix_rfl
  · split at h
    · split at h
      · simp only [Outcome.andThen] at h
        split at h
        · cases h; exact List.prefix_append _ _
        · cases h
      · split at h
        · split at h
          · simp only [Outcome.andThen] at h
            split at h
            · cases h
              exact (List.prefix_append _ _).trans (List.prefix_append _ _)
            · cases h
          · simp only [Outcome.andThen] at h
            cases h
        · simp only [Outcome.andThen] at h
          cases h
    · cases h; exact List.prefix_rfl

theorem runSyncTask_inv {σ : Type} (E : Collab σ) {L : List DetailedTask}
    (st st1 : LoopState σ) (h : runSyncTask E (phaseTasksOf L) st = Outcome.ok st1)
    (hq : DeliversOnce L st.log) (hI : LoopInv L st) : LoopInv L st1 := by
  simp only [runSyncTask] at h
  split at h
  · cases h; exact hI
  next S hreg =>
    split at h
    next htrig =>
      have hpeers := (hI.peers_done hq hreg htrig).2
      split at h
      · simp only [Outcome.andThen] at h
        split at h
        · cases h
          refine hI.sync_run hq _ hreg htrig _ (by simp) (by simp) ?_
          apply hI.ordered.snoc_run
          intro S2 hc _
          have : S2 = S := by
            rcases hc with hc | hc
            · cases hc
            · cases hc; rfl
          subst this
          exact hpeers
        · cases h
      · split at h
        · split at h
          · simp only [Outcome.andThen] at h
            split at h
            · cases h
              refine hI.sync_run hq _ hreg htrig _ (by simp) (by simp) ?_
              have h1 := hI.ordered.snoc_other (Call.initiateTask S)
                (by intro S; constructor <;> simp)
              apply h1.snoc_run
              intro S2 hc _
              have : S2 = S := by
                rcases hc with hc | hc
                · cases hc; rfl
                · cases hc
              subst this
              simpa using hpeers
            · cases h
          · simp only [Outcome.andThen] at h
            cases h
        · simp only [Outcome.andThen] at h
          cases h
    · cases h; exact hI

theorem advanceOrPoll_log {σ : Type} (E : Collab σ) (pt : Int → Int) (ntasks : Int)
    (st : LoopState σ) : st.log <+: (advanceOrPoll E pt ntasks st).log := by
  simp only [advanceOrPoll]
  split
  · split
    · exact List.prefix_rfl
    · split
      · exact List.prefix_append _ _
      · exact List.prefix_append _ _
  · exact List.prefix_rfl

theorem advanceOrPoll_inv {σ : Type} (E : Collab σ) {L : List DetailedTask} (ntasks : Int)
    (st : LoopState σ) (hI : LoopInv L st) :
    LoopInv L (advanceOrPoll E (phaseTasksOf L) ntasks st) := by
  simp only [advanceOrPoll]
  split
  · split
    next h => exact hI.advance h
    · split
      · exact hI.poll _ _
      · exact hI.poll _ _
  · exact hI

theorem checkAbort_log {σ : Type} (E : Collab σ) (task : Option DetailedTask)
    (st st1 : LoopState σ) (h : checkAbort E task st = Outcome.ok st1) : st1.log = st.log := by
  simp only [checkAbort] at h
  split at h
  · split at h
    · cases h
    · cases h; rfl
  · cases h; rfl

theorem checkAbort_inv {σ : Type} (E : Collab σ) {L : List DetailedTask}
    (task : Option DetailedTask) (st st1 : LoopState σ)
    (h : checkAbort E task st = Outcome.ok st1) (hI : LoopInv L st) : LoopInv L st1 := by
  simp only [checkAbort] at h
  split at h
  · split at h
    · cases h
    · cases h; exact hI.set_abort _ _
  · cases h; exact hI

theorem andThen_ok {α : Type} {o : Outcome α} {f : α → Outcome α} {b : α}
    (h : o.andThen f = Outcome.ok b) : ∃ a, o = Outcome.ok a ∧ f a = Outcome.ok b := by
  cases o with
  | ok a => exact ⟨a, rfl, h⟩
  | fault e a => cases h
  | outOfFuel => cases h

/-- The pieces of one pass through the loop body that got through. -/
theorem iteration_ok {σ : Type} {E : Collab σ} {pt : Int → Int} {ntasks : Int} {fuel : Nat}
    {st st5 : LoopState σ} (h : iteration E pt ntasks fuel st = Outcome.ok st5) :
    ∃ st1 st2 st3, drainInternalReady E fuel st = Outcome.ok st1 ∧
      runExternalReady E st1 = Outcome.ok st2 ∧ runSyncTask E pt st2 = Outcome.ok st3 ∧
      checkAbort E none (advanceOrPoll E pt ntasks st3) = Outcome.ok st5 := by
  simp only [iteration] at h
  obtain ⟨st1, h1, h⟩ := andThen_ok h
  obtain ⟨st2, h2, h⟩ := andThen_ok h
  obtain ⟨st3, h3, h⟩ := andThen_ok h
  exact ⟨st1, st2, st3, h1, h2, h3, h⟩

theorem iteration_log {σ : Type} {E : Collab σ} {pt : Int → Int} {ntasks : Int} {fuel : Nat}
    {st st5 : LoopState σ} (h : iteration E pt ntasks fuel st = Outcome.ok st5) :
    st.log <+: st5.log := by
  obtain ⟨st1, st2, st3, h1, h2, h3, h4⟩ := iteration_ok h
  rw [checkAbort_log E _ _ _ h4]
  exact (drainInternalReady_log E _ _ _ h1).trans
    ((runExternalReady_log E _ _ h2).trans
      ((runSyncTask_log E _ _ _ h3).trans (advanceOrPoll_log E _ _ _)))

theorem iteration_inv {σ : Type} {E : Collab σ} {L : List DetailedTask} {ntasks : Int}
    {fuel : Nat} {st st5 : LoopState σ}
    (h : iteration E (phaseTasksOf L) ntasks fuel st = Outcome.ok st5)
    (hq : DeliversOnce L st5.log) (hs : OneSyncPerPhase L) (hI : LoopInv L st) :
    LoopInv L st5 := by
  obtain ⟨st1, st2, st3, h1, h2, h3, h4⟩ := iteration_ok h
  have hl4 := checkAbort_log E _ _ _ h4
  have hq4 : DeliversOnce L (advanceOrPoll E (phaseTasksOf L) ntasks st3).log := hl4 ▸ hq
  have hq3 := hq4.of_prefix (advanceOrPoll_log E _ _ _)
  have hq2 := hq3.of_prefix (runSyncTask_log E _ _ _ h3)
  have hq1 := hq2.of_prefix (runExternalReady_log E _ _ h2)
  have hI1 := drainInternalReady_inv E hs _ _ _ h1 hq1 hI
  have hI2 := runExternalReady_inv E _ _ h2 hI1
  have hI3 := runSyncTask_inv E _ _ h3 hq2 hI2
  exact checkAbort_inv E _ _ _ h4 (advanceOrPoll_inv E _ _ hI3)

theorem loopAfter_log {σ : Type} {E : Collab σ} {pt : Int → Int} {ntasks : Int} {fuel : Nat} :
    ∀ (n : Nat) (st st1 : LoopState σ),
      loopAfter E pt ntasks fuel n st = Outcome.ok st1 → st.log <+: st1.log := by
  intro n
  induction n with
  | zero => intro st st1 h; cases h; exact List.prefix_rfl
  | succ n ih =>
    intro st st1 h
    simp only [loopAfter] at h
    split at h
    · obtain ⟨st2, h1, h2⟩ := andThen_ok h
      exact (iteration_log h1).trans (ih _ _ h2)
    · cases h; exact List.prefix_rfl

theorem loopAfter_inv {σ : Type} {E : Collab σ} {L : List DetailedTask} {ntasks : Int}
    {fuel : Nat} (hs : OneSyncPerPhase L) :
    ∀ (n : Nat) (st st1 : LoopState σ),
      loopAfter E (phaseTasksOf L) ntasks fuel n st = Outcome.ok st1 →
      DeliversOnce L st1.log → LoopInv L st → LoopInv L st1 := by
  intro n
  induction n with
  | zero => intro st st1 h _ hI; cases h; exact hI
  | succ n ih =>
    intro st st1 h hq hI
    simp only [loopAfter] at h
    split at h
    · obtain ⟨st2, h1, h2⟩ := andThen_ok h
      exact ih _ _ h2 hq (iteration_inv h1 (hq.of_prefix (loopAfter_log _ _ _ h2)) hs hI)
    · cases h; exact hI

/-- The invariant holds after any number of passes of `execute`'s main loop. -/
theorem executeLoop_inv {σ : Type} {E : Collab σ} {L : List DetailedTask} {fuel n : Nat}
    {env : σ} {st : LoopState σ}
    (h : loopAfter E (phaseTasksOf L) (L.length : Int) fuel n (initLoopState env) = Outcome.ok st)
    (hq : DeliversOnce L st.log) (hs : OneSyncPerPhase L) : LoopInv L st :=
  loopAfter_inv hs n _ _ h hq (LoopInv.init L env)

end Uintah

namespace Uintah

/-! ## Theorems: the main loop of `execute` -/

/-- C5: on a non-copy-data timestep, as long as the ready queues deliver each
local task at most once and each phase has at most one synchronization task,
`numTasksDone` never exceeds the number of local tasks, so that it equals
that number exactly when the main loop is left (`numTasksDone < ntasks`
false), also when the last pass ran both an External-Ready task and a
synchronization task. -/
theorem execute_numTasksDone_exact {σ : Type} (E : Collab σ) (L : List DetailedTask)
    (fuel n : Nat) (env : σ) (st : LoopState σ)
    (hrun : loopAfter E (phaseTasksOf L) (L.length : Int) fuel n (initLoopState env)
      = Outcome.ok st)
    (hq : DeliversOnce L st.log) (hs : OneSyncPerPhase L) :
    st.numTasksDone ≤ (L.length : Int) ∧
      (¬ st.numTasksDone < (L.length : Int) → st.numTasksDone = (L.length : Int)) := by
  have hI := executeLoop_inv hrun hq hs
  have h1 : (ranTasks st.log).length ≤ L.length :=
    length_le_of_nodup_subset hI.ran_nodup fun x hx => hq.2 x (hI.ran_popped x hx)
  have h2 := hI.done_eq
  constructor
  · omega
  · intro h3; omega

/-- Witness of C5: on `graphBoth` the first pass runs the normal task from
External-Ready and then the reduction task, and the loop is left with
`numTasksDone = 2`. -/
theorem execute_numTasksDone_exact_witness :
    (quietWorld graphBoth).loopAfter 5 1 = Outcome.ok afterBoth ∧
    afterBoth.summary = (2, 0, [1, 2]) ∧
    (afterBoth.numTasksDone ≤ 2 ∧ (¬ afterBoth.numTasksDone < 2 → afterBoth.numTasksDone = 2)) :=
  ⟨rfl, by decide,
    execute_numTasksDone_exact (quietWorld graphBoth).collab (quietWorld graphBoth).localTasks
      5 1 (Tracker.init (quietWorld graphBoth)) afterBoth rfl
      ⟨by decide, by decide⟩ (by unfold OneSyncPerPhase; decide)⟩

/-- C7: on a non-copy-data timestep `execute` does not get past lines
398-410 with outstanding communication: when the send-draining loop ends the
send pool is empty (and the receive pool is as it was), the epilogue gets
through only with both pools empty, and a receive pool that is not empty
when the loop ends is the assertion failure of line 410. -/
theorem execute_no_outstanding_comm
    (find_any : Nat → (sends : List Nat) → Option (Fin sends.length)) (fuel : Nat)
    (p : CommPools) :
    (∀ k p1, waitForSends find_any fuel k p = Outcome.ok p1 →
      p1.m_sends = [] ∧ p1.m_recvs = p.m_recvs) ∧
    (∀ p2, executeEpilogue find_any fuel p = Outcome.ok p2 →
      p2.m_sends = [] ∧ p2.m_recvs = []) ∧
    (∀ p1, waitForSends find_any fuel 0 p = Outcome.ok p1 → p1.m_recvs ≠ [] →
      executeEpilogue find_any fuel p = Outcome.fault Fault.assertRecvs p1) := by
  have hloop : ∀ (fuel k : Nat) (p p1 : CommPools),
      waitForSends find_any fuel k p = Outcome.ok p1 →
        p1.m_sends = [] ∧ p1.m_recvs = p.m_recvs := by
    intro fuel
    induction fuel with
    | zero =>
      intro k p p1 h
      simp only [waitForSends] at h
      split at h
      · cases h
      next hz =>
        cases h
        exact ⟨List.length_eq_zero.mp (by simpa using hz), rfl⟩
    | succ fuel ih =>
      intro k p p1 h
      simp only [waitForSends] at h
      split at h
      · split at h
        · have h3 := ih _ _ _ h
          exact h3
        · have h3 := ih _ _ _ h
          exact h3
      next hz =>
        cases h
        exact ⟨List.length_eq_zero.mp (by simpa using hz), rfl⟩
  refine ⟨fun k p1 h => hloop fuel k p p1 h, ?_, ?_⟩
  · intro p2 h
    unfold executeEpilogue at h
    obtain ⟨p1, h1, h2⟩ := andThen_ok h
    have hs := (hloop fuel 0 p p1 h1).1
    split at h2
    · split at h2
      next hr =>
        have hr2 := List.length_eq_zero.mp hr
        cases h2
        exact ⟨hs, hr2⟩
      · cases h2
    · cases h2
  · intro p1 h1 hr
    have hs := (hloop fuel 0 p p1 h1).1
    simp only [executeEpilogue, h1, Outcome.andThen, hs, List.length_nil, if_true]
    rw [if_neg]
    intro h0
    exact hr (List.length_eq_zero.mp h0)

/-- Witness of C7: with two sends pending and a `find_any` that finds the
oldest send complete, the loop ends with an empty send pool; with an empty
receive pool the epilogue gets through, with the receive 9 outstanding it is
the assertion failure of line 410. -/
theorem execute_no_outstanding_comm_witness :
    waitForSends findOldest 3 0 { m_sends := [4, 5], m_recvs := [9] }
      = Outcome.ok { m_sends := [], m_recvs := [9] } ∧
    executeEpilogue findOldest 3 { m_sends := [4, 5], m_recvs := [] }
      = Outcome.ok { m_sends := [], m_recvs := [] } ∧
    executeEpilogue findOldest 3 { m_sends := [4, 5], m_recvs := [9] }
      = Outcome.fault Fault.assertRecvs { m_sends := [], m_recvs := [9] } :=
  ⟨rfl, rfl,
    (execute_no_outstanding_comm findOldest 3 { m_sends := [4, 5], m_recvs := [9] }).2.2
      { m_sends := [], m_recvs := [9] } rfl (by decide)⟩

/-- C8: as long as the ready queues deliver each local task at most once and
each phase has at most one synchronization task, the synchronization task
registered for a phase is executed exactly once in an `execute` call: at no
point has it been executed twice; once it has been executed the condition of
line 301 is false for its phase, between two passes as well as at the point
of the next pass where line 301 is evaluated (after Internal-Ready was
drained and an External-Ready task was run); and it has been executed when
the main loop is left. -/
theorem syncTask_runs_exactly_once {σ : Type} (E : Collab σ) (L : List DetailedTask)
    (fuel n : Nat) (env : σ) (st : LoopState σ)
    (hrun : loopAfter E (phaseTasksOf L) (L.length : Int) fuel n (initLoopState env)
      = Outcome.ok st)
    (hq : DeliversOnce L st.log) (hs : OneSyncPerPhase L)
    (k : Int) (S : DetailedTask) (hreg : st.phaseSyncTask k = some S) :
    (ranTasks st.log).count S ≤ 1 ∧
    (S ∈ ranTasks st.log → st.phaseTasksDone k ≠ phaseTasksOf L k - 1) ∧
    (∀ st1 st2, drainInternalReady E fuel st = Outcome.ok st1 →
      runExternalReady E st1 = Outcome.ok st2 → DeliversOnce L st2.log →
      ∀ S2, st2.phaseSyncTask st2.currphase = some S2 → S2 ∈ ranTasks st2.log →
        syncTrigger (phaseTasksOf L) st2 = false) ∧
    (¬ st.numTasksDone < (L.length : Int) → (ranTasks st.log).count S = 1) := by
  have hI := executeLoop_inv hrun hq hs
  obtain ⟨hSpop, hSs, hSk⟩ := hI.sync_reg k S hreg
  refine ⟨List.nodup_iff_count_le_one.mp hI.ran_nodup S, ?_, ?_, ?_⟩
  · intro hran heq
    have := (hI.sync_ran S hran hSs).2
    rw [hSk] at this
    omega
  · intro st1 st2 h1 h2 hq2 S2 hreg2 hran2
    have hq1 := hq2.of_prefix (runExternalReady_log E _ _ h2)
    have hI2 := runExternalReady_inv E _ _ h2 (drainInternalReady_inv E hs _ _ _ h1 hq1 hI)
    obtain ⟨_, hS2s, hS2k⟩ := hI2.sync_reg _ _ hreg2
    have := (hI2.sync_ran S2 hran2 hS2s).2
    rw [hS2k] at this
    simp only [syncTrigger, hreg2, Option.isSome_some, Bool.true_and, decide_eq_false_iff_not]
    omega
  · intro hexit
    have h2 := hI.done_eq
    have hmem : S ∈ ranTasks st.log :=
      mem_of_nodup_subset_length hI.ran_nodup (fun x hx => hq.2 x (hI.ran_popped x hx))
        (by omega) (hq.2 S hSpop)
    exact List.count_eq_one_of_mem hI.ran_nodup hmem

/-- Witness of C8: on `graphBoth` the reduction task is registered for phase
0, has been executed once when the loop is left, and the condition of line
301 is then false. -/
theorem syncTask_runs_exactly_once_witness :
    (quietWorld graphBoth).loopAfter 5 1 = Outcome.ok afterBoth ∧
    afterBoth.phaseSyncTask 0 = some (reductionTask 2 0) ∧
    (ranTasks afterBoth.log).count (reductionTask 2 0) = 1 ∧
    afterBoth.phaseTasksDone 0 ≠ phaseTasksOf (quietWorld graphBoth).localTasks 0 - 1 :=
  ⟨rfl, rfl,
    (syncTask_runs_exactly_once (quietWorld graphBoth).collab (quietWorld graphBoth).localTasks
      5 1 (Tracker.init (quietWorld graphBoth)) afterBoth rfl
      ⟨by decide, by decide⟩ (by unfold OneSyncPerPhase; decide) 0 (reductionTask 2 0)
      rfl).2.2.2 (by decide),
    (syncTask_runs_exactly_once (quietWorld graphBoth).collab (quietWorld graphBoth).localTasks
      5 1 (Tracker.init (quietWorld graphBoth)) afterBoth rfl
      ⟨by decide, by decide⟩ (by unfold OneSyncPerPhase; decide) 0 (reductionTask 2 0)
      rfl).2.1 (by decide)⟩

/-- C9: as long as the ready queues deliver each local task at most once and
each phase has at most one synchronization task: `phaseTasks[k]` is the
number of local tasks whose phase is `k`; whenever `execute` executes a
synchronization task `S`, every other local task of the phase of `S` has
been executed before; and whenever a synchronization task is registered for
a phase `k` with `phaseTasksDone[k] == phaseTasks[k] - 1`, every other local
task of phase `k` has been executed. -/
theorem syncTask_runs_after_peers {σ : Type} (E : Collab σ) (L : List DetailedTask)
    (fuel n : Nat) (env : σ) (st : LoopState σ)
    (hrun : loopAfter E (phaseTasksOf L) (L.length : Int) fuel n (initLoopState env)
      = Outcome.ok st)
    (hq : DeliversOnce L st.log) (hs : OneSyncPerPhase L) :
    (∀ k, phaseTasksOf L k = ((L.filter fun t => decide (t.task.m_phase = k)).length : Int)) ∧
    (∀ (pre post : List Call) (c : Call) (S : DetailedTask), st.log = pre ++ c :: post →
      (c = Call.runTask S ∨ c = Call.initiateReduction S) → S.isSync = true →
      ∀ t ∈ L, t ≠ S → t.task.m_phase = S.task.m_phase → t ∈ ranTasks pre) ∧
    (∀ (k : Int) (S : DetailedTask), st.phaseSyncTask k = some S →
      st.phaseTasksDone k = phaseTasksOf L k - 1 →
      ∀ t ∈ L, t ≠ S → t.task.m_phase = k → t ∈ ranTasks st.log) := by
  have hI := executeLoop_inv hrun hq hs
  refine ⟨?_, ?_, ?_⟩
  · intro k
    rw [phaseTasksOf_eq, phaseCount_eq_length_filter]
  · intro pre post c S hsplit hc hS t ht hne hph
    exact hI.ordered pre post c S hsplit hc hS t ht hne (Or.inl hph)
  · intro k S hreg htrig
    exact (hI.peers_done_at hq hreg htrig).2

/-- Witness of C9: on `graphBoth` the reduction task is the last call of the
log, and the normal task of its phase was executed before it. -/
theorem syncTask_runs_after_peers_witness :
    (quietWorld graphBoth).loopAfter 5 1 = Outcome.ok afterBoth ∧
    afterBoth.log = afterBoth.log.take 5 ++ [Call.initiateReduction (reductionTask 2 0)] ∧
    normalTask 1 0 ∈ ranTasks (afterBoth.log.take 5) :=
  ⟨rfl, rfl,
    (syncTask_runs_after_peers (quietWorld graphBoth).collab (quietWorld graphBoth).localTasks
      5 1 (Tracker.init (quietWorld graphBoth)) afterBoth rfl
      ⟨by decide, by decide⟩ (by unfold OneSyncPerPhase; decide)).2.1
      (afterBoth.log.take 5) [] (Call.initiateReduction (reductionTask 2 0))
      (reductionTask 2 0) rfl (Or.inr rfl) rfl (normalTask 1 0) (by decide) (by decide) rfl⟩

/-- C10 as stated fails: on `graphEarly` the first pass of the main loop pops
the task 3 of phase 1 from External-Ready and runs it, while `currphase` is 0
and none of the two tasks of phase 0 is done (the reduction task of phase 0
has not been executed). -/
theorem phase_order_counterexample :
    (quietWorld graphEarly).loopAfter 5 1 = Outcome.ok afterEarly1 ∧
    Call.getNextExternalReadyTask (normalTask 3 1) ∈ afterEarly1.log ∧
    ranTasks afterEarly1.log = [normalTask 3 1] ∧
    (normalTask 3 1).task.m_phase = 1 ∧
    afterEarly1.currphase = 0 ∧
    afterEarly1.phaseTasksDone 0 = 0 ∧
    phaseTasksOf (quietWorld graphEarly).localTasks 0 = 2 :=
  ⟨rfl, by decide, by decide, rfl, rfl, rfl, rfl⟩

/-- C10, amended: phase order is kept for synchronization tasks only.  As
long as the ready queues deliver each local task at most once and each phase
has at most one synchronization task, whenever `execute` executes a
synchronization task `S`, every local task of the phases from 0 up to (not
including) the phase of `S` has been executed before.  A task popped from
External-Ready, on the other hand, is run whatever its phase and whatever
`currphase`: lines 274-299 only need it to be pending with no external
dependency left. -/
theorem syncTask_runs_in_phase_order {σ : Type} (E : Collab σ) (L : List DetailedTask)
    (fuel n : Nat) (env : σ) (st : LoopState σ)
    (hrun : loopAfter E (phaseTasksOf L) (L.length : Int) fuel n (initLoopState env)
      = Outcome.ok st)
    (hq : DeliversOnce L st.log) (hs : OneSyncPerPhase L) :
    (∀ (pre post : List Call) (c : Call) (S : DetailedTask), st.log = pre ++ c :: post →
      (c = Call.runTask S ∨ c = Call.initiateReduction S) → S.isSync = true →
      ∀ t ∈ L, 0 ≤ t.task.m_phase → t.task.m_phase < S.task.m_phase → t ∈ ranTasks pre) ∧
    (∀ (st2 : LoopState σ) (t : DetailedTask), 0 < E.numExternalReadyTasks st2.env →
      (E.getNextExternalReadyTask st2.env).1 = t → t ∈ st2.pending_tasks →
      E.getExternalDepCount t (E.getNextExternalReadyTask st2.env).2 = 0 →
      ∃ st3, runExternalReady E st2 = Outcome.ok st3 ∧
        ranTasks st3.log = ranTasks st2.log ++ [t] ∧ st3.currphase = st2.currphase) := by
  have hI := executeLoop_inv hrun hq hs
  constructor
  · intro pre post c S hsplit hc hS t ht h0 h1
    have hne : t ≠ S := by
      rintro rfl
      omega
    exact hI.ordered pre post c S hsplit hc hS t ht hne (Or.inr ⟨h0, h1⟩)
  · intro st2 t hne ht hp hc
    subst ht
    have hstep : runExternalReady E st2 =
        Outcome.ok
          { st2 with
            env := E.runTask (E.getNextExternalReadyTask st2.env).1
              (E.getNextExternalReadyTask st2.env).2
            pending_tasks := st2.pending_tasks.erase (E.getNextExternalReadyTask st2.env).1
            numTasksDone := st2.numTasksDone + 1
            phaseTasksDone :=
              mapSet st2.phaseTasksDone (E.getNextExternalReadyTask st2.env).1.task.m_phase
                (st2.phaseTasksDone (E.getNextExternalReadyTask st2.env).1.task.m_phase + 1)
            log := (st2.log ++
                [Call.getNextExternalReadyTask (E.getNextExternalReadyTask st2.env).1]) ++
              [Call.runTask (E.getNextExternalReadyTask st2.env).1] } := by
      unfold runExternalReady
      rw [if_pos hne]
      simp only [hp, if_true, hc]
    exact ⟨_, hstep, by simp, rfl⟩

/-- Witness of the amended C10: on `graphLater` the reduction task of phase 1
is registered in the first pass and executed in the second, after the task
of phase 0. -/
theorem syncTask_runs_in_phase_order_witness :
    (quietWorld graphLater).loopAfter 5 2 = Outcome.ok afterLater ∧
    afterLater.log = afterLater.log.take 5 ++ [Call.initiateReduction (reductionTask 2 1)] ∧
    ∀ t ∈ (quietWorld graphLater).localTasks, 0 ≤ t.task.m_phase →
      t.task.m_phase < (reductionTask 2 1).task.m_phase →
      t ∈ ranTasks (afterLater.log.take 5) :=
  ⟨rfl, rfl,
    (syncTask_runs_in_phase_order (quietWorld graphLater).collab
      (quietWorld graphLater).localTasks 5 2 (Tracker.init (quietWorld graphLater)) afterLater
      rfl ⟨by decide, by decide⟩ (by unfold OneSyncPerPhase; decide)).1
      (afterLater.log.take 5) [] (Call.initiateReduction (reductionTask 2 1))
      (reductionTask 2 1) rfl (Or.inr rfl) rfl⟩

end Uintah

namespace Uintah

/-! ## The modelled collaborators keep their bookkeeping -/

theorem World.mem_localTasks (W : World) (t : DetailedTask) :
    t ∈ W.localTasks ↔ ∃ n ∈ W.graph, n.dtask = t := by
  simp [World.localTasks]

theorem World.node_mem_localTasks (W : World) {n : Node} (h : n ∈ W.graph) :
    n.dtask ∈ W.localTasks :=
  (W.mem_localTasks _).mpr ⟨n, h, rfl⟩

theorem World.node_eq_of_id {W : World} (hv : W.ValidGraph) {n m : Node} (hn : n ∈ W.graph)
    (hm : m ∈ W.graph) (h : n.dtask.id = m.dtask.id) : n = m :=
  List.inj_on_of_nodup_map hv.ids_nodup hn hm h

theorem World.node_eq_of_task {W : World} (hv : W.ValidGraph) {n m : Node} (hn : n ∈ W.graph)
    (hm : m ∈ W.graph) (h : n.dtask = m.dtask) : n = m :=
  World.node_eq_of_id hv hn hm (by rw [h])

theorem World.task_eq_of_id {W : World} (hv : W.ValidGraph) {t u : DetailedTask}
    (ht : t ∈ W.localTasks) (hu : u ∈ W.localTasks) (h : t.id = u.id) : t = u := by
  obtain ⟨n, hn, rfl⟩ := (W.mem_localTasks t).mp ht
  obtain ⟨m, hm, rfl⟩ := (W.mem_localTasks u).mp hu
  rw [World.node_eq_of_id hv hn hm h]

theorem World.recvsOf_node {W : World} (hv : W.ValidGraph) {n : Node} (hn : n ∈ W.graph) :
    W.recvsOf n.dtask = n.recvs := by
  unfold World.recvsOf
  cases hf : W.graph.find? fun m => decide (m.dtask.id = n.dtask.id) with
  | none =>
    have := (List.find?_eq_none.mp hf) n hn
    simp at this
  | some m =>
    have hm := List.mem_of_find?_eq_some hf
    have hid : m.dtask.id = n.dtask.id := by simpa using List.find?_some hf
    rw [World.node_eq_of_id hv hm hn hid]

theorem World.mem_allMsgs (W : World) {n : Node} (hn : n ∈ W.graph) {m : Nat}
    (hm : m ∈ n.recvs) : m ∈ W.allMsgs := by
  unfold World.allMsgs
  rw [List.mem_flatten]
  exact ⟨n.recvs, List.mem_map.mpr ⟨n, hn, rfl⟩, hm⟩

theorem World.localTasks_nodup {W : World} (hv : W.ValidGraph) : W.localTasks.Nodup := by
  have h1 : W.graph.Nodup := List.Nodup.of_map _ hv.ids_nodup
  exact List.Nodup.map_on (fun x hx y hy h => World.node_eq_of_task hv hx hy h) h1

/-- Popping the head of Internal-Ready. -/
theorem QueueOK.pop {W : World} {done : List Nat} {t : DetailedTask}
    {rest pops ran : List DetailedTask} (h : QueueOK W done (t :: rest) pops ran) :
    QueueOK W done rest (pops ++ [t]) ran where
  done_iff := h.done_iff
  nodup := (List.nodup_cons.mp h.nodup).2
  fresh := by
    intro x hx
    obtain ⟨h1, h2⟩ := h.fresh x (List.mem_cons_of_mem _ hx)
    refine ⟨h1, ?_⟩
    simp only [List.mem_append, List.mem_singleton, not_or]
    refine ⟨h2, ?_⟩
    rintro rfl
    exact (List.nodup_cons.mp h.nodup).1 hx
  ready_iff := by
    intro n hn
    rw [h.ready_iff n hn]
    simp only [List.mem_cons, List.mem_append, List.mem_singleton]
    tauto

/-- The log grows by calls that pop and execute nothing. -/
theorem QueueOK.same {W : World} {done : List Nat} {queue pops ran pops1 ran1 : List DetailedTask}
    (h : QueueOK W done queue pops ran) (hp : pops1 = pops) (hr : ran1 = ran) :
    QueueOK W done queue pops1 ran1 := by
  subst hp hr; exact h

/-- The completion of the task `t`, which was not executed before. -/
theorem QueueOK.complete {W : World} (hv : W.ValidGraph) {done : List Nat} {t : DetailedTask}
    {queue pops ran : List DetailedTask} (h : QueueOK W done queue pops ran)
    (ht : t ∈ W.localTasks) (htr : t ∉ ran) (hran : ∀ x ∈ ran, x ∈ W.localTasks) :
    QueueOK W (t.id :: done)
      (queue ++ (W.graph.filter fun n =>
        decide (t.id ∈ n.preds) && n.preds.all fun p => decide (p ∈ t.id :: done)).map
        fun n => n.dtask)
      pops (ran ++ [t]) := by
  have htd : t.id ∉ done := by
    intro hd
    obtain ⟨u, hu, hid⟩ := (h.done_iff t.id).mp hd
    have := World.task_eq_of_id hv (hran u hu) ht hid
    subst this
    exact htr hu
  have hpushed : ∀ n ∈ W.graph, t.id ∈ n.preds → n.dtask ∉ queue ∧ n.dtask ∉ pops := by
    intro n hn hp
    have : ¬ (n.dtask ∈ queue ∨ n.dtask ∈ pops) := by
      rw [← h.ready_iff n hn]
      intro hall
      exact htd (hall _ hp)
    exact not_or.mp this
  have hmem : ∀ x, x ∈ ((W.graph.filter fun n =>
        decide (t.id ∈ n.preds) && n.preds.all fun p => decide (p ∈ t.id :: done)).map
        fun n => n.dtask) ↔
      ∃ n ∈ W.graph, t.id ∈ n.preds ∧ (∀ p ∈ n.preds, p ∈ t.id :: done) ∧ n.dtask = x := by
    intro x
    simp only [List.mem_map, List.mem_filter, Bool.and_eq_true, decide_eq_true_eq,
      List.all_eq_true]
    constructor
    · rintro ⟨n, ⟨hn, h1, h2⟩, rfl⟩
      exact ⟨n, hn, h1, h2, rfl⟩
    · rintro ⟨n, hn, h1, h2, rfl⟩
      exact ⟨n, ⟨hn, h1, h2⟩, rfl⟩
  refine ⟨?_, ?_, ?_, ?_⟩
  · intro i
    simp only [List.mem_cons, List.mem_append, List.not_mem_nil, or_false, h.done_iff]
    constructor
    · rintro (rfl | ⟨u, hu, rfl⟩)
      · exact ⟨t, Or.inr rfl, rfl⟩
      · exact ⟨u, Or.inl hu, rfl⟩
    · rintro ⟨u, hu | rfl, rfl⟩
      · exact Or.inr ⟨u, hu, rfl⟩
      · exact Or.inl rfl
  · refine List.Nodup.append h.nodup ?_ ?_
    · have h1 : W.graph.Nodup := List.Nodup.of_map _ hv.ids_nodup
      exact List.Nodup.map_on
        (fun x hx y hy hxy =>
          World.node_eq_of_task hv (List.mem_filter.mp hx).1 (List.mem_filter.mp hy).1 hxy)
        (h1.filter _)
    · intro x hx1 hx2
      obtain ⟨n, hn, hp, _, rfl⟩ := (hmem x).mp hx2
      exact (hpushed n hn hp).1 hx1
  · intro x hx
    rcases List.mem_append.mp hx with hx | hx
    · exact h.fresh x hx
    · obtain ⟨n, hn, hp, _, rfl⟩ := (hmem x).mp hx
      exact ⟨W.node_mem_localTasks hn, (hpushed n hn hp).2⟩
  · intro n hn
    rw [List.mem_append, hmem]
    constructor
    · intro hall
      by_cases hp : t.id ∈ n.preds
      · exact Or.inl (Or.inr ⟨n, hn, hp, hall, rfl⟩)
      · have hold : ∀ p ∈ n.preds, p ∈ done := by
          intro p hpp
          rcases List.mem_cons.mp (hall p hpp) with rfl | hd
          · exact absurd hpp hp
          · exact hd
        rcases (h.ready_iff n hn).mp hold with hq | hq
        · exact Or.inl (Or.inl hq)
        · exact Or.inr hq
    · rintro ((hq | ⟨m, hm, _, hall, hmn⟩) | hq)
      · intro p hp
        exact List.mem_cons_of_mem _ ((h.ready_iff n hn).mpr (Or.inl hq) p hp)
      · rw [World.node_eq_of_task hv hn hm hmn.symm]
        exact hall
      · intro p hp
        exact List.mem_cons_of_mem _ ((h.ready_iff n hn).mpr (Or.inr hq) p hp)

theorem PoppedOK.after_pop_sync {pops pending ran : List DetailedTask}
    {syncs : Int → Option DetailedTask} (h : PoppedOK pops syncs pending ran) (t : DetailedTask)
    (ht : t.isSync = true)
    (huniq : ∀ u ∈ pops, u.isSync = true → u.task.m_phase = t.task.m_phase → u = t) :
    PoppedOK (pops ++ [t]) (mapSet syncs t.task.m_phase (some t)) pending ran where
  sync := by
    intro u hu hs
    rcases List.mem_append.mp hu with hu | hu
    · by_cases hk : u.task.m_phase = t.task.m_phase
      · rw [huniq u hu hs hk]; exact mapSet_same _ _ _
      · rw [mapSet_other _ _ hk]; exact h.sync u hu hs
    · rw [List.mem_singleton.mp hu]; exact mapSet_same _ _ _
  normal := by
    intro u hu hs
    rcases List.mem_append.mp hu with hu | hu
    · exact h.normal u hu hs
    · rw [List.mem_singleton.mp hu, ht] at hs
      cases hs

theorem PoppedOK.after_pop_normal {pops pending ran : List DetailedTask}
    {syncs : Int → Option DetailedTask} (h : PoppedOK pops syncs pending ran) (t : DetailedTask)
    (ht : t.isSync = false) :
    PoppedOK (pops ++ [t]) syncs (pending.insert t) ran where
  sync := by
    intro u hu hs
    rcases List.mem_append.mp hu with hu | hu
    · exact h.sync u hu hs
    · rw [List.mem_singleton.mp hu, ht] at hs
      cases hs
  normal := by
    intro u hu hs
    rcases List.mem_append.mp hu with hu | hu
    · rcases h.normal u hu hs with h1 | h1
      · exact Or.inl (List.mem_insert_iff.mpr (Or.inr h1))
      · exact Or.inr h1
    · exact Or.inl (List.mem_insert_iff.mpr (Or.inl (List.mem_singleton.mp hu)))

theorem PoppedOK.after_ext_run {pops pending ran : List DetailedTask}
    {syncs : Int → Option DetailedTask} (h : PoppedOK pops syncs pending ran) (t : DetailedTask) :
    PoppedOK pops syncs (pending.erase t) (ran ++ [t]) where
  sync := h.sync
  normal := by
    intro u hu hs
    rcases h.normal u hu hs with h1 | h1
    · by_cases hut : u = t
      · exact Or.inr (List.mem_append.mpr (Or.inr (List.mem_singleton.mpr hut)))
      · exact Or.inl ((List.mem_erase_of_ne hut).mpr h1)
    · exact Or.inr (List.mem_append_left _ h1)

theorem PoppedOK.after_sync_run {pops pending ran : List DetailedTask}
    {syncs : Int → Option DetailedTask} (h : PoppedOK pops syncs pending ran) (S : DetailedTask) :
    PoppedOK pops syncs pending (ran ++ [S]) where
  sync := h.sync
  normal := by
    intro u hu hs
    rcases h.normal u hu hs with h1 | h1
    · exact Or.inl h1
    · exact Or.inr (List.mem_append_left _ h1)

end Uintah

namespace Uintah

/-- Initiating a task popped from Internal-Ready: its receives are posted, it
is marked initiated, and it enters External-Ready if it misses no message. -/
theorem CommOK.on_pop_normal {W : World} (hv : W.ValidGraph) {ini rec posted : List Nat}
    {extq pending : List DetailedTask} (h : CommOK W ini rec posted extq pending)
    {t : DetailedTask} (ht : t ∈ W.localTasks) (htp : t ∉ pending) :
    CommOK W (t.id :: ini) rec
      (posted ++ ((W.recvsOf t).filter fun m => decide (m ∉ rec ∧ m ∉ posted)).dedup)
      (if ((W.recvsOf t).filter fun m => decide (m ∉ rec)).length = 0 then extq ++ [t] else extq)
      (pending.insert t) := by
  have hte : t ∉ extq := fun hx => htp (h.ext t hx).1
  have hsub : ∀ x ∈ extq, x ∈
      (if ((W.recvsOf t).filter fun m => decide (m ∉ rec)).length = 0 then extq ++ [t]
        else extq) := by
    intro x hx
    split
    · exact List.mem_append_left _ hx
    · exact hx
  have hnew : ∀ m, m ∈ ((W.recvsOf t).filter fun m => decide (m ∉ rec ∧ m ∉ posted)).dedup ↔
      m ∈ W.recvsOf t ∧ m ∉ rec ∧ m ∉ posted := by
    intro m
    simp [List.mem_dedup, List.mem_filter]
  refine ⟨?_, ?_, ?_, ?_, ?_, ?_, h.recv_nodup, h.recv_sub⟩
  · split
    · exact List.Nodup.append h.ext_nodup (List.nodup_singleton t)
        (by simpa [List.disjoint_singleton] using hte)
    · exact h.ext_nodup
  · intro x hx
    split at hx
    next hz =>
      rcases List.mem_append.mp hx with hx | hx
      · exact ⟨List.mem_insert_iff.mpr (Or.inr (h.ext x hx).1), (h.ext x hx).2⟩
      · rw [List.mem_singleton.mp hx]
        refine ⟨List.mem_insert_iff.mpr (Or.inl rfl), ?_⟩
        intro m hm
        by_contra hmr
        have : m ∈ (W.recvsOf t).filter fun m => decide (m ∉ rec) := by
          simp [List.mem_filter, hm, hmr]
        rw [List.length_eq_zero.mp hz] at this
        simp at this
    · exact ⟨List.mem_insert_iff.mpr (Or.inr (h.ext x hx).1), (h.ext x hx).2⟩
  · intro x hx
    rcases List.mem_insert_iff.mp hx with rfl | hx
    · refine ⟨List.mem_cons_self _ _, ?_, ?_⟩
      · split
        · exact Or.inl (List.mem_append_right _ (List.mem_singleton.mpr rfl))
        next hz =>
          right
          obtain ⟨m, hm⟩ := List.exists_mem_of_length_pos (Nat.pos_of_ne_zero hz)
          rw [List.mem_filter] at hm
          exact ⟨m, hm.1, by simpa using hm.2⟩
      · intro m hm hmr
        by_cases hp : m ∈ posted
        · exact List.mem_append_left _ hp
        · exact List.mem_append_right _ ((hnew m).mpr ⟨hm, hmr, hp⟩)
    · obtain ⟨h1, h2, h3⟩ := h.pend x hx
      refine ⟨List.mem_cons_of_mem _ h1, ?_, fun m hm hmr => List.mem_append_left _ (h3 m hm hmr)⟩
      rcases h2 with h2 | h2
      · exact Or.inl (hsub x h2)
      · exact Or.inr h2
  · intro n hn hi
    rcases List.mem_cons.mp hi with hi | hi
    · left
      have : n.dtask = t := World.task_eq_of_id hv (W.node_mem_localTasks hn) ht hi
      rw [this]
      exact List.mem_insert_iff.mpr (Or.inl rfl)
    · rcases h.init n hn hi with h1 | h1
      · exact Or.inl (List.mem_insert_iff.mpr (Or.inr h1))
      · exact Or.inr h1
  · refine List.Nodup.append h.posted_nodup (List.nodup_dedup _) ?_
    intro m hm1 hm2
    exact ((hnew m).mp hm2).2.2 hm1
  · intro m hm
    rcases List.mem_append.mp hm with hm | hm
    · exact h.posted_out m hm
    · obtain ⟨h1, h2, _⟩ := (hnew m).mp hm
      refine ⟨h2, ?_⟩
      obtain ⟨n, hn, rfl⟩ := (W.mem_localTasks t).mp ht
      rw [World.recvsOf_node hv hn] at h1
      exact W.mem_allMsgs hn h1

/-- Running a task popped from External-Ready. -/
theorem CommOK.on_ext_run {W : World} (hv : W.ValidGraph) {ini rec posted : List Nat}
    {extq pending : List DetailedTask} (h : CommOK W ini rec posted extq pending)
    (hpn : pending.Nodup) {t : DetailedTask} (ht : t ∈ extq) :
    CommOK W ini rec posted (extq.erase t) (pending.erase t) := by
  refine ⟨h.ext_nodup.erase t, ?_, ?_, ?_, h.posted_nodup, h.posted_out, h.recv_nodup,
    h.recv_sub⟩
  · intro x hx
    obtain ⟨hne, hx2⟩ := (h.ext_nodup.mem_erase_iff).mp hx
    exact ⟨(List.mem_erase_of_ne hne).mpr (h.ext x hx2).1, (h.ext x hx2).2⟩
  · intro x hx
    obtain ⟨hne, hx2⟩ := (hpn.mem_erase_iff).mp hx
    obtain ⟨h1, h2, h3⟩ := h.pend x hx2
    refine ⟨h1, ?_, h3⟩
    rcases h2 with h2 | h2
    · exact Or.inl ((List.mem_erase_of_ne hne).mpr h2)
    · exact Or.inr h2
  · intro n hn hi
    rcases h.init n hn hi with h1 | h1
    · by_cases hnt : n.dtask = t
      · right
        have := (h.ext t ht).2
        rw [← hnt, World.recvsOf_node hv hn] at this
        exact this
      · exact Or.inl ((List.mem_erase_of_ne hnt).mpr h1)
    · exact Or.inr h1

/-- Marking initiated a task that requires no message. -/
theorem CommOK.mark {W : World} (hv : W.ValidGraph) {ini rec posted : List Nat}
    {extq pending : List DetailedTask} (h : CommOK W ini rec posted extq pending)
    {S : DetailedTask} (hS : S ∈ W.localTasks) (hr : W.recvsOf S = []) :
    CommOK W (S.id :: ini) rec posted extq pending := by
  refine ⟨h.ext_nodup, h.ext, ?_, ?_, h.posted_nodup, h.posted_out, h.recv_nodup, h.recv_sub⟩
  · intro x hx
    obtain ⟨h1, h2, h3⟩ := h.pend x hx
    exact ⟨List.mem_cons_of_mem _ h1, h2, h3⟩
  · intro n hn hi
    rcases List.mem_cons.mp hi with hi | hi
    · right
      have : n.dtask = S := World.task_eq_of_id hv (W.node_mem_localTasks hn) hS hi
      rw [← this, World.recvsOf_node hv hn] at hr
      rw [hr]
      simp
    · exact h.init n hn hi

/-- The completion of the posted receive `m`. -/
theorem CommOK.receive {W : World} (hv : W.ValidGraph) {ini rec posted : List Nat}
    {extq pending : List DetailedTask} (h : CommOK W ini rec posted extq pending)
    (hpl : ∀ x ∈ pending, x ∈ W.localTasks) {m : Nat} (hm : m ∈ posted) :
    CommOK W ini (m :: rec) (posted.erase m)
      (extq ++ (W.graph.filter fun n =>
        decide (m ∈ n.recvs) && decide (n.dtask.id ∈ ini) &&
          n.recvs.all fun r => decide (r ∈ m :: rec)).map fun n => n.dtask)
      pending := by
  have hmr : m ∉ rec := (h.posted_out m hm).1
  have hmem : ∀ x, x ∈ ((W.graph.filter fun n =>
        decide (m ∈ n.recvs) && decide (n.dtask.id ∈ ini) &&
          n.recvs.all fun r => decide (r ∈ m :: rec)).map fun n => n.dtask) ↔
      ∃ n ∈ W.graph, m ∈ n.recvs ∧ n.dtask.id ∈ ini ∧ (∀ r ∈ n.recvs, r ∈ m :: rec) ∧
        n.dtask = x := by
    intro x
    simp only [List.mem_map, List.mem_filter, Bool.and_eq_true, decide_eq_true_eq,
      List.all_eq_true]
    constructor
    · rintro ⟨n, ⟨hn, ⟨h1, h2⟩, h3⟩, rfl⟩
      exact ⟨n, hn, h1, h2, h3, rfl⟩
    · rintro ⟨n, hn, h1, h2, h3, rfl⟩
      exact ⟨n, ⟨hn, ⟨h1, h2⟩, h3⟩, rfl⟩
  refine ⟨?_, ?_, ?_, ?_, h.posted_nodup.erase m, ?_, ?_, ?_⟩
  · refine List.Nodup.append h.ext_nodup ?_ ?_
    · have h1 : W.graph.Nodup := List.Nodup.of_map _ hv.ids_nodup
      exact List.Nodup.map_on
        (fun x hx y hy hxy =>
          World.node_eq_of_task hv (List.mem_filter.mp hx).1 (List.mem_filter.mp hy).1 hxy)
        (h1.filter _)
    · intro x hx1 hx2
      obtain ⟨n, hn, hmn, _, _, rfl⟩ := (hmem x).mp hx2
      have := (h.ext _ hx1).2 m (by rw [World.recvsOf_node hv hn]; exact hmn)
      exact hmr this
  · intro x hx
    rcases List.mem_append.mp hx with hx | hx
    · exact ⟨(h.ext x hx).1, fun r hr => List.mem_cons_of_mem _ ((h.ext x hx).2 r hr)⟩
    · obtain ⟨n, hn, hmn, hi, hall, rfl⟩ := (hmem x).mp hx
      refine ⟨?_, by rw [World.recvsOf_node hv hn]; exact hall⟩
      rcases h.init n hn hi with h1 | h1
      · exact h1
      · exact absurd (h1 m hmn) hmr
  · intro x hx
    obtain ⟨h1, h2, h3⟩ := h.pend x hx
    refine ⟨h1, ?_, ?_⟩
    · by_cases hall : ∀ r ∈ W.recvsOf x, r ∈ m :: rec
      · left
        rcases h2 with h2 | ⟨r, hr, hrr⟩
        · exact List.mem_append_left _ h2
        · apply List.mem_append_right
          obtain ⟨n, hn, rfl⟩ := (W.mem_localTasks x).mp (hpl x hx)
          rw [World.recvsOf_node hv hn] at hall hr
          have hrm : r = m := by
            rcases List.mem_cons.mp (hall r hr) with e | e
            · exact e
            · exact absurd e hrr
          exact (hmem _).mpr ⟨n, hn, hrm ▸ hr, h1, hall, rfl⟩
      · right
        push_neg at hall
        obtain ⟨r, hr, hrr⟩ := hall
        exact ⟨r, hr, hrr⟩
    · intro r hr hrr
      have hne : r ≠ m := fun e => hrr (e ▸ List.mem_cons_self _ _)
      have hr2 : r ∉ rec := fun e => hrr (List.mem_cons_of_mem _ e)
      exact (List.mem_erase_of_ne hne).mpr (h3 r hr hr2)
  · intro n hn hi
    rcases h.init n hn hi with h1 | h1
    · exact Or.inl h1
    · exact Or.inr fun r hr => List.mem_cons_of_mem _ (h1 r hr)
  · intro x hx
    obtain ⟨hne, hx2⟩ := (h.posted_nodup.mem_erase_iff).mp hx
    refine ⟨?_, (h.posted_out x hx2).2⟩
    intro hxr
    rcases List.mem_cons.mp hxr with e | e
    · exact hne e
    · exact (h.posted_out x hx2).1 e
  · exact List.nodup_cons.mpr ⟨hmr, h.recv_nodup⟩
  · intro x hx
    rcases List.mem_cons.mp hx with rfl | hx
    · exact (h.posted_out x hm).2
    · exact h.recv_sub x hx

end Uintah

namespace Uintah

/-! ## A valid graph on which the main loop does not terminate -/

theorem andThen_ok_eq {α : Type} {o : Outcome α} {a : α} (f : α → Outcome α)
    (h : o = Outcome.ok a) : o.andThen f = f a := by
  subst h; rfl

theorem stuck_phaseTasks : phaseTasksOf (quietWorld graphStuck).localTasks 0 = 2 := by decide

theorem stuck_length : ((quietWorld graphStuck).localTasks.length : Int) = 2 := by decide

theorem drain_empty {σ : Type} (E : Collab σ) (fuel : Nat) (st : LoopState σ)
    (h : E.numInternalReadyTasks st.env = 0) :
    drainInternalReady E fuel st = Outcome.ok st := by
  cases fuel <;> simp [drainInternalReady, h]

theorem ext_empty {σ : Type} (E : Collab σ) (st : LoopState σ)
    (h : E.numExternalReadyTasks st.env = 0) :
    runExternalReady E st = Outcome.ok st := by
  simp [runExternalReady, h]

theorem sync_idle {σ : Type} (E : Collab σ) (pt : Int → Int) (st : LoopState σ)
    (h : syncTrigger pt st = false) : runSyncTask E pt st = Outcome.ok st := by
  unfold runSyncTask
  cases hreg : st.phaseSyncTask st.currphase with
  | none => rfl
  | some S =>
    simp only [syncTrigger, hreg, Option.isSome_some, Bool.true_and, decide_eq_false_iff_not] at h
    simp [h]

/-- A pass in which Internal-Ready and External-Ready are empty and the
condition of line 301 is false only advances the phase or polls. -/
theorem iteration_idle {σ : Type} (E : Collab σ) (pt : Int → Int) (ntasks : Int) (fuel : Nat)
    (st : LoopState σ) (hi : E.numInternalReadyTasks st.env = 0)
    (he : E.numExternalReadyTasks st.env = 0) (ht : syncTrigger pt st = false) :
    iteration E pt ntasks fuel st = checkAbort E none (advanceOrPoll E pt ntasks st) := by
  unfold iteration
  rw [andThen_ok_eq _ (drain_empty E fuel st hi), andThen_ok_eq _ (ext_empty E st he),
    andThen_ok_eq _ (sync_idle E pt st ht)]

/-- One pass of the loop body in a stuck state leads to a stuck state. -/
theorem Stuck.step {st : LoopState Tracker} (h : Stuck st) (fuel : Nat) :
    ∃ st1, iteration (quietWorld graphStuck).collab
        (phaseTasksOf (quietWorld graphStuck).localTasks)
        ((quietWorld graphStuck).localTasks.length : Int) fuel st = Outcome.ok st1 ∧
      Stuck st1 := by
  have htr : syncTrigger (phaseTasksOf (quietWorld graphStuck).localTasks) st = false := by
    simp [syncTrigger, h.phase, h.registered, h.phase_done, stuck_phaseTasks]
  refine ⟨{ st with
            env := { st.env with polls := st.env.polls + 1 }
            log := st.log ++ [Call.processMPIRecvs RecvMode.WAIT_ONCE] }, ?_, ?_⟩
  · rw [iteration_idle _ _ _ _ _ (by simp [World.collab, h.internal])
      (by simp [World.collab, h.external]) htr]
    simp only [advanceOrPoll, checkAbort, stuck_length, h.none_done, h.phase, h.phase_done,
      stuck_phaseTasks, htr]
    simp [World.collab, h.internal, h.external, quietWorld, Tracker.processMPIRecvs, h.posted]
  · exact ⟨h.none_done, h.phase, h.phase_done, h.registered, h.internal, h.external, h.posted,
      h.done⟩

end Uintah

namespace Uintah

/-! ## Termination of the main loop on schedulable graphs -/

theorem foldl_max_phase (l : List Node) (m : Int) :
    m ≤ l.foldl (fun m n => max m n.dtask.task.m_phase) m ∧
      ∀ n ∈ l, n.dtask.task.m_phase ≤ l.foldl (fun m n => max m n.dtask.task.m_phase) m := by
  induction l generalizing m with
  | nil => simp
  | cons a l ih =>
    simp only [List.foldl_cons, List.mem_cons]
    obtain ⟨h1, h2⟩ := ih (max m a.dtask.task.m_phase)
    refine ⟨le_trans (le_max_left _ _) h1, ?_⟩
    rintro n (rfl | hn)
    · exact le_trans (le_max_right _ _) h1
    · exact h2 n hn

theorem World.maxPhase_nonneg (W : World) : 0 ≤ W.maxPhase :=
  (foldl_max_phase W.graph 0).1

theorem World.le_maxPhase (W : World) {t : DetailedTask} (ht : t ∈ W.localTasks) :
    t.task.m_phase ≤ W.maxPhase := by
  obtain ⟨n, hn, rfl⟩ := (W.mem_localTasks t).mp ht
  exact (foldl_max_phase W.graph 0).2 n hn

theorem World.phase_nonneg {W : World} (hv : W.ValidGraph) {t : DetailedTask}
    (ht : t ∈ W.localTasks) : 0 ≤ t.task.m_phase := by
  obtain ⟨n, hn, rfl⟩ := (W.mem_localTasks t).mp ht
  exact hv.phase_nonneg n hn

theorem Sys.at_start {W : World} (hv : W.ValidGraph) :
    Sys W (initLoopState (Tracker.init W)) where
  inv := LoopInv.init _ _
  once := ⟨by simp [initLoopState], by simp [initLoopState]⟩
  queue := by
    refine ⟨by simp [initLoopState, Tracker.init], ?_, ?_, ?_⟩
    · have h1 : W.graph.Nodup := List.Nodup.of_map _ hv.ids_nodup
      exact List.Nodup.map_on
        (fun x hx y hy hxy =>
          World.node_eq_of_task hv (List.mem_filter.mp hx).1 (List.mem_filter.mp hy).1 hxy)
        (h1.filter _)
    · intro t ht
      simp only [initLoopState, Tracker.init, List.mem_map, List.mem_filter] at ht
      obtain ⟨n, ⟨hn, _⟩, rfl⟩ := ht
      exact ⟨W.node_mem_localTasks hn, by simp [initLoopState]⟩
    · intro n hn
      simp only [initLoopState, Tracker.init, internalPops_nil, List.not_mem_nil, or_false,
        List.mem_map, List.mem_filter, List.all_eq_true, decide_eq_true_eq]
      constructor
      · intro h
        exact ⟨n, ⟨hn, h⟩, rfl⟩
      · rintro ⟨m, ⟨hm, h⟩, hmn⟩
        rw [World.node_eq_of_task hv hn hm hmn.symm]
        exact h
  popped := ⟨by simp [initLoopState], by simp [initLoopState]⟩
  comm := by
    refine ⟨?_, ?_, ?_, ?_, ?_, ?_, ?_, ?_⟩ <;> simp [initLoopState, Tracker.init]
  phase_le := W.maxPhase_nonneg

theorem Sys.pending_local {W : World} {st : LoopState Tracker} (h : Sys W st) :
    ∀ x ∈ st.pending_tasks, x ∈ W.localTasks :=
  fun x hx => h.once.2 x (h.inv.pend x hx).1

theorem Sys.ran_local {W : World} {st : LoopState Tracker} (h : Sys W st) :
    ∀ x ∈ ranTasks st.log, x ∈ W.localTasks :=
  fun x hx => h.once.2 x (h.inv.ran_popped x hx)

theorem drain_step_sync (W : World) (fuel : Nat) (st : LoopState Tracker) {t : DetailedTask}
    {rest : List DetailedTask} (hq : st.env.internalReady = t :: rest) (ht : t.isSync = true) :
    drainInternalReady W.collab (fuel + 1) st =
      drainInternalReady W.collab fuel
        { st with
          env := { st.env with internalReady := rest }
          phaseSyncTask := mapSet st.phaseSyncTask t.task.m_phase (some t)
          log := st.log ++ [Call.getNextInternalReadyTask t] } := by
  have h1 : W.collab.numInternalReadyTasks st.env = rest.length + 1 := by
    simp [World.collab, hq]
  have h2 : W.collab.getNextInternalReadyTask st.env = (t, { st.env with internalReady := rest }) := by
    simp [World.collab, Tracker.getNextInternalReadyTask, hq]
  rw [drainInternalReady]
  simp only [h1, h2, Nat.succ_pos, if_true]
  rw [if_pos ((isSync_iff t).mp ht)]

theorem drain_step_normal (W : World) (fuel : Nat) (st : LoopState Tracker) {t : DetailedTask}
    {rest : List DetailedTask} (hq : st.env.internalReady = t :: rest) (ht : t.isSync = false) :
    drainInternalReady W.collab (fuel + 1) st =
      drainInternalReady W.collab fuel
        { st with
          env := ((({ st.env with internalReady := rest } : Tracker).initiateTask W t).markInitiated
            t).checkExternalDepCount W t
          pending_tasks := st.pending_tasks.insert t
          log := st.log ++ [Call.getNextInternalReadyTask t, Call.initiateTask t] } := by
  have h1 : W.collab.numInternalReadyTasks st.env = rest.length + 1 := by
    simp [World.collab, hq]
  have h2 : W.collab.getNextInternalReadyTask st.env = (t, { st.env with internalReady := rest }) := by
    simp [World.collab, Tracker.getNextInternalReadyTask, hq]
  rw [drainInternalReady]
  simp only [h1, h2, Nat.succ_pos, if_true]
  rw [if_neg ((isSync_false_iff t).mp ht)]
  rfl

/-- The collaborator state after a task was initiated (lines 264-266). -/
theorem initiated_env (W : World) (t : DetailedTask) (s : Tracker) :
    ((s.initiateTask W t).markInitiated t).checkExternalDepCount W t =
      { s with
        initiated := t.id :: s.initiated
        posted := s.posted ++
          ((W.recvsOf t).filter fun m => decide (m ∉ s.received ∧ m ∉ s.posted)).dedup
        externalReady :=
          if ((W.recvsOf t).filter fun m => decide (m ∉ s.received)).length = 0 then
            s.externalReady ++ [t]
          else s.externalReady } := by
  unfold Tracker.checkExternalDepCount
  simp only [Tracker.externalDepCount, Tracker.markInitiated, Tracker.initiateTask,
    List.mem_cons, true_or, and_true]
  split <;> rfl

end Uintah

namespace Uintah

theorem Sys.keep_pop_sync {W : World} (hv : W.ValidGraph) {st : LoopState Tracker} (h : Sys W st)
    {t : DetailedTask} {rest : List DetailedTask} (hq : st.env.internalReady = t :: rest)
    (ht : t.isSync = true) :
    Sys W
      { st with
        env := { st.env with internalReady := rest }
        phaseSyncTask := mapSet st.phaseSyncTask t.task.m_phase (some t)
        log := st.log ++ [Call.getNextInternalReadyTask t] } := by
  have hQ := h.queue
  rw [hq] at hQ
  obtain ⟨htL, htp⟩ := hQ.fresh t (List.mem_cons_self _ _)
  have honce : DeliversOnce W.localTasks (st.log ++ [Call.getNextInternalReadyTask t]) := by
    constructor
    · simp only [internalPops_append, internalPops_cons_pop, internalPops_nil]
      exact List.Nodup.append h.once.1 (List.nodup_singleton t)
        (by simpa [List.disjoint_singleton] using htp)
    · intro x hx
      simp only [internalPops_append, internalPops_cons_pop, internalPops_nil, List.mem_append,
        List.mem_singleton] at hx
      rcases hx with hx | rfl
      · exact h.once.2 x hx
      · exact htL
  refine ⟨h.inv.pop_sync _ _ ht honce hv.one_sync, honce, ?_, ?_, h.comm, h.phase_le⟩
  · have := hQ.pop
    simpa using this
  · have := h.popped.after_pop_sync t ht
      (fun u hu hus hk => hv.one_sync u (h.once.2 u hu) t htL hus ht hk)
    simpa using this

theorem Sys.keep_pop_normal {W : World} (hv : W.ValidGraph) {st : LoopState Tracker} (h : Sys W st)
    {t : DetailedTask} {rest : List DetailedTask} (hq : st.env.internalReady = t :: rest)
    (ht : t.isSync = false) :
    Sys W
      { st with
        env := ((({ st.env with internalReady := rest } : Tracker).initiateTask W t).markInitiated
          t).checkExternalDepCount W t
        pending_tasks := st.pending_tasks.insert t
        log := st.log ++ [Call.getNextInternalReadyTask t, Call.initiateTask t] } := by
  have hQ := h.queue
  rw [hq] at hQ
  obtain ⟨htL, htp⟩ := hQ.fresh t (List.mem_cons_self _ _)
  have honce : DeliversOnce W.localTasks
      (st.log ++ [Call.getNextInternalReadyTask t, Call.initiateTask t]) := by
    constructor
    · simp only [internalPops_append, internalPops_cons_pop, internalPops_cons_initiateTask,
        internalPops_nil]
      exact List.Nodup.append h.once.1 (List.nodup_singleton t)
        (by simpa [List.disjoint_singleton] using htp)
    · intro x hx
      simp only [internalPops_append, internalPops_cons_pop, internalPops_cons_initiateTask,
        internalPops_nil, List.mem_append, List.mem_singleton] at hx
      rcases hx with hx | rfl
      · exact h.once.2 x hx
      · exact htL
  have htpend : t ∉ st.pending_tasks := fun hx => htp (h.inv.pend t hx).1
  rw [initiated_env]
  refine ⟨h.inv.pop_normal _ _ ht honce, honce, ?_, ?_, ?_, h.phase_le⟩
  · have := hQ.pop
    simpa using this
  · have := h.popped.after_pop_normal t ht
    simpa using this
  · exact h.comm.on_pop_normal hv htL htpend

theorem score_pop_sync (st : LoopState Tracker) (env1 : Tracker)
    (syncs : Int → Option DetailedTask) (t : DetailedTask)
    (he : env1.received = st.env.received) :
    score { st with
            env := env1
            phaseSyncTask := syncs
            log := st.log ++ [Call.getNextInternalReadyTask t] } = score st + 1 := by
  simp only [score, internalPops_append, internalPops_cons_pop, internalPops_nil,
    ranTasks_append, ranTasks_cons_pop, ranTasks_nil, List.length_append, List.length_singleton,
    List.append_nil, he]
  omega

theorem score_pop_normal (st : LoopState Tracker) (env1 : Tracker)
    (pend : List DetailedTask) (t : DetailedTask) (he : env1.received = st.env.received) :
    score { st with
            env := env1
            pending_tasks := pend
            log := st.log ++ [Call.getNextInternalReadyTask t, Call.initiateTask t] }
      = score st + 1 := by
  simp only [score, internalPops_append, internalPops_cons_pop, internalPops_cons_initiateTask,
    internalPops_nil, ranTasks_append, ranTasks_cons_pop, ranTasks_cons_initiateTask,
    ranTasks_nil, List.length_append, List.length_singleton, List.append_nil, he]
  omega

/-- The inner loop of lines 257-272 empties Internal-Ready, given room for
as many passes as the queue is long. -/
theorem drain_sys {W : World} (hv : W.ValidGraph) :
    ∀ (fuel : Nat) (st : LoopState Tracker), Sys W st → st.env.internalReady.length ≤ fuel →
      ∃ st1, drainInternalReady W.collab fuel st = Outcome.ok st1 ∧ Sys W st1 ∧
        st1.env.internalReady = [] ∧
        score st + st.env.internalReady.length ≤ score st1 ∧
        st1.numTasksDone = st.numTasksDone ∧
        (st.env.internalReady = [] → st1 = st) := by
  intro fuel
  induction fuel with
  | zero =>
    intro st h hl
    have hq : st.env.internalReady = [] := List.length_eq_zero.mp (Nat.le_zero.mp hl)
    exact ⟨st, drain_empty _ _ _ (by simp [World.collab, hq]), h, hq, by simp [hq], rfl,
      fun _ => rfl⟩
  | succ fuel ih =>
    intro st h hl
    cases hq : st.env.internalReady with
    | nil =>
      exact ⟨st, drain_empty _ _ _ (by simp [World.collab, hq]), h, hq, by simp, rfl,
        fun _ => rfl⟩
    | cons t rest =>
      have hl2 : rest.length ≤ fuel := by
        rw [hq] at hl
        simpa using hl
      cases ht : t.isSync with
      | true =>
        obtain ⟨st1, h1, h2, h3, h4, h5, _⟩ := ih _ (h.keep_pop_sync hv hq ht) hl2
        refine ⟨st1, ?_, h2, h3, ?_, h5, ?_⟩
        · rw [drain_step_sync W fuel st hq ht]; exact h1
        · have hs := score_pop_sync st ({ st.env with internalReady := rest } : Tracker)
            (mapSet st.phaseSyncTask t.task.m_phase (some t)) t rfl
          rw [hs] at h4
          simp only [List.length_cons]
          simp only at h4
          omega
        · intro hnil; cases hnil
      | false =>
        have hr : (((({ st.env with internalReady := rest } : Tracker).initiateTask W
            t).markInitiated t).checkExternalDepCount W t).internalReady = rest := by
          rw [initiated_env]
        obtain ⟨st1, h1, h2, h3, h4, h5, _⟩ :=
          ih _ (h.keep_pop_normal hv hq ht) (by simp only [hr]; exact hl2)
        refine ⟨st1, ?_, h2, h3, ?_, h5, ?_⟩
        · rw [drain_step_normal W fuel st hq ht]; exact h1
        · have hs := score_pop_normal st
            ((({ st.env with internalReady := rest } : Tracker).initiateTask W t).markInitiated
              t |>.checkExternalDepCount W t) (st.pending_tasks.insert t) t
            (by rw [initiated_env])
          rw [hs] at h4
          simp only [hr] at h4
          simp only [List.length_cons]
          omega
        · intro hnil; cases hnil

end Uintah

namespace Uintah

theorem depCount_zero (W : World) (s : Tracker) (t : DetailedTask)
    (h : ∀ m ∈ W.recvsOf t, m ∈ s.received) : s.externalDepCount W t = 0 := by
  unfold Tracker.externalDepCount
  rw [List.length_eq_zero, List.filter_eq_nil_iff]
  intro m hm
  simpa using h m hm

/-- Lines 274-299 when External-Ready is not empty. -/
theorem ext_step (W : World) (st : LoopState Tracker) {t : DetailedTask}
    (hget : st.env.externalReady[W.policy st.env.externalReady % st.env.externalReady.length]?
      = some t)
    (hp : t ∈ st.pending_tasks) (hc : ∀ m ∈ W.recvsOf t, m ∈ st.env.received) :
    runExternalReady W.collab st =
      Outcome.ok
        { st with
          env := ({ st.env with externalReady := st.env.externalReady.erase t } : Tracker).complete
            W t
          pending_tasks := st.pending_tasks.erase t
          numTasksDone := st.numTasksDone + 1
          phaseTasksDone :=
            mapSet st.phaseTasksDone t.task.m_phase (st.phaseTasksDone t.task.m_phase + 1)
          log := (st.log ++ [Call.getNextExternalReadyTask t]) ++ [Call.runTask t] } := by
  have hne : 0 < st.env.externalReady.length := by
    rcases Nat.eq_zero_or_pos st.env.externalReady.length with h0 | h0
    · rw [List.length_eq_zero.mp h0] at hget
      simp at hget
    · exact h0
  have h1 : W.collab.numExternalReadyTasks st.env = st.env.externalReady.length := rfl
  have h2 : W.collab.getNextExternalReadyTask st.env =
      (t, { st.env with externalReady := st.env.externalReady.erase t }) := by
    simp only [World.collab, Tracker.getNextExternalReadyTask, hget]
  have h3 : W.collab.getExternalDepCount t
      { st.env with externalReady := st.env.externalReady.erase t } = 0 := by
    simp only [World.collab]
    exact_mod_cast depCount_zero W _ t hc
  unfold runExternalReady
  simp only [h1, h2, hne, if_true, hp, h3]
  rfl

theorem ext_sys {W : World} (hv : W.ValidGraph) {st : LoopState Tracker} (h : Sys W st) :
    ∃ st2, runExternalReady W.collab st = Outcome.ok st2 ∧ Sys W st2 ∧
      score st ≤ score st2 ∧
      (st.env.externalReady ≠ [] → score st < score st2) ∧
      (st.env.externalReady = [] → st2 = st) := by
  by_cases hq : st.env.externalReady = []
  · exact ⟨st, ext_empty _ _ (by simp [World.collab, hq]), h, le_refl _,
      fun hne => absurd hq hne, fun _ => rfl⟩
  · have hlen : 0 < st.env.externalReady.length := List.length_pos.mpr hq
    have hi : W.policy st.env.externalReady % st.env.externalReady.length
        < st.env.externalReady.length := Nat.mod_lt _ hlen
    have hget := List.getElem?_eq_getElem hi
    have htq : st.env.externalReady[W.policy st.env.externalReady % st.env.externalReady.length]
        ∈ st.env.externalReady := List.getElem_mem _
    generalize st.env.externalReady[W.policy st.env.externalReady % st.env.externalReady.length]
      = t at hget htq
    obtain ⟨htp, hrec⟩ := h.comm.ext t htq
    have hstep := ext_step W st hget htp hrec
    have htL := h.pending_local t htp
    have htr : t ∉ ranTasks st.log := (h.inv.pend t htp).2.2
    refine ⟨_, hstep, ?_, ?_, ?_, fun he => absurd he hq⟩
    · refine ⟨runExternalReady_inv _ _ _ hstep h.inv, ?_, ?_, ?_, ?_, h.phase_le⟩
      · have := h.once
        simpa [DeliversOnce] using this
      · have := h.queue.complete hv htL htr h.ran_local
        simpa [Tracker.complete] using this
      · have := h.popped.after_ext_run t
        simpa using this
      · exact h.comm.on_ext_run hv h.inv.pend_nodup htq
    · simp [score, Tracker.complete]
    · intro _
      simp [score, Tracker.complete]

/-- Lines 301-332 when the condition of line 301 holds for a reduction task. -/
theorem sync_step_reduction (W : World) (st : LoopState Tracker) {S : DetailedTask}
    (hreg : st.phaseSyncTask st.currphase = some S)
    (htrig : st.phaseTasksDone st.currphase = phaseTasksOf W.localTasks st.currphase - 1)
    (hty : S.task.type = TaskType.Reduction) (hph : S.task.m_phase = st.currphase) :
    runSyncTask W.collab (phaseTasksOf W.localTasks) st =
      Outcome.ok
        { st with
          env := st.env.complete W S
          numTasksDone := st.numTasksDone + 1
          phaseTasksDone :=
            mapSet st.phaseTasksDone S.task.m_phase (st.phaseTasksDone S.task.m_phase + 1)
          log := st.log ++ [Call.initiateReduction S] } := by
  unfold runSyncTask
  simp only [hreg, htrig, if_true, hty, Outcome.andThen, hph]
  rfl

/-- Lines 301-332 when the condition of line 301 holds for a task that uses
MPI, is not a reduction and requires no message. -/
theorem sync_step_opp (W : World) (st : LoopState Tracker) {S : DetailedTask}
    (hreg : st.phaseSyncTask st.currphase = some S)
    (htrig : st.phaseTasksDone st.currphase = phaseTasksOf W.localTasks st.currphase - 1)
    (hty : S.task.type ≠ TaskType.Reduction) (hmpi : S.task.usesMPI = true)
    (hr : W.recvsOf S = []) (hph : S.task.m_phase = st.currphase) :
    runSyncTask W.collab (phaseTasksOf W.localTasks) st =
      Outcome.ok
        { st with
          env := ((st.env.initiateTask W S).markInitiated S).complete W S
          numTasksDone := st.numTasksDone + 1
          phaseTasksDone :=
            mapSet st.phaseTasksDone S.task.m_phase (st.phaseTasksDone S.task.m_phase + 1)
          log := (st.log ++ [Call.initiateTask S]) ++ [Call.runTask S] } := by
  have h3 : W.collab.getExternalDepCount S
      (W.collab.markInitiated S (W.collab.initiateTask S st.abort st.abort_point st.env)) = 0 := by
    simp only [World.collab]
    exact_mod_cast depCount_zero W _ S (by rw [hr]; simp)
  unfold runSyncTask
  simp only [hreg, htrig, if_true, hty, if_false, hmpi, h3, Outcome.andThen, hph]
  rfl

theorem sync_sys {W : World} (hv : W.ValidGraph) (hs : W.Schedulable) {st : LoopState Tracker}
    (h : Sys W st) :
    ∃ st3, runSyncTask W.collab (phaseTasksOf W.localTasks) st = Outcome.ok st3 ∧ Sys W st3 ∧
      score st ≤ score st3 ∧
      (syncTrigger (phaseTasksOf W.localTasks) st = true → score st < score st3) ∧
      (syncTrigger (phaseTasksOf W.localTasks) st = false → st3 = st) := by
  cases htr : syncTrigger (phaseTasksOf W.localTasks) st with
  | false =>
    exact ⟨st, sync_idle _ _ _ htr, h, le_refl _, fun hc => absurd hc (by decide), fun _ => rfl⟩
  | true =>
    simp only [syncTrigger, Bool.and_eq_true, decide_eq_true_eq] at htr
    obtain ⟨hsome, htrig⟩ := htr
    obtain ⟨S, hreg⟩ := Option.isSome_iff_exists.mp hsome
    obtain ⟨hSpop, hSs, hSk⟩ := h.inv.sync_reg _ _ hreg
    have hSL := h.once.2 S hSpop
    have hSr : S ∉ ranTasks st.log := (h.inv.peers_done h.once hreg htrig).1
    by_cases hty : S.task.type = TaskType.Reduction
    · have hstep := sync_step_reduction W st hreg htrig hty hSk
      refine ⟨_, hstep, ?_, ?_, ?_, fun hc => absurd hc (by decide)⟩
      · refine ⟨runSyncTask_inv _ _ _ hstep h.once h.inv, ?_, ?_, ?_, h.comm, h.phase_le⟩
        · have := h.once
          simpa [DeliversOnce] using this
        · have := h.queue.complete hv hSL hSr h.ran_local
          simpa [Tracker.complete] using this
        · have := h.popped.after_sync_run S
          simpa using this
      · simp [score, Tracker.complete]
      · intro _
        simp [score, Tracker.complete]
    · have hmpi : S.task.usesMPI = true := by
        rcases (isSync_iff S).mp hSs with h1 | h1
        · exact absurd h1 hty
        · exact h1
      have hr : W.recvsOf S = [] := by
        obtain ⟨n, hn, rfl⟩ := (W.mem_localTasks S).mp hSL
        rw [World.recvsOf_node hv hn]
        exact hs.sync_no_recvs n hn hSs hty
      have hstep := sync_step_opp W st hreg htrig hty hmpi hr hSk
      refine ⟨_, hstep, ?_, ?_, ?_, fun hc => absurd hc (by decide)⟩
      · refine ⟨runSyncTask_inv _ _ _ hstep h.once h.inv, ?_, ?_, ?_, ?_, h.phase_le⟩
        · have := h.once
          simpa [DeliversOnce] using this
        · have := h.queue.complete hv hSL hSr h.ran_local
          simpa [Tracker.complete, Tracker.markInitiated, Tracker.initiateTask] using this
        · have := h.popped.after_sync_run S
          simpa using this
        · have := h.comm.mark hv hSL hr
          simpa [Tracker.complete, Tracker.markInitiated, Tracker.initiateTask, hr] using this
      · simp [score, Tracker.complete, Tracker.markInitiated, Tracker.initiateTask]
      · intro _
        simp [score, Tracker.complete, Tracker.markInitiated, Tracker.initiateTask]

end Uintah

namespace Uintah

theorem phaseCount_filter_self (l : List DetailedTask) (k : Int) :
    phaseCount (l.filter fun t => decide (t.task.m_phase = k)) k = phaseCount l k := by
  rw [phaseCount_eq_length_filter, phaseCount_eq_length_filter, List.filter_filter]
  simp

/-- If every task of `m` of phase `k` is in `l`, `l` has at least as many
tasks of phase `k` as `m`. -/
theorem phaseCount_le_of_forall_mem {l m : List DetailedTask} (hm : m.Nodup) {k : Int}
    (h : ∀ t ∈ m, t.task.m_phase = k → t ∈ l) : phaseCount m k ≤ phaseCount l k := by
  rw [← phaseCount_filter_self m k]
  apply phaseCount_le_of_nodup_subset (hm.filter _)
  intro x hx
  rw [List.mem_filter] at hx
  exact h x hx.1 (by simpa using hx.2)

/-- If every task of `m` of phase `k` other than `T` is in `l`, `l` has at
least as many tasks of phase `k` as `m`, less one. -/
theorem phaseCount_le_succ_of_forall_mem {l m : List DetailedTask} (hm : m.Nodup) {k : Int}
    (T : DetailedTask) (h : ∀ t ∈ m, t.task.m_phase = k → t ≠ T → t ∈ l) :
    phaseCount m k ≤ phaseCount l k + 1 := by
  have h1 : phaseCount (m.erase T) k ≤ phaseCount l k := by
    apply phaseCount_le_of_forall_mem (hm.erase T)
    intro t ht hk
    obtain ⟨hne, htm⟩ := (hm.mem_erase_iff).mp ht
    exact h t htm hk hne
  by_cases hT : T ∈ m
  · have hperm : m.Perm (T :: m.erase T) := List.perm_cons_erase hT
    have h2 : phaseCount m k = phaseCount (T :: m.erase T) k := by
      unfold phaseCount
      exact hperm.countP_eq _
    have h3 : phaseCount (T :: m.erase T) k ≤ phaseCount (m.erase T) k + 1 := by
      unfold phaseCount
      rw [List.countP_cons]
      split <;> omega
    omega
  · rw [List.erase_of_not_mem hT] at h1
    omega

theorem exists_not_mem_of_length_lt {l m : List DetailedTask} (hm : m.Nodup)
    (h : l.length < m.length) : ∃ t ∈ m, t ∉ l := by
  by_contra hc
  push_neg at hc
  have := length_le_of_nodup_subset hm hc
  omega

/-- A task that was not executed belongs to the current phase or a later
one, and to a later one if the current phase is complete. -/
theorem Sys.not_done_phase {W : World} (hv : W.ValidGraph) {st : LoopState Tracker}
    (h : Sys W st) {t : DetailedTask} (ht : t ∈ W.localTasks) (htr : t ∉ ranTasks st.log) :
    st.currphase ≤ t.task.m_phase ∧
      (phaseTasksOf W.localTasks st.currphase = st.phaseTasksDone st.currphase →
        st.currphase < t.task.m_phase) := by
  have h0 := World.phase_nonneg hv ht
  have hlt : ¬ t.task.m_phase < st.currphase := by
    intro hlt
    have h2 := h.inv.phases_done t.task.m_phase h0 hlt
    rw [h.inv.phase_eq, phaseTasksOf_eq] at h2
    exact htr (mem_of_phaseCount_le h.inv.ran_nodup h.ran_local (by exact_mod_cast h2) ht rfl)
  refine ⟨by omega, ?_⟩
  intro hc
  have hne : t.task.m_phase ≠ st.currphase := by
    intro he
    rw [h.inv.phase_eq, phaseTasksOf_eq] at hc
    exact htr (mem_of_phaseCount_le h.inv.ran_nodup h.ran_local
      (by exact_mod_cast le_of_eq hc) ht he)
  omega

theorem DependsOn.rank_lt {W : World} {rank : Nat → Nat}
    (hr : ∀ n ∈ W.graph, ∀ p ∈ n.preds, rank p < rank n.dtask.id) {a b : Nat}
    (h : World.DependsOn W a b) : rank b < rank a := by
  induction h with
  | edge hn hp => exact hr _ hn _ hp
  | step hn hp _ ih => exact lt_trans ih (hr _ hn _ hp)

/-- Every task that was not executed is, or depends on, a task that was not
executed and has all its local predecessors completed. -/
theorem Sys.exists_ready {W : World} (hv : W.ValidGraph) {st : LoopState Tracker}
    (h : Sys W st) {T : Node} (hT : T ∈ W.graph) (hTr : T.dtask ∉ ranTasks st.log) :
    ∃ M ∈ W.graph, M.dtask ∉ ranTasks st.log ∧ (∀ p ∈ M.preds, p ∈ st.env.done) ∧
      (M = T ∨ World.DependsOn W T.dtask.id M.dtask.id) := by
  obtain ⟨rank, hrank⟩ := hv.acyclic
  have key : ∀ k (T : Node), T ∈ W.graph → T.dtask ∉ ranTasks st.log → rank T.dtask.id < k →
      ∃ M ∈ W.graph, M.dtask ∉ ranTasks st.log ∧ (∀ p ∈ M.preds, p ∈ st.env.done) ∧
        (M = T ∨ World.DependsOn W T.dtask.id M.dtask.id) := by
    intro k
    induction k with
    | zero => intro T _ _ hk; omega
    | succ k ih =>
      intro T hT hTr hk
      by_cases hall : ∀ p ∈ T.preds, p ∈ st.env.done
      · exact ⟨T, hT, hTr, hall, Or.inl rfl⟩
      · push_neg at hall
        obtain ⟨p, hp, hpd⟩ := hall
        obtain ⟨P, hP, hPid⟩ := hv.preds_local T hT p hp
        have hPr : P.dtask ∉ ranTasks st.log := by
          intro hx
          exact hpd ((h.queue.done_iff p).mpr ⟨P.dtask, hx, hPid⟩)
        have hlt : rank P.dtask.id < k := by
          have := hrank T hT p hp
          rw [hPid]
          omega
        obtain ⟨M, hM, hMr, hMall, hdep⟩ := ih P hP hPr hlt
        refine ⟨M, hM, hMr, hMall, Or.inr ?_⟩
        rcases hdep with rfl | hdep
        · rw [hPid]
          exact World.DependsOn.edge hT hp
        · rw [hPid] at hdep
          exact World.DependsOn.step hT hp hdep
  exact key _ T hT hTr (Nat.lt_succ_self _)

/-- With both ready queues empty and no receive outstanding, a task that was
not executed and has all its local predecessors completed is a registered
synchronization task. -/
theorem Sys.ready_is_sync {W : World} {st : LoopState Tracker} (h : Sys W st)
    (hq : st.env.internalReady = []) (he : st.env.externalReady = [])
    (hp : st.env.posted = []) {M : Node} (hM : M ∈ W.graph)
    (hMr : M.dtask ∉ ranTasks st.log) (hall : ∀ p ∈ M.preds, p ∈ st.env.done) :
    M.dtask.isSync = true ∧ st.phaseSyncTask M.dtask.task.m_phase = some M.dtask := by
  have hpop : M.dtask ∈ internalPops st.log := by
    rcases (h.queue.ready_iff M hM).mp hall with h1 | h1
    · rw [hq] at h1; cases h1
    · exact h1
  cases hs : M.dtask.isSync with
  | true => exact ⟨rfl, h.popped.sync _ hpop hs⟩
  | false =>
    exfalso
    rcases h.popped.normal _ hpop hs with h1 | h1
    · obtain ⟨_, h2, h3⟩ := h.comm.pend _ h1
      rcases h2 with h2 | ⟨m, hm, hmr⟩
      · rw [he] at h2; cases h2
      · have := h3 m hm hmr
        rw [hp] at this; cases this
    · exact hMr h1

/-- On a schedulable graph the main loop is never caught with tasks left,
both ready queues empty, no receive outstanding, the current phase
incomplete and its synchronization task not due. -/
theorem Sys.not_stuck {W : World} (hv : W.ValidGraph) (hs : W.Schedulable)
    {st : LoopState Tracker} (h : Sys W st)
    (hinc : phaseTasksOf W.localTasks st.currphase ≠ st.phaseTasksDone st.currphase)
    (hq : st.env.internalReady = []) (he : st.env.externalReady = [])
    (htr : syncTrigger (phaseTasksOf W.localTasks) st = false)
    (hp : st.env.posted = []) : False := by
  have hLn := World.localTasks_nodup hv
  have hle := phaseCount_le_of_nodup_subset h.inv.ran_nodup h.ran_local st.currphase
  have hpe := h.inv.phase_eq st.currphase
  rw [phaseTasksOf_eq, hpe] at hinc
  have hlt : phaseCount (ranTasks st.log) st.currphase < phaseCount W.localTasks st.currphase := by
    have : phaseCount W.localTasks st.currphase ≠ phaseCount (ranTasks st.log) st.currphase := by
      intro e; exact hinc (by exact_mod_cast e)
    omega
  -- a task of the current phase that was not executed
  have hex : ∃ t ∈ W.localTasks, t.task.m_phase = st.currphase ∧ t ∉ ranTasks st.log := by
    by_contra hc
    push_neg at hc
    have := phaseCount_le_of_forall_mem hLn (l := ranTasks st.log) (k := st.currphase)
      (fun t ht hk => hc t ht hk)
    omega
  obtain ⟨t, htL, htk, htr2⟩ := hex
  obtain ⟨T, hT, rfl⟩ := (W.mem_localTasks t).mp htL
  -- what blocks a task of the current phase
  have block : ∀ T ∈ W.graph, T.dtask.task.m_phase = st.currphase →
      T.dtask ∉ ranTasks st.log →
      T.dtask.isSync = true ∧ st.phaseSyncTask st.currphase = some T.dtask := by
    intro T hT hTk hTr
    obtain ⟨M, hM, hMr, hall, hdep⟩ := h.exists_ready hv hT hTr
    obtain ⟨hMs, hMreg⟩ := h.ready_is_sync hq he hp hM hMr hall
    rcases hdep with rfl | hdep
    · rw [hTk] at hMreg
      exact ⟨hMs, hMreg⟩
    · exfalso
      have h1 := hs.sync_before T hT M hM hMs hdep
      have h2 := (h.not_done_phase hv (W.node_mem_localTasks hM) hMr).1
      omega
  obtain ⟨hTs, hTreg⟩ := block T hT htk htr2
  -- the synchronization task is not due, so another task of the phase is left
  have hntrig : st.phaseTasksDone st.currphase ≠ phaseTasksOf W.localTasks st.currphase - 1 := by
    intro e
    simp [syncTrigger, hTreg, e] at htr
  rw [phaseTasksOf_eq, hpe] at hntrig
  have hex2 : ∃ u ∈ W.localTasks, u.task.m_phase = st.currphase ∧ u ≠ T.dtask ∧
      u ∉ ranTasks st.log := by
    by_contra hc
    push_neg at hc
    have := phaseCount_le_succ_of_forall_mem hLn (l := ranTasks st.log) (k := st.currphase)
      T.dtask (fun u hu hk hne => hc u hu hk hne)
    omega
  obtain ⟨u, huL, huk, hune, hur⟩ := hex2
  obtain ⟨U, hU, rfl⟩ := (W.mem_localTasks u).mp huL
  obtain ⟨hUs, _⟩ := block U hU huk hur
  exact hune (hv.one_sync _ huL _ htL hUs hTs (huk.trans htk.symm))

end Uintah

namespace Uintah

theorem processMPIRecvs_cases (W : World) (mode : RecvMode) (s : Tracker) :
    (s.processMPIRecvs W mode = { s with polls := s.polls + 1 } ∧
        (mode = RecvMode.WAIT_ONCE → s.posted = [])) ∨
      ∃ m ∈ s.posted,
        s.processMPIRecvs W mode = ({ s with polls := s.polls + 1 } : Tracker).receive W m := by
  unfold Tracker.processMPIRecvs
  cases mode with
  | TEST =>
    cases hr : W.ready s.polls s.posted with
    | none => left; simp
    | some m =>
      by_cases hm : m ∈ s.posted
      · right; exact ⟨m, hm, by simp [hm]⟩
      · left; simp [hm]
  | WAIT_ONCE =>
    cases hp : s.posted with
    | nil => left; simp
    | cons a rest =>
      right
      have hlen : 0 < (a :: rest).length := by simp
      have hi : W.first s.polls (a :: rest) % (a :: rest).length < (a :: rest).length :=
        Nat.mod_lt _ hlen
      have hget := List.getElem?_eq_getElem hi
      refine ⟨(a :: rest)[W.first s.polls (a :: rest) % (a :: rest).length], List.getElem_mem _,
        ?_⟩
      simp only [hget]

/-- Polling the receives (lines 341 and 345). -/
theorem Sys.keep_poll {W : World} (hv : W.ValidGraph) {st : LoopState Tracker} (h : Sys W st)
    (mode : RecvMode) :
    Sys W { st with
            env := st.env.processMPIRecvs W mode
            log := st.log ++ [Call.processMPIRecvs mode] } ∧
      score st ≤ score { st with
                         env := st.env.processMPIRecvs W mode
                         log := st.log ++ [Call.processMPIRecvs mode] } ∧
      (mode = RecvMode.WAIT_ONCE → st.env.posted ≠ [] →
        score st < score { st with
                           env := st.env.processMPIRecvs W mode
                           log := st.log ++ [Call.processMPIRecvs mode] }) := by
  have honce : DeliversOnce W.localTasks (st.log ++ [Call.processMPIRecvs mode]) := by
    have := h.once
    simpa [DeliversOnce] using this
  rcases processMPIRecvs_cases W mode st.env with ⟨heq, hw⟩ | ⟨m, hm, heq⟩
  · rw [heq]
    refine ⟨⟨h.inv.poll _ _, honce, ?_, ?_, h.comm, h.phase_le⟩, ?_, ?_⟩
    · have := h.queue
      simpa using this
    · have := h.popped
      simpa using this
    · simp [score]
    · intro hmode hne
      exact absurd (hw hmode) hne
  · rw [heq]
    refine ⟨⟨h.inv.poll _ _, honce, ?_, ?_, ?_, h.phase_le⟩, ?_, ?_⟩
    · have := h.queue
      simpa [Tracker.receive] using this
    · have := h.popped
      simpa using this
    · exact h.comm.receive hv h.pending_local hm
    · simp [score, Tracker.receive]
    · intro _ _
      simp [score, Tracker.receive]

/-- Lines 334-347 keep the bookkeeping, and make progress when the phase is
advanced or a blocking poll finds a receive outstanding. -/
theorem poll_sys {W : World} (hv : W.ValidGraph) {st : LoopState Tracker} (h : Sys W st) :
    Sys W (advanceOrPoll W.collab (phaseTasksOf W.localTasks) (W.localTasks.length : Int) st) ∧
      score st ≤ score
        (advanceOrPoll W.collab (phaseTasksOf W.localTasks) (W.localTasks.length : Int) st) ∧
      (st.numTasksDone < (W.localTasks.length : Int) →
        (phaseTasksOf W.localTasks st.currphase = st.phaseTasksDone st.currphase ∨
          (st.env.internalReady = [] ∧ st.env.externalReady = [] ∧
            syncTrigger (phaseTasksOf W.localTasks) st = false ∧ st.env.posted ≠ [])) →
        score st < score
          (advanceOrPoll W.collab (phaseTasksOf W.localTasks) (W.localTasks.length : Int) st)) := by
  unfold advanceOrPoll
  by_cases hc : st.numTasksDone < (W.localTasks.length : Int)
  · rw [if_pos hc]
    by_cases hadv : phaseTasksOf W.localTasks st.currphase = st.phaseTasksDone st.currphase
    · rw [if_pos hadv]
      have hlt : (ranTasks st.log).length < W.localTasks.length := by
        have := h.inv.done_eq
        omega
      obtain ⟨t, htL, htr⟩ := exists_not_mem_of_length_lt (World.localTasks_nodup hv) hlt
      have h1 := (h.not_done_phase hv htL htr).2 hadv
      have h2 := W.le_maxPhase htL
      have h0 := h.inv.phase_nonneg
      refine ⟨⟨h.inv.advance hadv, h.once, h.queue, h.popped, h.comm, ?_⟩, ?_, ?_⟩
      · show st.currphase + 1 ≤ W.maxPhase
        omega
      · simp only [score]
        omega
      · intro _ _
        simp only [score]
        omega
    · rw [if_neg hadv]
      by_cases htest : 0 < W.collab.numExternalReadyTasks st.env ∨
          0 < W.collab.numInternalReadyTasks st.env ∨
          syncTrigger (phaseTasksOf W.localTasks) st = true
      · rw [if_pos htest]
        obtain ⟨h1, h2, _⟩ := h.keep_poll hv RecvMode.TEST
        refine ⟨h1, h2, ?_⟩
        intro _ hor
        rcases hor with hor | ⟨hi, he, ht, _⟩
        · exact absurd hor hadv
        · exfalso
          rcases htest with h3 | h3 | h3
          · simp [World.collab, he] at h3
          · simp [World.collab, hi] at h3
          · rw [ht] at h3; cases h3
      · rw [if_neg htest]
        obtain ⟨h1, h2, h3⟩ := h.keep_poll hv RecvMode.WAIT_ONCE
        refine ⟨h1, h2, ?_⟩
        intro _ hor
        rcases hor with hor | ⟨_, _, _, hp⟩
        · exact absurd hor hadv
        · exact h3 rfl hp
  · rw [if_neg hc]
    exact ⟨h, le_refl _, fun hc2 => absurd hc2 hc⟩

theorem checkAbort_quiet {W : World} (hs : W.Schedulable) (st : LoopState Tracker) :
    checkAbort W.collab none st = Outcome.ok st := by
  unfold checkAbort
  have : W.collab.timestepAborted st.env = false := hs.no_abort _
  simp [this]

/-- On a schedulable graph a pass through the loop body gets through, keeps
the bookkeeping and makes progress. -/
theorem iteration_sys {W : World} (hv : W.ValidGraph) (hs : W.Schedulable) {fuel : Nat}
    (hfuel : W.graph.length ≤ fuel) {st : LoopState Tracker} (h : Sys W st)
    (hc : st.numTasksDone < (W.localTasks.length : Int)) :
    ∃ st5, iteration W.collab (phaseTasksOf W.localTasks) (W.localTasks.length : Int) fuel st
        = Outcome.ok st5 ∧ Sys W st5 ∧ score st < score st5 := by
  have hql : st.env.internalReady.length ≤ fuel := by
    have h1 := length_le_of_nodup_subset h.queue.nodup fun x hx => (h.queue.fresh x hx).1
    have h2 : W.localTasks.length = W.graph.length := by simp [World.localTasks]
    omega
  obtain ⟨st1, hd, hS1, hq1, hsc1, hn1, hid1⟩ := drain_sys hv fuel st h hql
  obtain ⟨st2, he, hS2, hsc2, hlt2, hid2⟩ := ext_sys hv hS1
  obtain ⟨st3, hy, hS3, hsc3, hlt3, hid3⟩ := sync_sys hv hs hS2
  obtain ⟨hS4, hsc4, hlt4⟩ := poll_sys hv hS3
  refine ⟨_, ?_, hS4, ?_⟩
  · unfold iteration
    rw [andThen_ok_eq _ hd, andThen_ok_eq _ he, andThen_ok_eq _ hy]
    exact checkAbort_quiet hs _
  · by_cases hq : st.env.internalReady = []
    · have e1 := hid1 hq
      subst e1
      by_cases hx : st1.env.externalReady = []
      · have e2 := hid2 hx
        subst e2
        cases ht : syncTrigger (phaseTasksOf W.localTasks) st2 with
        | true =>
          have := hlt3 ht
          omega
        | false =>
          have e3 := hid3 ht
          subst e3
          by_cases hadv : phaseTasksOf W.localTasks st3.currphase
              = st3.phaseTasksDone st3.currphase
          · exact hlt4 hc (Or.inl hadv)
          · by_cases hp : st3.env.posted = []
            · exact (h.not_stuck hv hs hadv hq hx ht hp).elim
            · exact hlt4 hc (Or.inr ⟨hq, hx, ht, hp⟩)
      · have := hlt2 hx
        omega
    · have : 0 < st.env.internalReady.length := List.length_pos.mpr hq
      omega

end Uintah

namespace Uintah

/-! ## Theorems: termination of the main loop -/

end Uintah

namespace Uintah

/-! ## Step 1 of the loop body -/

theorem drainCalls_nil : drainCalls [] = [] := rfl

theorem drainCalls_cons (t : DetailedTask) (rest : List DetailedTask) :
    drainCalls (t :: rest) =
      (if t.isSync = true then [Call.getNextInternalReadyTask t]
        else [Call.getNextInternalReadyTask t, Call.initiateTask t]) ++ drainCalls rest := by
  simp [drainCalls]

theorem registerAll_cons (syncs : Int → Option DetailedTask) (t : DetailedTask)
    (rest : List DetailedTask) :
    registerAll syncs (t :: rest) =
      registerAll (if t.isSync = true then mapSet syncs t.task.m_phase (some t) else syncs) rest :=
  rfl

theorem pendAll_cons (pending : List DetailedTask) (t : DetailedTask)
    (rest : List DetailedTask) :
    pendAll pending (t :: rest) =
      pendAll (if t.isSync = true then pending else pending.insert t) rest :=
  rfl

/-- The loop of lines 257-272 has no way to fail. -/
theorem drain_no_fault {σ : Type} (E : Collab σ) :
    ∀ (fuel : Nat) (st : LoopState σ) (f : Fault) (x : LoopState σ),
      drainInternalReady E fuel st ≠ Outcome.fault f x := by
  intro fuel
  induction fuel with
  | zero =>
    intro st f x h
    simp only [drainInternalReady] at h
    split at h <;> cases h
  | succ fuel ih =>
    intro st f x h
    simp only [drainInternalReady] at h
    split at h
    · split at h
      · exact ih _ _ _ h
      · exact ih _ _ _ h
    · cases h

/-- The loop of lines 257-272 against its description: when Internal-Ready
hands out the tasks `popped` and is empty then, the loop gets through with
the state the description gives. -/
theorem drain_spec {σ : Type} (E : Collab σ) :
    ∀ (popped : List DetailedTask) (fuel : Nat) (st : LoopState σ),
      PoppedFrom E st.abort st.abort_point popped st.env → popped.length ≤ fuel →
      drainInternalReady E fuel st =
        Outcome.ok
          { st with
            env := drainEnv E st.abort st.abort_point popped st.env
            phaseSyncTask := registerAll st.phaseSyncTask popped
            pending_tasks := pendAll st.pending_tasks popped
            log := st.log ++ drainCalls popped } := by
  intro popped
  induction popped with
  | nil =>
    intro fuel st hp _
    simp only [PoppedFrom] at hp
    cases fuel with
    | zero =>
      simp only [drainInternalReady, hp, lt_irrefl, if_false]
      simp [drainEnv, registerAll, pendAll, drainCalls]
    | succ fuel =>
      simp only [drainInternalReady, hp, lt_irrefl, if_false]
      simp [drainEnv, registerAll, pendAll, drainCalls]
  | cons t rest ih =>
    intro fuel st hp hf
    simp only [PoppedFrom] at hp
    obtain ⟨hpos, ht, hrest⟩ := hp
    cases fuel with
    | zero => simp at hf
    | succ fuel =>
      have hf2 : rest.length ≤ fuel := by simpa using hf
      subst ht
      simp only [drainInternalReady, if_pos hpos]
      by_cases hsync : (E.getNextInternalReadyTask st.env).1.isSync = true
      · have hc := (isSync_iff _).1 hsync
        rw [if_pos hc]
        simp only [drainEnv, if_pos hsync] at hrest
        have h := ih fuel
          { st with
            env := (E.getNextInternalReadyTask st.env).2
            phaseSyncTask := mapSet st.phaseSyncTask
              (E.getNextInternalReadyTask st.env).1.task.m_phase
              (some (E.getNextInternalReadyTask st.env).1)
            log := st.log ++ [Call.getNextInternalReadyTask (E.getNextInternalReadyTask st.env).1] }
          hrest hf2
        refine h.trans ?_
        simp only [drainEnv, if_pos hsync, registerAll_cons, pendAll_cons, drainCalls_cons,
          List.append_assoc]
      · have hc : ¬ ((E.getNextInternalReadyTask st.env).1.task.type = TaskType.Reduction ∨
            (E.getNextInternalReadyTask st.env).1.task.usesMPI = true) :=
          fun h => hsync ((isSync_iff _).2 h)
        rw [if_neg hc]
        simp only [drainEnv, if_neg hsync] at hrest
        have h := ih fuel
          { st with
            env := E.checkExternalDepCount (E.getNextInternalReadyTask st.env).1
              (E.markInitiated (E.getNextInternalReadyTask st.env).1
                (E.initiateTask (E.getNextInternalReadyTask st.env).1 st.abort st.abort_point
                  (E.getNextInternalReadyTask st.env).2))
            pending_tasks := st.pending_tasks.insert (E.getNextInternalReadyTask st.env).1
            log := st.log ++ [Call.getNextInternalReadyTask (E.getNextInternalReadyTask st.env).1,
              Call.initiateTask (E.getNextInternalReadyTask st.env).1] }
          hrest hf2
        refine h.trans ?_
        simp only [drainEnv, if_neg hsync, registerAll_cons, pendAll_cons, drainCalls_cons,
          List.append_assoc]

/-- The converse of `drain_spec`: when the loop of lines 257-272 gets
through, Internal-Ready handed out some tasks `popped` and was empty then,
and the state is the one the description gives. -/
theorem drain_char {σ : Type} (E : Collab σ) :
    ∀ (fuel : Nat) (st st1 : LoopState σ), drainInternalReady E fuel st = Outcome.ok st1 →
      ∃ popped, PoppedFrom E st.abort st.abort_point popped st.env ∧ popped.length ≤ fuel ∧
        st1 =
          { st with
            env := drainEnv E st.abort st.abort_point popped st.env
            phaseSyncTask := registerAll st.phaseSyncTask popped
            pending_tasks := pendAll st.pending_tasks popped
            log := st.log ++ drainCalls popped } := by
  intro fuel
  induction fuel with
  | zero =>
    intro st st1 h
    simp only [drainInternalReady] at h
    split at h
    · cases h
    next hz =>
      cases h
      refine ⟨[], ?_, le_refl _, ?_⟩
      · simp only [PoppedFrom]; omega
      · simp [drainEnv, registerAll, pendAll, drainCalls]
  | succ fuel ih =>
    intro st st1 h
    simp only [drainInternalReady] at h
    split at h
    next hpos =>
      split at h
      next hc =>
        obtain ⟨popped, hp, hl, heq⟩ := ih _ _ h
        have hsync : (E.getNextInternalReadyTask st.env).1.isSync = true := (isSync_iff _).2 hc
        refine ⟨(E.getNextInternalReadyTask st.env).1 :: popped, ?_, ?_, ?_⟩
        · simp only [PoppedFrom, drainEnv, if_pos hsync]
          exact ⟨hpos, trivial, hp⟩
        · simpa using hl
        · rw [heq]
          simp only [drainEnv, if_pos hsync, registerAll_cons, pendAll_cons, drainCalls_cons,
            List.append_assoc]
      next hc =>
        obtain ⟨popped, hp, hl, heq⟩ := ih _ _ h
        have hsync : ¬ (E.getNextInternalReadyTask st.env).1.isSync = true :=
          fun h => hc ((isSync_iff _).1 h)
        refine ⟨(E.getNextInternalReadyTask st.env).1 :: popped, ?_, ?_, ?_⟩
        · simp only [PoppedFrom, drainEnv, if_neg hsync]
          exact ⟨hpos, trivial, hp⟩
        · simpa using hl
        · rw [heq]
          simp only [drainEnv, if_neg hsync, registerAll_cons, pendAll_cons, drainCalls_cons,
            List.append_assoc]
    next hz =>
      cases h
      refine ⟨[], ?_, Nat.zero_le _, ?_⟩
      · simp only [PoppedFrom]; omega
      · simp [drainEnv, registerAll, pendAll, drainCalls]

theorem ranTasks_drainCalls (popped : List DetailedTask) : ranTasks (drainCalls popped) = [] := by
  induction popped with
  | nil => rfl
  | cons t rest ih =>
    rw [drainCalls_cons]
    split <;> simp [ih]

theorem internalPops_drainCalls (popped : List DetailedTask) :
    internalPops (drainCalls popped) = popped := by
  induction popped with
  | nil => rfl
  | cons t rest ih =>
    rw [drainCalls_cons]
    split <;> simp [ih]

theorem mem_drainCalls {c : Call} {popped : List DetailedTask} (h : c ∈ drainCalls popped) :
    ∃ t ∈ popped, c = Call.getNextInternalReadyTask t ∨
      (c = Call.initiateTask t ∧ t.isSync = false) := by
  induction popped with
  | nil => simp [drainCalls] at h
  | cons t rest ih =>
    rw [drainCalls_cons] at h
    rcases List.mem_append.1 h with h1 | h1
    · refine ⟨t, List.mem_cons_self _ _, ?_⟩
      split at h1
      · left; simpa using h1
      next hs =>
        have hs2 : t.isSync = false := by simpa using hs
        simp only [List.mem_cons, List.mem_singleton, List.not_mem_nil, or_false] at h1
        rcases h1 with h1 | h1
        · left; exact h1
        · right; exact ⟨h1, hs2⟩
    · obtain ⟨u, hu, hc⟩ := ih h1
      exact ⟨u, List.mem_cons_of_mem _ hu, hc⟩

theorem mem_pendAll {t : DetailedTask} :
    ∀ (popped pending : List DetailedTask),
      t ∈ pendAll pending popped ↔ t ∈ pending ∨ (t ∈ popped ∧ t.isSync = false) := by
  intro popped
  induction popped with
  | nil => intro pending; simp [pendAll]
  | cons u rest ih =>
    intro pending
    rw [pendAll_cons, ih]
    by_cases hu : u.isSync = true
    · rw [if_pos hu]
      constructor
      · rintro (h | ⟨h1, h2⟩)
        · exact Or.inl h
        · exact Or.inr ⟨List.mem_cons_of_mem _ h1, h2⟩
      · rintro (h | ⟨h1, h2⟩)
        · exact Or.inl h
        · rcases List.mem_cons.1 h1 with rfl | h1
          · rw [hu] at h2; cases h2
          · exact Or.inr ⟨h1, h2⟩
    · rw [if_neg hu]
      have hu2 : u.isSync = false := by simpa using hu
      constructor
      · rintro (h | ⟨h1, h2⟩)
        · rcases List.mem_insert_iff.1 h with rfl | h
          · exact Or.inr ⟨List.mem_cons_self _ _, hu2⟩
          · exact Or.inl h
        · exact Or.inr ⟨List.mem_cons_of_mem _ h1, h2⟩
      · rintro (h | ⟨h1, h2⟩)
        · exact Or.inl (List.mem_insert_iff.2 (Or.inr h))
        · rcases List.mem_cons.1 h1 with rfl | h1
          · exact Or.inl (List.mem_insert_iff.2 (Or.inl rfl))
          · exact Or.inr ⟨h1, h2⟩

theorem registerAll_snoc (syncs : Int → Option DetailedTask) (l : List DetailedTask)
    (t : DetailedTask) :
    registerAll syncs (l ++ [t]) =
      if t.isSync = true then mapSet (registerAll syncs l) t.task.m_phase (some t)
      else registerAll syncs l := by
  simp [registerAll, List.foldl_append]

/-- After step 1 the task registered for a phase is the last synchronization
task of that phase that was popped, and the one registered before if there
was none. -/
theorem registerAll_apply (syncs : Int → Option DetailedTask) (popped : List DetailedTask)
    (k : Int) :
    registerAll syncs popped k =
      match (popped.filter fun t => t.isSync && decide (t.task.m_phase = k)).getLast? with
      | some S => some S
      | none => syncs k := by
  induction popped using List.reverseRecOn with
  | nil => rfl
  | append_singleton l t ih =>
    rw [registerAll_snoc, List.filter_append]
    by_cases hs : t.isSync = true
    · rw [if_pos hs]
      by_cases hk : t.task.m_phase = k
      · subst hk
        rw [mapSet_same]
        simp [List.filter_cons, hs]
      · rw [mapSet_other _ _ (fun h => hk h.symm), ih]
        simp [List.filter_cons, hs, hk]
    · rw [if_neg hs, ih]
      simp [List.filter_cons, hs]

/-! ## The life of a task -/

theorem Lifecycle.empty_log : Lifecycle [] := by
  intro pre post t h
  simp at h

theorem Lifecycle.append_quiet {log : List Call} (h : Lifecycle log) (calls : List Call)
    (hq : ∀ t, Call.runTask t ∉ calls) : Lifecycle (log ++ calls) := by
  intro pre post t hsplit hs
  rcases List.append_eq_append_iff.1 hsplit with ⟨a, _, hc⟩ | ⟨c, hl, hc⟩
  · exact absurd (hc ▸ List.mem_append_right a (List.mem_cons_self _ _)) (hq t)
  · cases c with
    | nil =>
      simp only [List.nil_append] at hc
      exact absurd (hc ▸ List.mem_cons_self _ _) (hq t)
    | cons x c =>
      simp only [List.cons_append, List.cons.injEq] at hc
      obtain ⟨hx, _⟩ := hc
      subst hx
      exact h pre c t hl hs

theorem Lifecycle.then_run {log : List Call} (h : Lifecycle log) (t : DetailedTask)
    (ht : t.isSync = false →
      ∃ a b, log = a ++ Call.getNextInternalReadyTask t :: Call.initiateTask t :: b
        ++ [Call.getNextExternalReadyTask t]) :
    Lifecycle (log ++ [Call.runTask t]) := by
  intro pre post u hsplit hs
  rcases snoc_eq_split hsplit with ⟨hpre, hx, _⟩ | ⟨post', _, hl⟩
  · cases hx
    subst hpre
    exact ht hs
  · exact h pre post' u hl hs

theorem Initiated.append {log : List Call} {t : DetailedTask} (h : Initiated log t)
    (calls : List Call) : Initiated (log ++ calls) t := by
  obtain ⟨a, b, rfl⟩ := h
  exact ⟨a, b ++ calls, by simp⟩

theorem initiated_drainCalls {t : DetailedTask} {popped : List DetailedTask} (h1 : t ∈ popped)
    (h2 : t.isSync = false) : ∀ log : List Call, Initiated (log ++ drainCalls popped) t := by
  induction popped with
  | nil => simp at h1
  | cons u rest ih =>
    intro log
    rw [drainCalls_cons]
    rcases List.mem_cons.1 h1 with rfl | h1
    · rw [if_neg (by simp [h2])]
      exact ⟨log, drainCalls rest, by simp⟩
    · have := ih h1 (log ++ (if u.isSync = true then [Call.getNextInternalReadyTask u]
        else [Call.getNextInternalReadyTask u, Call.initiateTask u]))
      simpa [List.append_assoc] using this

theorem LifeInv.at_init {σ : Type} (env : σ) : LifeInv (initLoopState env) :=
  ⟨fun t ht => by simp [initLoopState] at ht, Lifecycle.empty_log⟩

theorem drain_life {σ : Type} (E : Collab σ) (fuel : Nat) (st st1 : LoopState σ)
    (h : drainInternalReady E fuel st = Outcome.ok st1) (hI : LifeInv st) : LifeInv st1 := by
  obtain ⟨popped, _, _, rfl⟩ := drain_char E fuel st st1 h
  constructor
  · intro t ht
    dsimp only at ht ⊢
    rcases (mem_pendAll popped st.pending_tasks).1 ht with h1 | ⟨h1, h2⟩
    · exact (hI.pend_init t h1).append _
    · exact initiated_drainCalls h1 h2 st.log
  · dsimp only
    refine hI.cycle.append_quiet _ ?_
    intro t ht
    obtain ⟨u, _, hc | ⟨hc, _⟩⟩ := mem_drainCalls ht <;> cases hc

theorem ext_life {σ : Type} (E : Collab σ) (st st1 : LoopState σ)
    (h : runExternalReady E st = Outcome.ok st1) (hI : LifeInv st) : LifeInv st1 := by
  simp only [runExternalReady] at h
  split at h
  · split at h
    next hmem =>
      split at h
      · cases h
        constructor
        · intro t ht
          dsimp only at ht ⊢
          have := (hI.pend_init t (List.mem_of_mem_erase ht)).append
            [Call.getNextExternalReadyTask (E.getNextExternalReadyTask st.env).1,
              Call.runTask (E.getNextExternalReadyTask st.env).1]
          simpa [List.append_assoc] using this
        · dsimp only
          refine (hI.cycle.append_quiet [Call.getNextExternalReadyTask _] ?_).then_run _ ?_
          · intro t; simp
          · intro _
            obtain ⟨a, b, hab⟩ := hI.pend_init _ hmem
            exact ⟨a, b, by rw [hab]⟩
      · cases h
    · cases h
  · cases h; exact hI

theorem sync_life {σ : Type} (E : Collab σ) (pt : Int → Int) (st st1 : LoopState σ)
    (h : runSyncTask E pt st = Outcome.ok st1) (hI : LifeInv st) : LifeInv st1 := by
  simp only [runSyncTask] at h
  split at h
  · cases h; exact hI
  next S hreg =>
    split at h
    · simp only [Outcome.andThen] at h
      split at h
      next st2 hran =>
        split at h
        · cases h
          split at hran
          · cases hran
            exact ⟨fun t ht => (hI.pend_init t ht).append _,
              hI.cycle.append_quiet _ (by intro t; simp)⟩
          · split at hran
            next hmpi =>
              split at hran
              · cases hran
                constructor
                · intro t ht
                  have := (hI.pend_init t ht).append [Call.initiateTask S, Call.runTask S]
                  simpa [List.append_assoc] using this
                · dsimp only
                  refine (hI.cycle.append_quiet [Call.initiateTask S] (by intro t; simp)).then_run
                    S ?_
                  intro hs
                  have : S.isSync = true := (isSync_iff S).2 (Or.inr hmpi)
                  rw [this] at hs; cases hs
              · cases hran
            · cases hran
        · cases h
      · cases h
      · cases h
    · cases h; exact hI

theorem poll_life {σ : Type} (E : Collab σ) (pt : Int → Int) (ntasks : Int) (st : LoopState σ)
    (hI : LifeInv st) : LifeInv (advanceOrPoll E pt ntasks st) := by
  simp only [advanceOrPoll]
  split
  · split
    · exact ⟨hI.pend_init, hI.cycle⟩
    · split
      · exact ⟨fun t ht => (hI.pend_init t ht).append _,
          hI.cycle.append_quiet _ (by intro t; simp)⟩
      · exact ⟨fun t ht => (hI.pend_init t ht).append _,
          hI.cycle.append_quiet _ (by intro t; simp)⟩
  · exact hI

theorem abort_life {σ : Type} (E : Collab σ) (task : Option DetailedTask) (st st1 : LoopState σ)
    (h : checkAbort E task st = Outcome.ok st1) (hI : LifeInv st) : LifeInv st1 := by
  simp only [checkAbort] at h
  split at h
  · split at h
    · cases h
    · cases h; exact ⟨hI.pend_init, hI.cycle⟩
  · cases h; exact hI

theorem iteration_life {σ : Type} {E : Collab σ} {pt : Int → Int} {ntasks : Int} {fuel : Nat}
    {st st5 : LoopState σ} (h : iteration E pt ntasks fuel st = Outcome.ok st5)
    (hI : LifeInv st) : LifeInv st5 := by
  obtain ⟨st1, st2, st3, h1, h2, h3, h4⟩ := iteration_ok h
  exact abort_life E _ _ _ h4
    (poll_life E _ _ _ (sync_life E _ _ _ h3 (ext_life E _ _ h2 (drain_life E _ _ _ h1 hI))))

theorem loopAfter_life {σ : Type} {E : Collab σ} {pt : Int → Int} {ntasks : Int} {fuel : Nat} :
    ∀ (n : Nat) (st st1 : LoopState σ),
      loopAfter E pt ntasks fuel n st = Outcome.ok st1 → LifeInv st → LifeInv st1 := by
  intro n
  induction n with
  | zero => intro st st1 h hI; cases h; exact hI
  | succ n ih =>
    intro st st1 h hI
    simp only [loopAfter] at h
    split at h
    · obtain ⟨st2, h1, h2⟩ := andThen_ok h
      exact ih _ _ h2 (iteration_life h1 hI)
    · cases h; exact hI

end Uintah

namespace Uintah

/-! ## The end of a pass: phase advance, polling, abort -/

theorem checkAbort_none_ok {σ : Type} (E : Collab σ) (st st1 : LoopState σ)
    (h : checkAbort E none st = Outcome.ok st1) :
    st1 = st ∧ ¬ (st.abort = false ∧ E.timestepAborted st.env = true) := by
  simp only [checkAbort] at h
  split at h
  · cases h
  next hc => cases h; exact ⟨rfl, hc⟩

theorem drain_frame {σ : Type} (E : Collab σ) (fuel : Nat) (st st1 : LoopState σ)
    (h : drainInternalReady E fuel st = Outcome.ok st1) :
    st1.numTasksDone = st.numTasksDone ∧ st1.phaseTasksDone = st.phaseTasksDone ∧
      st1.currphase = st.currphase ∧ st1.abort = st.abort ∧
      st1.abort_point = st.abort_point ∧ ranTasks st1.log = ranTasks st.log := by
  obtain ⟨popped, _, _, rfl⟩ := drain_char E fuel st st1 h
  simp [ranTasks_drainCalls]

theorem ext_frame {σ : Type} (E : Collab σ) (st st1 : LoopState σ)
    (h : runExternalReady E st = Outcome.ok st1) :
    st1.currphase = st.currphase ∧ st1.abort = st.abort ∧
      st1.abort_point = st.abort_point := by
  simp only [runExternalReady] at h
  split at h
  · split at h
    · split at h
      · cases h; exact ⟨rfl, rfl, rfl⟩
      · cases h
    · cases h
  · cases h; exact ⟨rfl, rfl, rfl⟩

theorem sync_frame {σ : Type} (E : Collab σ) (pt : Int → Int) (st st1 : LoopState σ)
    (h : runSyncTask E pt st = Outcome.ok st1) :
    st1.currphase = st.currphase ∧ st1.abort = st.abort ∧
      st1.abort_point = st.abort_point := by
  simp only [runSyncTask] at h
  split at h
  · cases h; exact ⟨rfl, rfl, rfl⟩
  · split at h
    · simp only [Outcome.andThen] at h
      split at h
      next st2 hran =>
        split at h
        · cases h
          split at hran
          · cases hran; exact ⟨rfl, rfl, rfl⟩
          · split at hran
            · split at hran
              · cases hran; exact ⟨rfl, rfl, rfl⟩
              · cases hran
            · cases hran
        · cases h
      · cases h
      · cases h
    · cases h; exact ⟨rfl, rfl, rfl⟩

theorem poll_frame {σ : Type} (E : Collab σ) (pt : Int → Int) (ntasks : Int)
    (st : LoopState σ) :
    (advanceOrPoll E pt ntasks st).abort = st.abort ∧
      (advanceOrPoll E pt ntasks st).abort_point = st.abort_point := by
  simp only [advanceOrPoll]
  split
  · split
    · exact ⟨rfl, rfl⟩
    · split <;> exact ⟨rfl, rfl⟩
  · exact ⟨rfl, rfl⟩

theorem loopAfter_fault {σ : Type} {E : Collab σ} {pt : Int → Int} {ntasks : Int} {fuel : Nat}
    {st r : LoopState σ} {f : Fault} (hlt : st.numTasksDone < ntasks)
    (h : iteration E pt ntasks fuel st = Outcome.fault f r) (n : Nat) :
    loopAfter E pt ntasks fuel (n + 1) st = Outcome.fault f r := by
  simp only [loopAfter, if_pos hlt, h, Outcome.andThen]

/-- C20: at the end of a pass with tasks remaining and the current phase
incomplete, `execute` makes exactly one call of `processMPIRecvs`; its mode
is `TEST` if and only if External-Ready or Internal-Ready is non-empty or a
synchronization task is registered for the current phase with
`phaseTasksDone[currphase] == phaseTasks[currphase] - 1`, and `WAIT_ONCE`
otherwise; so a `WAIT_ONCE` is only issued when both ready queues are
empty. -/
theorem advanceOrPoll_poll_mode {σ : Type} (E : Collab σ) (pt : Int → Int) (ntasks : Int)
    (st : LoopState σ) (hrem : st.numTasksDone < ntasks)
    (hinc : pt st.currphase ≠ st.phaseTasksDone st.currphase) :
    ∃ mode : RecvMode,
      advanceOrPoll E pt ntasks st =
        { st with
          env := E.processMPIRecvs mode st.env
          log := st.log ++ [Call.processMPIRecvs mode] } ∧
      (mode = RecvMode.TEST ↔
        (0 < E.numExternalReadyTasks st.env ∨ 0 < E.numInternalReadyTasks st.env ∨
          ((st.phaseSyncTask st.currphase).isSome = true ∧
            st.phaseTasksDone st.currphase = pt st.currphase - 1))) ∧
      (mode ≠ RecvMode.TEST → mode = RecvMode.WAIT_ONCE) ∧
      (mode = RecvMode.WAIT_ONCE →
        E.numExternalReadyTasks st.env = 0 ∧ E.numInternalReadyTasks st.env = 0) := by
  simp only [advanceOrPoll, if_pos hrem, if_neg hinc, syncTrigger, Bool.and_eq_true,
    decide_eq_true_eq]
  split
  next hc =>
    exact ⟨RecvMode.TEST, rfl, ⟨fun _ => hc, fun _ => rfl⟩, fun h => absurd rfl h,
      fun h => (nomatch h)⟩
  next hc =>
    refine ⟨RecvMode.WAIT_ONCE, rfl, ⟨fun h => (nomatch h), fun h => absurd h hc⟩,
      fun _ => rfl, fun _ => ?_⟩
    simp only [not_or] at hc
    omega

/-- Witness of C20: when the loop is entered on `graphEarly` with nothing
popped yet, Internal-Ready is non-empty and the poll is a `TEST`. -/
theorem advanceOrPoll_poll_mode_witness :
    ∃ mode : RecvMode,
      advanceOrPoll (quietWorld graphEarly).collab
          (phaseTasksOf (quietWorld graphEarly).localTasks) 3
          (initLoopState (Tracker.init (quietWorld graphEarly))) =
        { initLoopState (Tracker.init (quietWorld graphEarly)) with
          env := (quietWorld graphEarly).collab.processMPIRecvs mode
            (Tracker.init (quietWorld graphEarly))
          log := [] ++ [Call.processMPIRecvs mode] } ∧
      mode = RecvMode.TEST := by
  obtain ⟨mode, h1, h2, _, _⟩ :=
    advanceOrPoll_poll_mode (quietWorld graphEarly).collab
      (phaseTasksOf (quietWorld graphEarly).localTasks) 3
      (initLoopState (Tracker.init (quietWorld graphEarly))) (by decide) (by decide)
  exact ⟨mode, h1, h2.2 (Or.inr (Or.inl (by decide)))⟩

/-- C19 as stated fails.  On `graphEarly` the first pass of the main loop
runs the task 3 and then calls `processMPIRecvs(WAIT_ONCE)`; on `graphLater`
the first pass runs the task 1 and then advances `currphase` from 0 to 1. -/
theorem advance_or_poll_counterexample :
    (quietWorld graphEarly).loopAfter 5 1 = Outcome.ok afterEarly1 ∧
    ranTasks afterEarly1.log = [normalTask 3 1] ∧
    afterEarly1.log.getLast? = some (Call.processMPIRecvs RecvMode.WAIT_ONCE) ∧
    (quietWorld graphLater).loopAfter 5 1 = Outcome.ok afterLater1 ∧
    ranTasks afterLater1.log = [normalTask 1 0] ∧
    (initLoopState (Tracker.init (quietWorld graphLater))).currphase = 0 ∧
    afterLater1.currphase = 1 :=
  ⟨rfl, by decide, by decide, rfl, by decide, rfl, rfl⟩

/-- C19, amended: phase advance and polling do not depend on whether a task
completed in the pass.  In every pass that gets through, with `st3` the
state after steps 1 to 3 (Internal-Ready drained, an External-Ready task
run, the synchronization task run): if `numTasksDone < ntasks` then either
`phaseTasks[currphase] == phaseTasksDone[currphase]` and `currphase` is
advanced by one, or `processMPIRecvs` is called once; if
`numTasksDone == ntasks` neither happens. -/
theorem pass_ends_with_advance_or_poll {σ : Type} (E : Collab σ) (pt : Int → Int)
    (ntasks : Int) (fuel : Nat) (st st5 : LoopState σ)
    (h : iteration E pt ntasks fuel st = Outcome.ok st5) :
    ∃ st1 st2 st3, drainInternalReady E fuel st = Outcome.ok st1 ∧
      runExternalReady E st1 = Outcome.ok st2 ∧ runSyncTask E pt st2 = Outcome.ok st3 ∧
      st3.currphase = st.currphase ∧
      (st3.numTasksDone < ntasks → pt st3.currphase = st3.phaseTasksDone st3.currphase →
        st5 = { st3 with currphase := st3.currphase + 1 }) ∧
      (st3.numTasksDone < ntasks → pt st3.currphase ≠ st3.phaseTasksDone st3.currphase →
        ∃ mode, st5 =
          { st3 with
            env := E.processMPIRecvs mode st3.env
            log := st3.log ++ [Call.processMPIRecvs mode] }) ∧
      (¬ st3.numTasksDone < ntasks → st5 = st3) := by
  obtain ⟨st1, st2, st3, h1, h2, h3, h4⟩ := iteration_ok h
  obtain ⟨h5, _⟩ := checkAbort_none_ok E _ _ h4
  refine ⟨st1, st2, st3, h1, h2, h3, ?_, ?_, ?_, ?_⟩
  · rw [(sync_frame E _ _ _ h3).1, (ext_frame E _ _ h2).1, (drain_frame E _ _ _ h1).2.2.1]
  · intro hlt heq
    rw [h5]
    simp only [advanceOrPoll, if_pos hlt, if_pos heq]
  · intro hlt hne
    rw [h5]
    simp only [advanceOrPoll, if_pos hlt, if_neg hne]
    split
    · exact ⟨RecvMode.TEST, rfl⟩
    · exact ⟨RecvMode.WAIT_ONCE, rfl⟩
  · intro hge
    rw [h5]
    simp only [advanceOrPoll, if_neg hge]

/-- Witness of C19, amended: the first pass of the main loop on
`graphLater`. -/
theorem pass_ends_with_advance_or_poll_witness :
    iteration (quietWorld graphLater).collab (phaseTasksOf (quietWorld graphLater).localTasks)
        2 5 (initLoopState (Tracker.init (quietWorld graphLater))) = Outcome.ok afterLater1 ∧
    ∃ st3 : LoopState Tracker, ranTasks st3.log = [normalTask 1 0] ∧ st3.currphase = 0 ∧
      afterLater1 = { st3 with currphase := st3.currphase + 1 } := by
  refine ⟨rfl, ?_⟩
  obtain ⟨st1, st2, st3, h1, h2, h3, h4, h5, _, _⟩ :=
    pass_ends_with_advance_or_poll (quietWorld graphLater).collab
      (phaseTasksOf (quietWorld graphLater).localTasks) 2 5
      (initLoopState (Tracker.init (quietWorld graphLater))) afterLater1 rfl
  have e1 : st1 = ((drainInternalReady (quietWorld graphLater).collab 5
      (initLoopState (Tracker.init (quietWorld graphLater)))).state?).getD
        (initLoopState (Tracker.init (quietWorld graphLater))) := by rw [h1]; rfl
  have e2 : st2 = ((runExternalReady (quietWorld graphLater).collab st1).state?).getD st1 := by
    rw [h2]; rfl
  have e3 : st3 = ((runSyncTask (quietWorld graphLater).collab
      (phaseTasksOf (quietWorld graphLater).localTasks) st2).state?).getD st2 := by
    rw [h3]; rfl
  subst e1
  subst e2
  subst e3
  exact ⟨_, by decide, h4, h5 (by decide) (by decide)⟩

/-! ## Failures -/

theorem iteration_abort_frame {σ : Type} {E : Collab σ} {pt : Int → Int} {ntasks : Int}
    {fuel : Nat} {st st5 : LoopState σ} (h : iteration E pt ntasks fuel st = Outcome.ok st5) :
    st5.abort = st.abort ∧ st5.abort_point = st.abort_point ∧
      ¬ (st.abort = false ∧ E.timestepAborted st5.env = true) := by
  obtain ⟨st1, st2, st3, h1, h2, h3, h4⟩ := iteration_ok h
  obtain ⟨h5, h6⟩ := checkAbort_none_ok E _ _ h4
  have d := drain_frame E _ _ _ h1
  have e := ext_frame E _ _ h2
  have y := sync_frame E _ _ _ h3
  have p := poll_frame E pt ntasks st3
  have ha : st5.abort = st.abort := by rw [h5, p.1, y.2.1, e.2.1, d.2.2.2.1]
  refine ⟨ha, ?_, ?_⟩
  · rw [h5, p.2, y.2.2, e.2.2, d.2.2.2.2.1]
  · rw [← ha, h5]
    exact h6

theorem loopAfter_abort_frame {σ : Type} {E : Collab σ} {pt : Int → Int} {ntasks : Int}
    {fuel : Nat} :
    ∀ (n : Nat) (st st1 : LoopState σ), loopAfter E pt ntasks fuel n st = Outcome.ok st1 →
      st1.abort = st.abort ∧ st1.abort_point = st.abort_point := by
  intro n
  induction n with
  | zero => intro st st1 h; cases h; exact ⟨rfl, rfl⟩
  | succ n ih =>
    intro st st1 h
    simp only [loopAfter] at h
    split at h
    · obtain ⟨st2, h1, h2⟩ := andThen_ok h
      have a := iteration_abort_frame h1
      have b := ih _ _ h2
      exact ⟨b.1.trans a.1, b.2.trans a.2.1⟩
    · cases h; exact ⟨rfl, rfl⟩

/-- C16: when the task popped from External-Ready (after Internal-Ready was
drained) has a non-zero external dependency count, the pass fails: with the
assertion of line 291 when the task is in the pending set, and at line 290
(`erase(end())`) when it is not.  Either way nothing was executed and
neither `numTasksDone` nor a `phaseTasksDone` count was incremented: the
only call made after step 1 is the pop.  The failure ends the main loop. -/
theorem externalReady_nonzero_count_fails {σ : Type} (E : Collab σ) (pt : Int → Int)
    (ntasks : Int) (fuel : Nat) (st st1 : LoopState σ)
    (h1 : drainInternalReady E fuel st = Outcome.ok st1)
    (hne : 0 < E.numExternalReadyTasks st1.env)
    (hcount : E.getExternalDepCount (E.getNextExternalReadyTask st1.env).1
      (E.getNextExternalReadyTask st1.env).2 ≠ 0) :
    ∃ f r, iteration E pt ntasks fuel st = Outcome.fault f r ∧
      (f = if (E.getNextExternalReadyTask st1.env).1 ∈ st1.pending_tasks then
          Fault.assertExternalDepCount else Fault.eraseEnd) ∧
      r.numTasksDone = st.numTasksDone ∧ r.phaseTasksDone = st.phaseTasksDone ∧
      r.log = st1.log ++ [Call.getNextExternalReadyTask (E.getNextExternalReadyTask st1.env).1] ∧
      ranTasks r.log = ranTasks st.log ∧
      ∀ n, st.numTasksDone < ntasks → loopAfter E pt ntasks fuel (n + 1) st = Outcome.fault f r := by
  have d := drain_frame E _ _ _ h1
  by_cases hmem : (E.getNextExternalReadyTask st1.env).1 ∈ st1.pending_tasks
  · have hit : iteration E pt ntasks fuel st = Outcome.fault Fault.assertExternalDepCount
        { st1 with
          env := (E.getNextExternalReadyTask st1.env).2
          log := st1.log ++ [Call.getNextExternalReadyTask (E.getNextExternalReadyTask st1.env).1]
          pending_tasks := st1.pending_tasks.erase (E.getNextExternalReadyTask st1.env).1 } := by
      simp only [iteration, h1, Outcome.andThen, runExternalReady, if_pos hne, if_pos hmem,
        if_neg hcount]
    refine ⟨_, _, hit, by rw [if_pos hmem], d.1, d.2.1, rfl, ?_, fun n hlt => loopAfter_fault hlt hit n⟩
    simp [d.2.2.2.2.2]
  · have hit : iteration E pt ntasks fuel st = Outcome.fault Fault.eraseEnd
        { st1 with
          env := (E.getNextExternalReadyTask st1.env).2
          log := st1.log ++ [Call.getNextExternalReadyTask (E.getNextExternalReadyTask st1.env).1] } := by
      simp only [iteration, h1, Outcome.andThen, runExternalReady, if_pos hne, if_neg hmem]
    refine ⟨_, _, hit, by rw [if_neg hmem], d.1, d.2.1, rfl, ?_, fun n hlt => loopAfter_fault hlt hit n⟩
    simp [d.2.2.2.2.2]

/-- Witness of C16: on `graphEarly`, with the pending task 1 in External-Ready
before its message has arrived, the pass fails with the assertion of line
291. -/
theorem externalReady_nonzero_count_fails_witness :
    (quietWorld graphEarly).collab.getExternalDepCount (normalTask 1 0) earlyUnreceived.env = 1 ∧
    ∃ f r, iteration (quietWorld graphEarly).collab
        (phaseTasksOf (quietWorld graphEarly).localTasks) 3 5 earlyUnreceived
        = Outcome.fault f r ∧
      f = Fault.assertExternalDepCount ∧ r.numTasksDone = 0 ∧ ranTasks r.log = [] := by
  refine ⟨by decide, ?_⟩
  obtain ⟨f, r, h1, h2, h3, _, _, h6, _⟩ :=
    externalReady_nonzero_count_fails (quietWorld graphEarly).collab
      (phaseTasksOf (quietWorld graphEarly).localTasks) 3 5 earlyUnreceived earlyUnreceived
      rfl (by decide) (by decide)
  exact ⟨f, r, h1, h2.trans (if_pos (by decide)), h3, h6⟩

/-- C13 fails in the code.  On `graphEarly`, when the newest data warehouse
reports the timestep aborted as soon as one task was executed, the first
pass of the main loop runs the task 3, observes the flag at line 349 and
fails at line 352, where `task` is the null pointer: one of three local
tasks is done, and however many passes are allowed the loop does not get
any further. -/
theorem abort_mid_execute_faults :
    ∀ n : Nat,
      (abortingWorld graphEarly).mainLoop 5 (n + 1) = Outcome.fault Fault.nullTask abortedEarly ∧
      abortedEarly.numTasksDone = 1 ∧ ((abortingWorld graphEarly).localTasks.length : Int) = 3 ∧
      ranTasks abortedEarly.log = [normalTask 3 1] ∧ abortedEarly.abort = true := by
  intro n
  have hit : iteration (abortingWorld graphEarly).collab
      (phaseTasksOf (abortingWorld graphEarly).localTasks)
      ((abortingWorld graphEarly).localTasks.length : Int) 5
      (initLoopState (Tracker.init (abortingWorld graphEarly)))
      = Outcome.fault Fault.nullTask abortedEarly := rfl
  refine ⟨?_, rfl, rfl, by decide, rfl⟩
  simp only [World.mainLoop, mainLoop]
  rw [loopAfter_fault (by decide) hit n]
  rfl

/-- C18 fails in the code: the assignment of `abort_point` at line 352 reads
the variable `task` of line 254, which is the null pointer.  In a run of
the main loop that gets through, `abort` is still false and `abort_point` is
still 987654; and a pass in which the abort flag of the newest data
warehouse is observed (steps 1 to 3 having got through) sets `abort` and
fails at line 352 without assigning `abort_point`. -/
theorem abort_point_never_recorded {σ : Type} (E : Collab σ) (pt : Int → Int) (ntasks : Int)
    (fuel : Nat) :
    (∀ (n : Nat) (env : σ) (st : LoopState σ),
      loopAfter E pt ntasks fuel n (initLoopState env) = Outcome.ok st →
        st.abort = false ∧ st.abort_point = 987654) ∧
    (∀ st st1 st2 st3 : LoopState σ, drainInternalReady E fuel st = Outcome.ok st1 →
      runExternalReady E st1 = Outcome.ok st2 → runSyncTask E pt st2 = Outcome.ok st3 →
      st.abort = false → E.timestepAborted (advanceOrPoll E pt ntasks st3).env = true →
      iteration E pt ntasks fuel st =
          Outcome.fault Fault.nullTask { advanceOrPoll E pt ntasks st3 with abort := true } ∧
        (advanceOrPoll E pt ntasks st3).abort_point = st.abort_point) := by
  constructor
  · intro n env st h
    exact loopAfter_abort_frame n _ _ h
  · intro st st1 st2 st3 h1 h2 h3 ha hobs
    have d := drain_frame E _ _ _ h1
    have e := ext_frame E _ _ h2
    have y := sync_frame E _ _ _ h3
    have p := poll_frame E pt ntasks st3
    have ha3 : (advanceOrPoll E pt ntasks st3).abort = false := by
      rw [p.1, y.2.1, e.2.1, d.2.2.2.1, ha]
    refine ⟨?_, by rw [p.2, y.2.2, e.2.2, d.2.2.2.2.1]⟩
    simp only [iteration, h1, h2, h3, Outcome.andThen, checkAbort]
    rw [if_pos ⟨ha3, hobs⟩]

/-- The failure of C18 on a concrete run: on `graphLater`, when the newest
data warehouse reports the timestep aborted as soon as one task was
executed, the first pass runs the task 1 and fails at line 352 with `abort`
set and `abort_point` still 987654, not the sorted order 1 of the task. -/
theorem abort_point_never_recorded_witness :
    iteration (abortingWorld graphLater).collab
        (phaseTasksOf (abortingWorld graphLater).localTasks) 2 5
        (initLoopState (Tracker.init (abortingWorld graphLater)))
      = Outcome.fault Fault.nullTask abortedLater ∧
    ranTasks abortedLater.log = [normalTask 1 0] ∧ (normalTask 1 0).task.sortedOrder = 1 ∧
    abortedLater.abort = true ∧ abortedLater.abort_point = 987654 := by
  have h := (abort_point_never_recorded (abortingWorld graphLater).collab
    (phaseTasksOf (abortingWorld graphLater).localTasks) 2 5).2
    (initLoopState (Tracker.init (abortingWorld graphLater)))
    (((drainInternalReady (abortingWorld graphLater).collab 5
      (initLoopState (Tracker.init (abortingWorld graphLater)))).state?).getD
        (initLoopState (Tracker.init (abortingWorld graphLater))))
    (((runExternalReady (abortingWorld graphLater).collab
      (((drainInternalReady (abortingWorld graphLater).collab 5
        (initLoopState (Tracker.init (abortingWorld graphLater)))).state?).getD
          (initLoopState (Tracker.init (abortingWorld graphLater))))).state?).getD
        (initLoopState (Tracker.init (abortingWorld graphLater))))
    (((runExternalReady (abortingWorld graphLater).collab
      (((drainInternalReady (abortingWorld graphLater).collab 5
        (initLoopState (Tracker.init (abortingWorld graphLater)))).state?).getD
          (initLoopState (Tracker.init (abortingWorld graphLater))))).state?).getD
        (initLoopState (Tracker.init (abortingWorld graphLater))))
    rfl rfl rfl rfl (by decide)
  exact ⟨h.1, by decide, rfl, rfl, rfl⟩

/-- C15 as stated fails.  On `graphTwoSync` the first pass of the main loop
pops the reduction task 1 of phase 0 and then the reduction task 2 of phase
0 from Internal-Ready; the pass gets through, and the task registered for
phase 0 is then the task 2: the registration of the task 1 was replaced. -/
theorem sync_registration_counterexample :
    (quietWorld graphTwoSync).loopAfter 5 1 = Outcome.ok afterTwoSync ∧
    internalPops afterTwoSync.log = [reductionTask 1 0, reductionTask 2 0] ∧
    registerAll (fun _ => none) [reductionTask 1 0] 0 = some (reductionTask 1 0) ∧
    afterTwoSync.phaseSyncTask 0 = some (reductionTask 2 0) :=
  ⟨rfl, by decide, rfl, rfl⟩

/-- C15, amended: popping a second Reduction or uses-MPI task of a phase
raises no error, it replaces the registration.  The loop of lines 257-272
never fails; when it gets through, the task registered for a phase is the
last synchronization task of that phase popped from Internal-Ready in this
pass, and the task registered before if no such task was popped. -/
theorem sync_registration_replaced {σ : Type} (E : Collab σ) (fuel : Nat) (st : LoopState σ) :
    (∀ f x, drainInternalReady E fuel st ≠ Outcome.fault f x) ∧
    ∀ st1, drainInternalReady E fuel st = Outcome.ok st1 →
      ∃ popped, PoppedFrom E st.abort st.abort_point popped st.env ∧
        internalPops st1.log = internalPops st.log ++ popped ∧
        ∀ k, st1.phaseSyncTask k =
          match (popped.filter fun t => t.isSync && decide (t.task.m_phase = k)).getLast? with
          | some S => some S
          | none => st.phaseSyncTask k := by
  refine ⟨drain_no_fault E fuel st, ?_⟩
  intro st1 h
  obtain ⟨popped, hp, _, rfl⟩ := drain_char E fuel st st1 h
  refine ⟨popped, hp, ?_, ?_⟩
  · simp [internalPops_drainCalls]
  · intro k
    exact registerAll_apply st.phaseSyncTask popped k

/-- Witness of C15, amended: step 1 of the first pass on `graphTwoSync`. -/
theorem sync_registration_replaced_witness :
    ∃ st1 popped, drainInternalReady (quietWorld graphTwoSync).collab 5
        (initLoopState (Tracker.init (quietWorld graphTwoSync))) = Outcome.ok st1 ∧
      internalPops st1.log = [] ++ popped ∧
      popped = [reductionTask 1 0, reductionTask 2 0] ∧
      st1.phaseSyncTask 0 = some (reductionTask 2 0) := by
  obtain ⟨popped, _, h2, _⟩ :=
    (sync_registration_replaced (quietWorld graphTwoSync).collab 5
      (initLoopState (Tracker.init (quietWorld graphTwoSync)))).2
      (((drainInternalReady (quietWorld graphTwoSync).collab 5
        (initLoopState (Tracker.init (quietWorld graphTwoSync)))).state?).getD
          (initLoopState (Tracker.init (quietWorld graphTwoSync)))) rfl
  refine ⟨_, popped, rfl, h2, ?_, rfl⟩
  have h3 : internalPops ((((drainInternalReady (quietWorld graphTwoSync).collab 5
      (initLoopState (Tracker.init (quietWorld graphTwoSync)))).state?).getD
        (initLoopState (Tracker.init (quietWorld graphTwoSync)))).log)
      = [reductionTask 1 0, reductionTask 2 0] := by decide
  rw [h3] at h2
  simpa using h2.symm

end Uintah

namespace Uintah

/-! ## Step 1, the life of a task, restart and sub-schedulers: the claims -/

theorem drainEnv_cons {σ : Type} (E : Collab σ) (abort : Bool) (abort_point : Int)
    (t : DetailedTask) (rest : List DetailedTask) (env : σ) :
    drainEnv E abort abort_point (t :: rest) env =
      drainEnv E abort abort_point rest (drainEnv E abort abort_point [t] env) := by
  simp only [drainEnv]
  split <;> rfl

theorem PoppedFrom.queue_empty {σ : Type} (E : Collab σ) (abort : Bool) (abort_point : Int) :
    ∀ (popped : List DetailedTask) (env : σ), PoppedFrom E abort abort_point popped env →
      E.numInternalReadyTasks (drainEnv E abort abort_point popped env) = 0 := by
  intro popped
  induction popped with
  | nil => intro env h; exact h
  | cons t rest ih =>
    intro env h
    rw [drainEnv_cons]
    exact ih _ h.2.2

theorem registerAll_mem (syncs : Int → Option DetailedTask) (popped : List DetailedTask)
    (t : DetailedTask) (ht : t ∈ popped) (hs : t.isSync = true) :
    ∃ S ∈ popped, S.isSync = true ∧ S.task.m_phase = t.task.m_phase ∧
      registerAll syncs popped t.task.m_phase = some S := by
  rw [registerAll_apply]
  have hmem : t ∈ popped.filter fun u => u.isSync && decide (u.task.m_phase = t.task.m_phase) := by
    simp [List.mem_filter, ht, hs]
  cases hl : (popped.filter fun u =>
      u.isSync && decide (u.task.m_phase = t.task.m_phase)).getLast? with
  | none =>
    rw [List.getLast?_eq_none_iff] at hl
    rw [hl] at hmem
    cases hmem
  | some S =>
    have hS := List.mem_of_getLast?_eq_some hl
    simp only [List.mem_filter, Bool.and_eq_true, decide_eq_true_eq] at hS
    exact ⟨S, hS.1, hS.2.1, hS.2.2, rfl⟩

/-- C17: step 1 of a pass empties Internal-Ready.  When Internal-Ready hands
out the tasks `popped` and is empty then, the loop of lines 257-272 gets
through (given `fuel` for that many passes) with Internal-Ready empty; the
registrations are those made by registering every popped synchronization
task under its own phase, in the order popped; a popped synchronization
task is not initiated, nothing is executed, and no synchronization task
enters the pending set; every other popped task is initiated right after
its pop (`initiateTask`, `markInitiated`, `checkExternalDepCount`, as
`drainEnv` replays them) and is in the pending set. -/
theorem step1_drains_internalReady {σ : Type} (E : Collab σ) (popped : List DetailedTask)
    (fuel : Nat) (st : LoopState σ)
    (hp : PoppedFrom E st.abort st.abort_point popped st.env) (hf : popped.length ≤ fuel) :
    ∃ st1, drainInternalReady E fuel st = Outcome.ok st1 ∧
      E.numInternalReadyTasks st1.env = 0 ∧
      st1.env = drainEnv E st.abort st.abort_point popped st.env ∧
      st1.log = st.log ++ drainCalls popped ∧
      internalPops st1.log = internalPops st.log ++ popped ∧
      ranTasks st1.log = ranTasks st.log ∧
      st1.numTasksDone = st.numTasksDone ∧
      st1.phaseSyncTask = registerAll st.phaseSyncTask popped ∧
      (∀ t ∈ popped, t.isSync = true →
        (∃ S ∈ popped, S.isSync = true ∧ S.task.m_phase = t.task.m_phase ∧
          st1.phaseSyncTask t.task.m_phase = some S) ∧
        Call.initiateTask t ∉ drainCalls popped ∧
        (t ∈ st1.pending_tasks → t ∈ st.pending_tasks)) ∧
      (∀ t ∈ popped, t.isSync = false → Initiated st1.log t ∧ t ∈ st1.pending_tasks) := by
  refine ⟨_, drain_spec E popped fuel st hp hf, ?_, rfl, rfl, ?_, ?_, rfl, rfl, ?_, ?_⟩
  · exact PoppedFrom.queue_empty E _ _ popped st.env hp
  · simp [internalPops_drainCalls]
  · simp [ranTasks_drainCalls]
  · intro t ht hs
    refine ⟨registerAll_mem st.phaseSyncTask popped t ht hs, ?_, ?_⟩
    · intro hc
      obtain ⟨u, _, h1 | ⟨h1, h2⟩⟩ := mem_drainCalls hc
      · cases h1
      · cases h1
        rw [hs] at h2
        cases h2
    · intro hpend
      rcases (mem_pendAll popped st.pending_tasks).1 hpend with h1 | ⟨_, h2⟩
      · exact h1
      · rw [hs] at h2
        cases h2
  · intro t ht hs
    exact ⟨initiated_drainCalls ht hs st.log,
      (mem_pendAll popped st.pending_tasks).2 (Or.inr ⟨ht, hs⟩)⟩

/-- Witness of C17: step 1 of the first pass on `graphBoth` pops the normal
task 1 and the reduction task 2; the task 1 is marked initiated and pending,
the task 2 is registered for phase 0. -/
theorem step1_drains_internalReady_witness :
    ∃ st1, drainInternalReady (quietWorld graphBoth).collab 5
        (initLoopState (Tracker.init (quietWorld graphBoth))) = Outcome.ok st1 ∧
      (quietWorld graphBoth).collab.numInternalReadyTasks st1.env = 0 ∧
      st1.env.initiated = [1] ∧
      st1.phaseSyncTask 0 = some (reductionTask 2 0) ∧
      st1.pending_tasks = [normalTask 1 0] := by
  obtain ⟨st1, h1, h2, h3, _, _, _, _, h8, _, _⟩ :=
    step1_drains_internalReady (quietWorld graphBoth).collab [normalTask 1 0, reductionTask 2 0]
      5 (initLoopState (Tracker.init (quietWorld graphBoth)))
      (by decide) (by decide)
  have e : st1 = ((drainInternalReady (quietWorld graphBoth).collab 5
      (initLoopState (Tracker.init (quietWorld graphBoth)))).state?).getD
        (initLoopState (Tracker.init (quietWorld graphBoth))) := by rw [h1]; rfl
  refine ⟨st1, h1, h2, ?_, ?_, ?_⟩
  · rw [h3]; decide
  · rw [h8]; rfl
  · rw [e]; decide

/-- C11: as long as the ready queues deliver each local task at most once and
each phase has at most one synchronization task, the tasks go one way
through an `execute` call.  Whenever a task that is not a synchronization
task was handed to `runTask`, it had been popped from Internal-Ready and
initiated, and was popped from External-Ready just before; no task has been
executed twice, every executed task was popped from Internal-Ready, and a
pending task was popped and initiated and has not been executed.  And in
the next pass the task popped from External-Ready and run is in the pending
set when it is popped, is not in it afterwards, and had not been executed
before. -/
theorem task_lifecycle {σ : Type} (E : Collab σ) (L : List DetailedTask)
    (fuel n : Nat) (env : σ) (st : LoopState σ)
    (hrun : loopAfter E (phaseTasksOf L) (L.length : Int) fuel n (initLoopState env)
      = Outcome.ok st)
    (hq : DeliversOnce L st.log) (hs : OneSyncPerPhase L) :
    Lifecycle st.log ∧ (ranTasks st.log).Nodup ∧
    (∀ t ∈ ranTasks st.log, t ∈ internalPops st.log) ∧
    (∀ t ∈ st.pending_tasks, Initiated st.log t ∧ t ∉ ranTasks st.log) ∧
    ∀ st1 st2, drainInternalReady E fuel st = Outcome.ok st1 →
      0 < E.numExternalReadyTasks st1.env → runExternalReady E st1 = Outcome.ok st2 →
      DeliversOnce L st2.log →
      (E.getNextExternalReadyTask st1.env).1 ∈ st1.pending_tasks ∧
      Initiated st1.log (E.getNextExternalReadyTask st1.env).1 ∧
      (E.getNextExternalReadyTask st1.env).1 ∉ ranTasks st1.log ∧
      ranTasks st2.log = ranTasks st1.log ++ [(E.getNextExternalReadyTask st1.env).1] ∧
      (E.getNextExternalReadyTask st1.env).1 ∉ st2.pending_tasks := by
  have hI := executeLoop_inv hrun hq hs
  have hL := loopAfter_life n _ _ hrun (LifeInv.at_init env)
  refine ⟨hL.cycle, hI.ran_nodup, hI.ran_popped,
    fun t ht => ⟨hL.pend_init t ht, (hI.pend t ht).2.2⟩, ?_⟩
  intro st1 st2 h1 hne h2 hq2
  have hq1 := hq2.of_prefix (runExternalReady_log E _ _ h2)
  have hI1 := drainInternalReady_inv E hs _ _ _ h1 hq1 hI
  have hL1 := drain_life E _ _ _ h1 hL
  simp only [runExternalReady, if_pos hne] at h2
  split at h2
  next hmem =>
    split at h2
    · cases h2
      refine ⟨hmem, hL1.pend_init _ hmem, (hI1.pend _ hmem).2.2, ?_, ?_⟩
      · simp
      · exact fun h => (List.Nodup.mem_erase_iff hI1.pend_nodup).1 h |>.1 rfl
    · cases h2
  · cases h2

/-- Witness of C11: the run of the main loop on `graphBoth`. -/
theorem task_lifecycle_witness :
    (quietWorld graphBoth).loopAfter 5 1 = Outcome.ok afterBoth ∧
    Call.runTask (normalTask 1 0) ∈ afterBoth.log ∧
    Lifecycle afterBoth.log ∧ (ranTasks afterBoth.log).Nodup :=
  ⟨rfl, by decide,
    (task_lifecycle (quietWorld graphBoth).collab (quietWorld graphBoth).localTasks
      5 1 (Tracker.init (quietWorld graphBoth)) afterBoth rfl
      ⟨by decide, by decide⟩ (by unfold OneSyncPerPhase; decide)).1,
    (task_lifecycle (quietWorld graphBoth).collab (quietWorld graphBoth).localTasks
      5 1 (Tracker.init (quietWorld graphBoth)) afterBoth rfl
      ⟨by decide, by decide⟩ (by unfold OneSyncPerPhase; decide)).2.1⟩

end Uintah

namespace Uintah

/-! ## Restart propagation and sub-schedulers -/

theorem newestDW_restartNewest :
    ∀ m_dws : List (Option DataWarehouse),
      newestDW (restartNewest m_dws) = (newestDW m_dws).map DataWarehouse.restartTimestep
  | [] => rfl
  | [_] => rfl
  | _ :: d :: rest => by
    simp only [restartNewest, newestDW]
    have h := newestDW_restartNewest (d :: rest)
    cases hr : restartNewest (d :: rest) with
    | nil => cases rest <;> simp [restartNewest] at hr
    | cons x xs =>
      rw [hr] at h
      simpa [newestDW] using h

theorem newestDW_setRestartedOldest :
    ∀ m_dws : List (Option DataWarehouse),
      (newestDW (setRestartedOldest m_dws)).map (fun dw => dw.restart) =
        (newestDW m_dws).map fun dw => dw.restart
  | [] => rfl
  | [d] => by cases d <;> rfl
  | _ :: _ :: _ => rfl

theorem restartNewest_getElem? :
    ∀ (m_dws : List (Option DataWarehouse)) (i : Nat), i + 1 < m_dws.length →
      (restartNewest m_dws)[i]? = m_dws[i]?
  | [], _, h => by simp at h
  | [_], _, h => by simp at h
  | _ :: d :: rest, 0, _ => by simp [restartNewest]
  | _ :: d :: rest, i + 1, h => by
    simp only [restartNewest, List.getElem?_cons_succ]
    exact restartNewest_getElem? (d :: rest) i (by simpa using h)

theorem setRestartedOldest_getElem? (m_dws : List (Option DataWarehouse)) (i : Nat) :
    (setRestartedOldest m_dws)[i + 1]? = m_dws[i + 1]? := by
  cases m_dws <;> rfl

theorem restartNewest_length :
    ∀ m_dws : List (Option DataWarehouse), (restartNewest m_dws).length = m_dws.length
  | [] => rfl
  | [_] => rfl
  | _ :: d :: rest => by
    simp only [restartNewest, List.length_cons]
    rw [restartNewest_length (d :: rest)]
    rfl

/-- C12 as stated fails.  With two task graphs, after `execute` on the task
graph 0 nothing is propagated although the newest data warehouse reports a
restart; the same holds for a scheduler that is not restartable; and after
the last task graph, with three generations, the middle one is not
touched. -/
theorem restart_propagation_counterexample :
    propagateRestart true 0 2
        [[some { restart := false, hasRestarted := false },
          some { restart := true, hasRestarted := false }]]
      = Outcome.ok
        [[some { restart := false, hasRestarted := false },
          some { restart := true, hasRestarted := false }]] ∧
    propagateRestart false 0 1
        [[some { restart := false, hasRestarted := false },
          some { restart := true, hasRestarted := false }]]
      = Outcome.ok
        [[some { restart := false, hasRestarted := false },
          some { restart := true, hasRestarted := false }]] ∧
    propagateRestart true 0 1
        [[some { restart := false, hasRestarted := false },
          some { restart := false, hasRestarted := false },
          some { restart := true, hasRestarted := false }]]
      = Outcome.ok
        [[some { restart := false, hasRestarted := true },
          some { restart := false, hasRestarted := false },
          some { restart := true, hasRestarted := false }]] :=
  ⟨rfl, rfl, rfl⟩

/-- C12, amended: the restart decision is propagated only by a restartable
scheduler after the last task graph, and only to the newest and the oldest
generation.  With a newest data warehouse on every rank: if `m_restartable`
holds, `tgnum` is the index of the last task graph and the newest data
warehouse of some rank reports a restart, then on every rank the newest data
warehouse is told to restart (`restartTimestep`), `m_dws[0]`, if there is
one, is marked (`setRestarted`), and the generations in between are left as
they are; if no rank reports a restart, or the scheduler is not
restartable, or `tgnum` is not the index of the last task graph, no data
warehouse is changed. -/
theorem restart_propagated_on_last_graph (m_restartable : Bool) (tgnum : Int)
    (numTaskGraphs : Nat) (ranks : List (List (Option DataWarehouse)))
    (hall : ∀ m_dws ∈ ranks, (newestDW m_dws).isSome = true) :
    (m_restartable = true → tgnum = (numTaskGraphs : Int) - 1 →
      (∃ m_dws ∈ ranks, ∃ dw, newestDW m_dws = some dw ∧ dw.restart = true) →
      propagateRestart m_restartable tgnum numTaskGraphs ranks =
          Outcome.ok (ranks.map fun m_dws => setRestartedOldest (restartNewest m_dws)) ∧
        ∀ m_dws ∈ ranks,
          (∃ dw, newestDW (setRestartedOldest (restartNewest m_dws)) = some dw ∧
            dw.restart = true) ∧
          (∀ dw, (setRestartedOldest (restartNewest m_dws))[0]? = some (some dw) →
            dw.hasRestarted = true) ∧
          ∀ i, 0 < i → i + 1 < m_dws.length →
            (setRestartedOldest (restartNewest m_dws))[i]? = m_dws[i]?) ∧
    (m_restartable = true → tgnum = (numTaskGraphs : Int) - 1 →
      (∀ m_dws ∈ ranks, ∀ dw, newestDW m_dws = some dw → dw.restart = false) →
      propagateRestart m_restartable tgnum numTaskGraphs ranks = Outcome.ok ranks) ∧
    (¬ (m_restartable = true ∧ tgnum = (numTaskGraphs : Int) - 1) →
      propagateRestart m_restartable tgnum numTaskGraphs ranks = Outcome.ok ranks) := by
  have hall2 : (ranks.all fun m_dws => (newestDW m_dws).isSome) = true := by
    simpa [List.all_eq_true] using hall
  refine ⟨?_, ?_, ?_⟩
  · intro hr ht hex
    have hany : (ranks.any fun m_dws =>
        match newestDW m_dws with
        | some dw => dw.restart
        | none => false) = true := by
      obtain ⟨m_dws, hm, dw, hn, hd⟩ := hex
      rw [List.any_eq_true]
      exact ⟨m_dws, hm, by rw [hn]; exact hd⟩
    refine ⟨?_, ?_⟩
    · simp only [propagateRestart, if_pos (And.intro hr ht), if_pos hall2]
      exact if_pos hany
    · intro m_dws hm
      refine ⟨?_, ?_, ?_⟩
      · have h1 := newestDW_setRestartedOldest (restartNewest m_dws)
        rw [newestDW_restartNewest] at h1
        obtain ⟨dw0, hdw0⟩ := Option.isSome_iff_exists.1 (hall m_dws hm)
        rw [hdw0] at h1
        cases hn : newestDW (setRestartedOldest (restartNewest m_dws)) with
        | none => rw [hn] at h1; simp at h1
        | some dw =>
          rw [hn] at h1
          exact ⟨dw, rfl, by simpa using h1⟩
      · intro dw hdw
        cases hl : restartNewest m_dws with
        | nil => rw [hl] at hdw; simp [setRestartedOldest] at hdw
        | cons d rest =>
          rw [hl] at hdw
          simp only [setRestartedOldest, List.getElem?_cons_zero, Option.some.injEq] at hdw
          cases d with
          | none => simp at hdw
          | some d0 =>
            simp only [Option.map_some', Option.some.injEq] at hdw
            rw [← hdw]
            rfl
      · intro i hi hlt
        obtain ⟨j, rfl⟩ : ∃ j, i = j + 1 := ⟨i - 1, by omega⟩
        rw [setRestartedOldest_getElem?, restartNewest_getElem? m_dws (j + 1) hlt]
  · intro hr ht hno
    have hany : (ranks.any fun m_dws =>
        match newestDW m_dws with
        | some dw => dw.restart
        | none => false) = false := by
      rw [List.any_eq_false]
      intro m_dws hm
      cases hn : newestDW m_dws with
      | none => simp
      | some dw => simp [hno m_dws hm dw hn]
    simp only [propagateRestart, if_pos (And.intro hr ht), if_pos hall2]
    exact if_neg fun h => Bool.false_ne_true (hany.symm.trans h)
  · intro hg
    simp only [propagateRestart, if_neg hg]

/-- Witness of C12, amended: two ranks with three generations each, the
newest data warehouse of the second rank reporting a restart, after the
last of two task graphs. -/
theorem restart_propagated_on_last_graph_witness :
    propagateRestart true 1 2
        [[some { restart := false, hasRestarted := false },
          some { restart := false, hasRestarted := false },
          some { restart := false, hasRestarted := false }],
         [none,
          some { restart := false, hasRestarted := false },
          some { restart := true, hasRestarted := false }]]
      = Outcome.ok
        [[some { restart := false, hasRestarted := true },
          some { restart := false, hasRestarted := false },
          some { restart := true, hasRestarted := false }],
         [none,
          some { restart := false, hasRestarted := false },
          some { restart := true, hasRestarted := false }]] :=
  ((restart_propagated_on_last_graph true 1 2
    [[some { restart := false, hasRestarted := false },
      some { restart := false, hasRestarted := false },
      some { restart := false, hasRestarted := false }],
     [none,
      some { restart := false, hasRestarted := false },
      some { restart := true, hasRestarted := false }]]
    (by decide)).1 rfl (by decide)
    ⟨_, List.mem_cons_of_mem _ (List.mem_cons_self _ _), _, rfl, rfl⟩).1

/-- C14: `createSubScheduler` puts a new scheduler at a fresh address, which
it returns; the address differs from that of the parent; the new scheduler
has the process group of the parent, has attached as its "load balancer"
port what the parent has attached under that name, has the parent as its
parent scheduler and has the shared state of the parent; the parent and
every other scheduler there was are as before. -/
theorem createSubScheduler_shares_parent (heap : List (DynamicMPIScheduler SchedulerBase))
    (this : Nat) (parent : DynamicMPIScheduler SchedulerBase)
    (hthis : heap[this]? = some parent) :
    ∃ heap1 addr sub, createSubScheduler heap this = some (heap1, addr) ∧
      addr ≠ this ∧ heap[addr]? = none ∧ heap1[addr]? = some sub ∧
      sub.common.d_myworld = parent.common.d_myworld ∧
      sub.common.getPort "load balancer" = parent.common.getPort "load balancer" ∧
      sub.common.m_parent_scheduler = some this ∧
      sub.common.m_shared_state = parent.common.m_shared_state ∧
      heap1[this]? = some parent ∧
      ∀ i, i < heap.length → heap1[i]? = heap[i]? := by
  have hlt : this < heap.length := by
    rcases Nat.lt_or_ge this heap.length with h | h
    · exact h
    · rw [List.getElem?_eq_none h] at hthis; cases hthis
  have hc : createSubScheduler heap this =
      some (heap ++
        [{ m_task_queue_alg := QueueAlg.MostMessages
           common :=
             { d_myworld := parent.common.d_myworld
               m_out_port := parent.common.m_out_port
               m_parent_scheduler := some this
               m_shared_state := parent.common.m_shared_state
               ports := [("load balancer", parent.common.getPort "load balancer")] } }],
        heap.length) := by
    simp only [createSubScheduler, hthis]
    rfl
  refine ⟨_, _, _, hc, by omega, List.getElem?_eq_none (le_refl _),
    List.getElem?_concat_length _ _, rfl, ?_, rfl, rfl,
    ?_, ?_⟩
  · simp [SchedulerBase.getPort]
  · rw [List.getElem?_append_left hlt]; exact hthis
  · intro i hi
    exact List.getElem?_append_left hi

/-- Witness of C14: a sub-scheduler of the scheduler of `parentHeap`. -/
theorem createSubScheduler_shares_parent_witness :
    ∃ heap1 addr sub, createSubScheduler parentHeap 0 = some (heap1, addr) ∧
      addr ≠ 0 ∧ parentHeap[addr]? = none ∧ heap1[addr]? = some sub ∧
      sub.common.d_myworld = 7 ∧
      sub.common.getPort "load balancer" = some 5 ∧
      sub.common.m_parent_scheduler = some 0 ∧
      sub.common.m_shared_state = some 11 ∧
      heap1[0]? = parentHeap[0]? := by
  obtain ⟨heap1, addr, sub, h1, h2, h3, h4, h5, h6, h7, h8, h9, _⟩ :=
    createSubScheduler_shares_parent parentHeap 0
      { m_task_queue_alg := QueueAlg.Stack
        common :=
          { d_myworld := 7
            m_out_port := 3
            m_parent_scheduler := none
            m_shared_state := some 11
            ports := [("load balancer", some 5)] } } rfl
  exact ⟨heap1, addr, sub, h1, h2, h3, h4, h5, h6.trans (by decide), h7, h8, h9⟩

end Uintah

namespace Uintah

/-! ## The phase counter and the registered synchronization tasks -/

theorem andThen_fault {α : Type} {o : Outcome α} {f : α → Outcome α} {e : Fault} {r : α}
    (h : o.andThen f = Outcome.fault e r) :
    o = Outcome.fault e r ∨ ∃ a, o = Outcome.ok a ∧ f a = Outcome.fault e r := by
  cases o with
  | ok a => exact Or.inr ⟨a, rfl, h⟩
  | fault e2 a => exact Or.inl h
  | outOfFuel => cases h

theorem ext_syncs {σ : Type} (E : Collab σ) (st st1 : LoopState σ)
    (h : runExternalReady E st = Outcome.ok st1) :
    st1.phaseSyncTask = st.phaseSyncTask ∧
      (ranTasks st1.log = ranTasks st.log ∨
        ∃ t ∈ st.pending_tasks, ranTasks st1.log = ranTasks st.log ++ [t]) := by
  simp only [runExternalReady] at h
  split at h
  · split at h
    next hmem =>
      split at h
      · cases h
        exact ⟨rfl, Or.inr ⟨_, hmem, by simp⟩⟩
      · cases h
    · cases h
  · cases h; exact ⟨rfl, Or.inl rfl⟩

theorem ext_fault {σ : Type} (E : Collab σ) (st r : LoopState σ) (f : Fault)
    (h : runExternalReady E st = Outcome.fault f r) :
    f = Fault.eraseEnd ∨ f = Fault.assertExternalDepCount := by
  simp only [runExternalReady] at h
  split at h
  · split at h
    · split at h
      · cases h
      · cases h; exact Or.inr rfl
    · cases h; exact Or.inl rfl
  · cases h

theorem sync_syncs {σ : Type} (E : Collab σ) (pt : Int → Int) (st st1 : LoopState σ)
    (h : runSyncTask E pt st = Outcome.ok st1) :
    st1.phaseSyncTask = st.phaseSyncTask ∧
      (ranTasks st1.log = ranTasks st.log ∨
        ∃ S, S.task.m_phase = st.currphase ∧ ranTasks st1.log = ranTasks st.log ++ [S]) := by
  simp only [runSyncTask] at h
  split at h
  · cases h; exact ⟨rfl, Or.inl rfl⟩
  next S hreg =>
    split at h
    · simp only [Outcome.andThen] at h
      split at h
      next st2 hran =>
        split at h
        next hph =>
          cases h
          split at hran
          · cases hran
            exact ⟨rfl, Or.inr ⟨S, hph, by simp⟩⟩
          · split at hran
            · split at hran
              · cases hran
                exact ⟨rfl, Or.inr ⟨S, hph, by simp⟩⟩
              · cases hran
            · cases hran
        · cases h
      · cases h
      · cases h
    · cases h; exact ⟨rfl, Or.inl rfl⟩

theorem sync_fault {σ : Type} (E : Collab σ) (pt : Int → Int) (st r : LoopState σ) (f : Fault)
    (hreg : SyncRegistered st) (h : runSyncTask E pt st = Outcome.fault f r) :
    f = Fault.assertSyncExternalDepCount := by
  cases hS : st.phaseSyncTask st.currphase with
  | none =>
    simp only [runSyncTask, hS] at h
    cases h
  | some S =>
    obtain ⟨hsync, hph⟩ := hreg _ _ hS
    by_cases htrig : st.phaseTasksDone st.currphase = pt st.currphase - 1
    · by_cases hred : S.task.type = TaskType.Reduction
      · simp only [runSyncTask, hS, if_pos htrig, if_pos hred, Outcome.andThen, if_pos hph] at h
        cases h
      · have hmpi : S.task.usesMPI = true := by
          rcases (isSync_iff S).1 hsync with h1 | h1
          · exact absurd h1 hred
          · exact h1
        by_cases hc : E.getExternalDepCount S
            (E.markInitiated S (E.initiateTask S st.abort st.abort_point st.env)) = 0
        · simp only [runSyncTask, hS, if_pos htrig, if_neg hred, if_pos hmpi, if_pos hc,
            Outcome.andThen, if_pos hph] at h
          cases h
        · simp only [runSyncTask, hS, if_pos htrig, if_neg hred, if_pos hmpi, if_neg hc,
            Outcome.andThen] at h
          cases h
          rfl
    · simp only [runSyncTask, hS, if_neg htrig] at h
      cases h

theorem checkAbort_fault {σ : Type} (E : Collab σ) (task : Option DetailedTask)
    (st r : LoopState σ) (f : Fault) (h : checkAbort E task st = Outcome.fault f r) :
    f = Fault.nullTask := by
  simp only [checkAbort] at h
  split at h
  · split at h
    · cases h; rfl
    · cases h
  · cases h

theorem registerAll_registered (syncs : Int → Option DetailedTask) (popped : List DetailedTask)
    (h : ∀ k S, syncs k = some S → S.isSync = true ∧ S.task.m_phase = k) :
    ∀ k S, registerAll syncs popped k = some S → S.isSync = true ∧ S.task.m_phase = k := by
  intro k S hS
  rw [registerAll_apply] at hS
  cases hl : (popped.filter fun t => t.isSync && decide (t.task.m_phase = k)).getLast? with
  | none =>
    rw [hl] at hS
    exact h k S hS
  | some S2 =>
    rw [hl] at hS
    cases hS
    have hm := List.mem_of_getLast?_eq_some hl
    simp only [List.mem_filter, Bool.and_eq_true, decide_eq_true_eq] at hm
    exact hm.2

theorem SyncRegistered.initially {σ : Type} (env : σ) : SyncRegistered (initLoopState env) := by
  intro k S h
  cases h

theorem drain_registered {σ : Type} (E : Collab σ) (fuel : Nat) (st st1 : LoopState σ)
    (h : drainInternalReady E fuel st = Outcome.ok st1) (hreg : SyncRegistered st) :
    SyncRegistered st1 := by
  obtain ⟨popped, _, _, rfl⟩ := drain_char E fuel st st1 h
  exact registerAll_registered st.phaseSyncTask popped hreg

theorem poll_syncs {σ : Type} (E : Collab σ) (pt : Int → Int) (ntasks : Int)
    (st : LoopState σ) :
    (advanceOrPoll E pt ntasks st).phaseSyncTask = st.phaseSyncTask ∧
      ranTasks (advanceOrPoll E pt ntasks st).log = ranTasks st.log ∧
      (advanceOrPoll E pt ntasks st).phaseTasksDone = st.phaseTasksDone := by
  simp only [advanceOrPoll]
  split
  · split
    · exact ⟨rfl, rfl, rfl⟩
    · split <;> exact ⟨rfl, by simp, rfl⟩
  · exact ⟨rfl, rfl, rfl⟩

theorem iteration_registered {σ : Type} {E : Collab σ} {pt : Int → Int} {ntasks : Int}
    {fuel : Nat} {st st5 : LoopState σ} (h : iteration E pt ntasks fuel st = Outcome.ok st5)
    (hreg : SyncRegistered st) : SyncRegistered st5 := by
  obtain ⟨st1, st2, st3, h1, h2, h3, h4⟩ := iteration_ok h
  obtain ⟨h5, _⟩ := checkAbort_none_ok E _ _ h4
  have r1 := drain_registered E _ _ _ h1 hreg
  intro k S hS
  rw [h5, (poll_syncs E pt ntasks st3).1, (sync_syncs E _ _ _ h3).1, (ext_syncs E _ _ h2).1] at hS
  exact r1 k S hS

theorem iteration_sync_fault {σ : Type} {E : Collab σ} {pt : Int → Int} {ntasks : Int}
    {fuel : Nat} {st r : LoopState σ} {f : Fault}
    (h : iteration E pt ntasks fuel st = Outcome.fault f r) (hreg : SyncRegistered st) :
    f ≠ Fault.assertUsesMPI ∧ f ≠ Fault.assertPhase := by
  simp only [iteration] at h
  rcases andThen_fault h with h1 | ⟨st1, h1, h⟩
  · exact absurd h1 (drain_no_fault E _ _ _ _)
  · have r1 := drain_registered E _ _ _ h1 hreg
    rcases andThen_fault h with h2 | ⟨st2, h2, h⟩
    · rcases ext_fault E _ _ _ h2 with rfl | rfl <;> exact ⟨by decide, by decide⟩
    · have r2 : SyncRegistered st2 := by
        intro k S hS
        rw [(ext_syncs E _ _ h2).1] at hS
        exact r1 k S hS
      rcases andThen_fault h with h3 | ⟨st3, h3, h⟩
      · rw [sync_fault E _ _ _ _ r2 h3]
        exact ⟨by decide, by decide⟩
      · rw [checkAbort_fault E _ _ _ _ h]
        exact ⟨by decide, by decide⟩

theorem loopAfter_registered {σ : Type} {E : Collab σ} {pt : Int → Int} {ntasks : Int}
    {fuel : Nat} :
    ∀ (n : Nat) (st st1 : LoopState σ), loopAfter E pt ntasks fuel n st = Outcome.ok st1 →
      SyncRegistered st → SyncRegistered st1 := by
  intro n
  induction n with
  | zero => intro st st1 h hreg; cases h; exact hreg
  | succ n ih =>
    intro st st1 h hreg
    simp only [loopAfter] at h
    split at h
    · obtain ⟨st2, h1, h2⟩ := andThen_ok h
      exact ih _ _ h2 (iteration_registered h1 hreg)
    · cases h; exact hreg

theorem loopAfter_sync_fault {σ : Type} {E : Collab σ} {pt : Int → Int} {ntasks : Int}
    {fuel : Nat} :
    ∀ (n : Nat) (st r : LoopState σ) (f : Fault),
      loopAfter E pt ntasks fuel n st = Outcome.fault f r → SyncRegistered st →
      f ≠ Fault.assertUsesMPI ∧ f ≠ Fault.assertPhase := by
  intro n
  induction n with
  | zero => intro st r f h; cases h
  | succ n ih =>
    intro st r f h hreg
    simp only [loopAfter] at h
    split at h
    · rcases andThen_fault h with h1 | ⟨st2, h1, h2⟩
      · exact iteration_sync_fault h1 hreg
      · exact ih _ _ _ h2 (iteration_registered h1 hreg)
    · cases h

end Uintah

namespace Uintah

/-! ## The phase counter: the claims -/

theorem iteration_currphase {σ : Type} {E : Collab σ} {pt : Int → Int} {ntasks : Int}
    {fuel : Nat} {st st5 : LoopState σ} (h : iteration E pt ntasks fuel st = Outcome.ok st5) :
    st5.currphase = st.currphase ∨
      (st5.currphase = st.currphase + 1 ∧
        pt st.currphase = st5.phaseTasksDone st.currphase) := by
  obtain ⟨st1, st2, st3, h1, h2, h3, h4⟩ := iteration_ok h
  obtain ⟨h5, _⟩ := checkAbort_none_ok E _ _ h4
  have hc : st3.currphase = st.currphase := by
    rw [(sync_frame E _ _ _ h3).1, (ext_frame E _ _ h2).1, (drain_frame E _ _ _ h1).2.2.1]
  rw [h5, ← hc]
  simp only [advanceOrPoll]
  split
  · split
    next heq => exact Or.inr ⟨rfl, heq⟩
    · split <;> exact Or.inl rfl
  · exact Or.inl rfl

theorem loopAfter_currphase {σ : Type} {E : Collab σ} {pt : Int → Int} {ntasks : Int}
    {fuel : Nat} :
    ∀ (n : Nat) (st st1 : LoopState σ), loopAfter E pt ntasks fuel n st = Outcome.ok st1 →
      st.currphase ≤ st1.currphase ∧ st1.currphase ≤ st.currphase + n := by
  intro n
  induction n with
  | zero => intro st st1 h; cases h; simp
  | succ n ih =>
    intro st st1 h
    simp only [loopAfter] at h
    split at h
    · obtain ⟨st2, h1, h2⟩ := andThen_ok h
      have a := iteration_currphase h1
      have b := ih _ _ h2
      push_cast
      rcases a with a | ⟨a, _⟩ <;> omega
    · cases h
      push_cast
      omega

theorem iteration_ran_sync {σ : Type} {E : Collab σ} {L : List DetailedTask} {ntasks : Int}
    {fuel : Nat} {st st5 : LoopState σ}
    (h : iteration E (phaseTasksOf L) ntasks fuel st = Outcome.ok st5)
    (hq : DeliversOnce L st5.log) (hs : OneSyncPerPhase L) (hI : LoopInv L st)
    (hR : RanSyncPhases st.log) : RanSyncPhases st5.log := by
  obtain ⟨st1, st2, st3, h1, h2, h3, h4⟩ := iteration_ok h
  have hl4 := checkAbort_log E _ _ _ h4
  have hq4 : DeliversOnce L (advanceOrPoll E (phaseTasksOf L) ntasks st3).log := hl4 ▸ hq
  have hq3 := hq4.of_prefix (advanceOrPoll_log E _ _ _)
  have hq2 := hq3.of_prefix (runSyncTask_log E _ _ _ h3)
  have hq1 := hq2.of_prefix (runExternalReady_log E _ _ h2)
  have hI1 := drainInternalReady_inv E hs _ _ _ h1 hq1 hI
  have hI2 := runExternalReady_inv E _ _ h2 hI1
  have hR1 : RanSyncPhases st1.log := by
    intro S hS
    rw [(drain_frame E _ _ _ h1).2.2.2.2.2] at hS
    exact hR S hS
  have hR2 : RanSyncPhases st2.log := by
    intro S hS hsync
    rcases (ext_syncs E _ _ h2).2 with e | ⟨t, ht, e⟩
    · rw [e] at hS
      exact hR1 S hS hsync
    · rw [e] at hS
      rcases List.mem_append.1 hS with hS | hS
      · exact hR1 S hS hsync
      · have : S = t := by simpa using hS
        subst this
        have := (hI1.pend S ht).2.1
        rw [hsync] at this
        cases this
  have hR3 : RanSyncPhases st3.log := by
    intro S hS hsync
    rcases (sync_syncs E _ _ _ h3).2 with e | ⟨T, hT, e⟩
    · rw [e] at hS
      exact hR2 S hS hsync
    · rw [e] at hS
      rcases List.mem_append.1 hS with hS | hS
      · exact hR2 S hS hsync
      · have : S = T := by simpa using hS
        subst this
        rw [hT]
        exact hI2.phase_nonneg
  intro S hS
  rw [hl4, (poll_syncs E _ ntasks st3).2.1] at hS
  exact hR3 S hS

theorem loopAfter_ran_sync {σ : Type} {E : Collab σ} {L : List DetailedTask} {ntasks : Int}
    {fuel : Nat} (hs : OneSyncPerPhase L) :
    ∀ (n : Nat) (st st1 : LoopState σ),
      loopAfter E (phaseTasksOf L) ntasks fuel n st = Outcome.ok st1 →
      DeliversOnce L st1.log → LoopInv L st → RanSyncPhases st.log → RanSyncPhases st1.log := by
  intro n
  induction n with
  | zero => intro st st1 h _ _ hR; cases h; exact hR
  | succ n ih =>
    intro st st1 h hq hI hR
    simp only [loopAfter] at h
    split at h
    · obtain ⟨st2, h1, h2⟩ := andThen_ok h
      have hq2 := hq.of_prefix (loopAfter_log n _ _ h2)
      exact ih _ _ h2 hq (iteration_inv h1 hq2 hs hI) (iteration_ran_sync h1 hq2 hs hI hR)
    · cases h; exact hR

/-- C21: as long as the ready queues deliver each local task at most once and
each phase has at most one synchronization task.  `currphase` is 0 when the
loop is entered, is never negative and is at most the number of passes made;
a pass leaves it as it is or adds one to it, and adds one only if
`phaseTasks[currphase] == phaseTasksDone[currphase]` held at the end of the
pass; between two passes, and after each of the steps 1 to 3 of the next
pass, every phase `k` with `0 <= k < currphase` is complete,
`phaseTasksDone[k] == phaseTasks[k]` (and every `k < currphase` when no
local task has a negative phase); and of two synchronization tasks
that were executed, the one executed first has the smaller phase. -/
theorem currphase_monotone {σ : Type} (E : Collab σ) (L : List DetailedTask)
    (fuel n : Nat) (env : σ) (st : LoopState σ)
    (hrun : loopAfter E (phaseTasksOf L) (L.length : Int) fuel n (initLoopState env)
      = Outcome.ok st)
    (hq : DeliversOnce L st.log) (hs : OneSyncPerPhase L) :
    (initLoopState env).currphase = 0 ∧ 0 ≤ st.currphase ∧ st.currphase ≤ n ∧
    (∀ st5, iteration E (phaseTasksOf L) (L.length : Int) fuel st = Outcome.ok st5 →
      st5.currphase = st.currphase ∨
        (st5.currphase = st.currphase + 1 ∧
          phaseTasksOf L st.currphase = st5.phaseTasksDone st.currphase)) ∧
    (∀ k, 0 ≤ k → k < st.currphase → st.phaseTasksDone k = phaseTasksOf L k) ∧
    ((∀ t ∈ L, 0 ≤ t.task.m_phase) →
      ∀ k, k < st.currphase → st.phaseTasksDone k = phaseTasksOf L k) ∧
    (∀ st1 st2 st3, drainInternalReady E fuel st = Outcome.ok st1 →
      runExternalReady E st1 = Outcome.ok st2 →
      runSyncTask E (phaseTasksOf L) st2 = Outcome.ok st3 → DeliversOnce L st3.log →
      ∀ k, 0 ≤ k → k < st.currphase →
        st1.phaseTasksDone k = phaseTasksOf L k ∧ st2.phaseTasksDone k = phaseTasksOf L k ∧
          st3.phaseTasksDone k = phaseTasksOf L k) ∧
    (∀ (pre mid post : List Call) (c1 c2 : Call) (S1 S2 : DetailedTask),
      st.log = pre ++ c1 :: mid ++ c2 :: post →
      (c1 = Call.runTask S1 ∨ c1 = Call.initiateReduction S1) →
      (c2 = Call.runTask S2 ∨ c2 = Call.initiateReduction S2) →
      S1.isSync = true → S2.isSync = true → S1.task.m_phase < S2.task.m_phase) := by
  have hI := executeLoop_inv hrun hq hs
  have hR : RanSyncPhases st.log :=
    loopAfter_ran_sync hs n _ _ hrun hq (LoopInv.init L env) (by intro S hS; cases hS)
  have hb := loopAfter_currphase n _ _ hrun
  have hle : ∀ k, st.phaseTasksDone k ≤ phaseTasksOf L k := by
    intro k
    rw [hI.phase_eq, phaseTasksOf_eq]
    exact_mod_cast phaseCount_le_of_nodup_subset hI.ran_nodup
      (fun x hx => hq.2 x (hI.ran_popped x hx)) k
  have hcomplete : ∀ (s : LoopState σ), LoopInv L s → DeliversOnce L s.log →
      ∀ k, 0 ≤ k → k < s.currphase → s.phaseTasksDone k = phaseTasksOf L k := by
    intro s hIs hqs k h0 h1
    refine le_antisymm ?_ (hIs.phases_done k h0 h1)
    rw [hIs.phase_eq, phaseTasksOf_eq]
    exact_mod_cast phaseCount_le_of_nodup_subset hIs.ran_nodup
      (fun x hx => hqs.2 x (hIs.ran_popped x hx)) k
  refine ⟨rfl, hI.phase_nonneg, ?_, fun st5 h => iteration_currphase h, ?_, ?_, ?_, ?_⟩
  · have := hb.2
    simpa [initLoopState] using this
  · intro k h0 h1
    exact le_antisymm (hle k) (hI.phases_done k h0 h1)
  · intro hnn k h1
    rcases lt_or_le k 0 with hneg | h0
    · have hz : phaseCount L k = 0 := by
        rw [phaseCount_eq_length_filter, List.length_eq_zero, List.filter_eq_nil_iff]
        intro t ht
        have := hnn t ht
        simp only [decide_eq_true_eq]
        omega
      have hz2 : phaseCount (ranTasks st.log) k = 0 :=
        Nat.eq_zero_of_le_zero (hz ▸ phaseCount_le_of_nodup_subset hI.ran_nodup
          (fun x hx => hq.2 x (hI.ran_popped x hx)) k)
      rw [hI.phase_eq, phaseTasksOf_eq, hz, hz2]
    · exact le_antisymm (hle k) (hI.phases_done k h0 h1)
  · intro st1 st2 st3 h1 h2 h3 hq3 k h0 hk
    have hq2 := hq3.of_prefix (runSyncTask_log E _ _ _ h3)
    have hq1 := hq2.of_prefix (runExternalReady_log E _ _ h2)
    have hI1 := drainInternalReady_inv E hs _ _ _ h1 hq1 hI
    have hI2 := runExternalReady_inv E _ _ h2 hI1
    have hI3 := runSyncTask_inv E _ _ h3 hq2 hI2
    have c1 : st1.currphase = st.currphase := (drain_frame E _ _ _ h1).2.2.1
    have c2 : st2.currphase = st.currphase := (ext_frame E _ _ h2).1.trans c1
    have c3 : st3.currphase = st.currphase := (sync_frame E _ _ _ h3).1.trans c2
    exact ⟨hcomplete st1 hI1 hq1 k h0 (by rw [c1]; exact hk),
      hcomplete st2 hI2 hq2 k h0 (by rw [c2]; exact hk),
      hcomplete st3 hI3 hq3 k h0 (by rw [c3]; exact hk)⟩
  · intro pre mid post c1 c2 S1 S2 hsplit hc1 hc2 hs1 hs2
    have hran : ranTasks st.log = ranTasks pre ++ S1 :: (ranTasks mid ++ S2 :: ranTasks post) := by
      rw [hsplit]
      rcases hc1 with rfl | rfl <;> rcases hc2 with rfl | rfl <;> simp
    have hnd := hI.ran_nodup
    rw [hran] at hnd
    have hm1 : S1 ∈ ranTasks st.log := by rw [hran]; simp
    have hm2 : S2 ∈ ranTasks st.log := by rw [hran]; simp
    have hne : S2 ≠ S1 := by
      rintro rfl
      have := (List.nodup_append.1 hnd).2.1
      rw [List.nodup_cons] at this
      exact this.1 (by simp)
    by_contra hlt
    have hge : S2.task.m_phase ≤ S1.task.m_phase := not_lt.1 hlt
    rcases eq_or_lt_of_le hge with heq | hlt2
    · exact hne (hs S2 (hq.2 S2 (hI.ran_popped S2 hm2)) S1 (hq.2 S1 (hI.ran_popped S1 hm1))
        hs2 hs1 heq)
    · have h2pre : S2 ∈ ranTasks pre :=
        hI.ordered pre (mid ++ c2 :: post) c1 S1 (by rw [hsplit]; simp) hc1 hs1 S2
          (hq.2 S2 (hI.ran_popped S2 hm2)) hne (Or.inr ⟨hR S2 hm2 hs2, hlt2⟩)
      have := (List.nodup_append.1 hnd).2.2
      exact this h2pre (by simp) 

/-- Witness of C21: the run of the main loop on `graphLater`, two passes. -/
theorem currphase_monotone_witness :
    (quietWorld graphLater).loopAfter 5 2 = Outcome.ok afterLater ∧
    afterLater.currphase = 1 ∧
    afterLater.phaseTasksDone 0 = phaseTasksOf (quietWorld graphLater).localTasks 0 :=
  ⟨rfl, rfl,
    (currphase_monotone (quietWorld graphLater).collab (quietWorld graphLater).localTasks
      5 2 (Tracker.init (quietWorld graphLater)) afterLater rfl
      ⟨by decide, by decide⟩ (by unfold OneSyncPerPhase; decide)).2.2.2.2.1 0 (by decide)
      (by decide)⟩

/-- On a valid, schedulable graph the main loop gets through any number of
passes: no pass fails. -/
theorem loopAfter_sys_ok {W : World} (hv : W.ValidGraph) (hs : W.Schedulable) {fuel : Nat}
    (hfuel : W.graph.length ≤ fuel) :
    ∀ (n : Nat) (st : LoopState Tracker), Sys W st →
      ∃ st1, loopAfter W.collab (phaseTasksOf W.localTasks) (W.localTasks.length : Int) fuel n st
        = Outcome.ok st1 ∧ Sys W st1 := by
  intro n
  induction n with
  | zero => intro st h; exact ⟨st, rfl, h⟩
  | succ n ih =>
    intro st h
    by_cases hc : st.numTasksDone < (W.localTasks.length : Int)
    · obtain ⟨st5, hit, hS5, _⟩ := iteration_sys hv hs hfuel h hc
      obtain ⟨st1, hrun, hS1⟩ := ih st5 hS5
      refine ⟨st1, ?_, hS1⟩
      simp only [loopAfter, if_pos hc]
      rw [andThen_ok_eq _ hit]
      exact hrun
    · exact ⟨st, by simp only [loopAfter, if_neg hc], h⟩

theorem graphOpp_valid : (quietWorld graphOpp).ValidGraph :=
  ⟨by decide, by decide, ⟨fun i => i, by decide⟩, by decide,
    by unfold OneSyncPerPhase; decide⟩

theorem graphOpp_schedulable : (quietWorld graphOpp).Schedulable := by
  refine ⟨?_, by decide, fun _ => rfl⟩
  have hdec : ∀ n ∈ (quietWorld graphOpp).graph, ∀ s ∈ (quietWorld graphOpp).graph,
      s.dtask.isSync = true → s.dtask.id < n.dtask.id →
      s.dtask.task.m_phase < n.dtask.task.m_phase := by decide
  intro n hn s hs hsync hdep
  exact hdec n hn s hs hsync
    (@DependsOn.rank_lt (quietWorld graphOpp) (fun i => i) (by decide) _ _ hdep)

/-- C22: the assertions of the sync-task branch cannot fail.  Whatever the
collaborators do, in every state reached by the main loop every task
registered in `phaseSyncTask` under a key `k` has phase `k` and is a
Reduction task or uses MPI; so a pass that fails does not fail with
`ASSERT(reducetask->getTask()->usesMPI())` (line 316) nor with
`ASSERT(reducetask->getTask()->m_phase == currphase)` (line 325), and neither
does the main loop as a whole.  The remaining assertion of the branch, line
319, is about the dependency counts and not about what is registered: on a
valid, schedulable graph (where, as section 4.5, step 3 has it, a
once-per-process task has no remote requires by construction) the main loop
gets through any number of passes, so that no assertion of the branch fails
there. -/
theorem sync_assertions_hold {σ : Type} (E : Collab σ) (pt : Int → Int) (ntasks : Int)
    (fuel n : Nat) (env : σ) :
    (∀ st, loopAfter E pt ntasks fuel n (initLoopState env) = Outcome.ok st →
      (∀ k S, st.phaseSyncTask k = some S →
        S.task.m_phase = k ∧ (S.task.type = TaskType.Reduction ∨ S.task.usesMPI = true)) ∧
      ∀ f r, iteration E pt ntasks fuel st = Outcome.fault f r →
        f ≠ Fault.assertUsesMPI ∧ f ≠ Fault.assertPhase) ∧
    (∀ f r, loopAfter E pt ntasks fuel n (initLoopState env) = Outcome.fault f r →
      f ≠ Fault.assertUsesMPI ∧ f ≠ Fault.assertPhase) ∧
    ∀ W : World, W.ValidGraph → W.Schedulable → W.graph.length ≤ fuel →
      ∃ st, W.loopAfter fuel n = Outcome.ok st := by
  refine ⟨?_, ?_, ?_⟩
  · intro st h
    have hreg := loopAfter_registered n _ _ h (SyncRegistered.initially env)
    exact ⟨fun k S hS => ⟨(hreg k S hS).2, (isSync_iff S).1 (hreg k S hS).1⟩,
      fun f r hf => iteration_sync_fault hf hreg⟩
  · intro f r h
    exact loopAfter_sync_fault n _ _ _ h (SyncRegistered.initially env)
  · intro W hv hs hfuel
    obtain ⟨st, hrun, _⟩ := loopAfter_sys_ok hv hs hfuel n _ (Sys.at_start hv)
    exact ⟨st, hrun⟩

/-- Witness of C22: on `graphOpp` the once-per-process task is registered
under its phase 0 and uses MPI, it is executed in the second pass after the
normal task, and any number of passes gets through. -/
theorem sync_assertions_hold_witness :
    (quietWorld graphOpp).loopAfter 5 2 = Outcome.ok afterOpp ∧
    afterOpp.phaseSyncTask 0 = some (oncePerProcTask 2 0) ∧
    ranTasks afterOpp.log = [normalTask 1 0, oncePerProcTask 2 0] ∧
    ((oncePerProcTask 2 0).task.m_phase = 0 ∧
      ((oncePerProcTask 2 0).task.type = TaskType.Reduction ∨
        (oncePerProcTask 2 0).task.usesMPI = true)) ∧
    ∃ st, (quietWorld graphOpp).loopAfter 5 2 = Outcome.ok st :=
  ⟨rfl, rfl, by decide,
    ((sync_assertions_hold (quietWorld graphOpp).collab
      (phaseTasksOf (quietWorld graphOpp).localTasks)
      ((quietWorld graphOpp).localTasks.length : Int) 5 2
      (Tracker.init (quietWorld graphOpp))).1 afterOpp rfl).1 0 (oncePerProcTask 2 0) rfl,
    (sync_assertions_hold (quietWorld graphOpp).collab
      (phaseTasksOf (quietWorld graphOpp).localTasks)
      ((quietWorld graphOpp).localTasks.length : Int) 5 2
      (Tracker.init (quietWorld graphOpp))).2.2 (quietWorld graphOpp) graphOpp_valid
      graphOpp_schedulable (by decide)⟩

theorem createSubScheduler_eq (heap : List (DynamicMPIScheduler SchedulerBase))
    (this : Nat) (parent : DynamicMPIScheduler SchedulerBase)
    (hthis : heap[this]? = some parent) :
    createSubScheduler heap this =
      some (heap ++
        [{ m_task_queue_alg := QueueAlg.MostMessages
           common :=
             { d_myworld := parent.common.d_myworld
               m_out_port := parent.common.m_out_port
               m_parent_scheduler := some this
               m_shared_state := parent.common.m_shared_state
               ports := [("load balancer", parent.common.getPort "load balancer")] } }],
        heap.length) := by
  simp only [createSubScheduler, hthis]
  rfl

/-- C23: the scheduler made by `createSubScheduler` has the policy
`MostMessages` whatever the policy of the parent is: the constructor assigns
it (line 59) and `createSubScheduler` does not copy `m_task_queue_alg`.  The
policy of the parent is as before. -/
theorem createSubScheduler_policy (heap : List (DynamicMPIScheduler SchedulerBase))
    (this : Nat) (parent : DynamicMPIScheduler SchedulerBase)
    (hthis : heap[this]? = some parent) :
    ∃ heap1 addr sub, createSubScheduler heap this = some (heap1, addr) ∧
      heap1[addr]? = some sub ∧ sub.m_task_queue_alg = QueueAlg.MostMessages ∧
      ∃ parent1, heap1[this]? = some parent1 ∧
        parent1.m_task_queue_alg = parent.m_task_queue_alg := by
  have hlt : this < heap.length := by
    rcases Nat.lt_or_ge this heap.length with h | h
    · exact h
    · rw [List.getElem?_eq_none h] at hthis; cases hthis
  refine ⟨_, _, _, createSubScheduler_eq heap this parent hthis,
    List.getElem?_concat_length _ _, rfl, parent, ?_, rfl⟩
  rw [List.getElem?_append_left hlt]
  exact hthis

/-- Witness of C23: the parent was configured with `Stack` by `problemSetup`;
its sub-scheduler has `MostMessages`. -/
theorem createSubScheduler_policy_witness :
    (configuredHeap[0]?.map fun s => s.m_task_queue_alg) = some QueueAlg.Stack ∧
    ∃ heap1 addr sub, createSubScheduler configuredHeap 0 = some (heap1, addr) ∧
      heap1[addr]? = some sub ∧ sub.m_task_queue_alg = QueueAlg.MostMessages ∧
      ∃ parent1, heap1[0]? = some parent1 ∧ parent1.m_task_queue_alg = QueueAlg.Stack :=
  ⟨by decide,
    createSubScheduler_policy configuredHeap 0
      (problemSetup (fun (_ : ProblemSpec) (b : SchedulerBase) => (b, (none : Option Unit)))
        (specWithAlg "Stack") (DynamicMPIScheduler.new (MPIScheduler.new 7 3 none))).1 rfl⟩

end Uintah

namespace Uintah

/-! ## `meanTurbFluxes` and the LGMRES solver -/

theorem calc_TurbFluxes_cons {α : Type} [Mul α] (velPrime : IntVector → Vector α)
    (d : IntVector) (rest : List IntVector) (diag offdiag : IntVector → Vector α) :
    meanTurbFluxes.calc_TurbFluxes (d :: rest) velPrime diag offdiag =
      meanTurbFluxes.calc_TurbFluxes rest velPrime
        (setCell diag d
          { x := (velPrime d).x * (velPrime d).x
            y := (velPrime d).y * (velPrime d).y
            z := (velPrime d).z * (velPrime d).z })
        (setCell offdiag d
          { x := (velPrime d).x * (velPrime d).y
            y := (velPrime d).y * (velPrime d).w
            z := (velPrime d).z * (velPrime d).z }) :=
  rfl

theorem calc_TurbFluxes_other {α : Type} [Mul α] (velPrime : IntVector → Vector α) :
    ∀ (cells : List IntVector) (diag offdiag : IntVector → Vector α) (c : IntVector),
      c ∉ cells →
      (meanTurbFluxes.calc_TurbFluxes cells velPrime diag offdiag).1 c = diag c ∧
      (meanTurbFluxes.calc_TurbFluxes cells velPrime diag offdiag).2 c = offdiag c := by
  intro cells
  induction cells with
  | nil => intro diag offdiag c _; exact ⟨rfl, rfl⟩
  | cons d rest ih =>
    intro diag offdiag c hc
    have hcd : c ≠ d := fun h => hc (h ▸ List.mem_cons_self _ _)
    have hr : c ∉ rest := fun h => hc (List.mem_cons_of_mem _ h)
    rw [calc_TurbFluxes_cons]
    constructor
    · rw [(ih _ _ c hr).1]
      simp [setCell, hcd]
    · rw [(ih _ _ c hr).2]
      simp [setCell, hcd]

theorem calc_TurbFluxes_cell {α : Type} [Mul α] (velPrime : IntVector → Vector α) :
    ∀ (cells : List IntVector) (diag offdiag : IntVector → Vector α) (c : IntVector),
      c ∈ cells →
      (meanTurbFluxes.calc_TurbFluxes cells velPrime diag offdiag).1 c =
          { x := (velPrime c).x * (velPrime c).x
            y := (velPrime c).y * (velPrime c).y
            z := (velPrime c).z * (velPrime c).z } ∧
      (meanTurbFluxes.calc_TurbFluxes cells velPrime diag offdiag).2 c =
          { x := (velPrime c).x * (velPrime c).y
            y := (velPrime c).y * (velPrime c).z
            z := (velPrime c).z * (velPrime c).z } := by
  intro cells
  induction cells with
  | nil => intro diag offdiag c hc; cases hc
  | cons d rest ih =>
    intro diag offdiag c hc
    rw [calc_TurbFluxes_cons]
    by_cases hr : c ∈ rest
    · exact ih _ _ c hr
    · have hcd : c = d := by
        rcases List.mem_cons.1 hc with h | h
        · exact h
        · exact absurd h hr
      subst hcd
      have := calc_TurbFluxes_other velPrime rest
        (setCell diag c
          { x := (velPrime c).x * (velPrime c).x
            y := (velPrime c).y * (velPrime c).y
            z := (velPrime c).z * (velPrime c).z })
        (setCell offdiag c
          { x := (velPrime c).x * (velPrime c).y
            y := (velPrime c).y * (velPrime c).w
            z := (velPrime c).z * (velPrime c).z }) c hr
      rw [this.1, this.2]
      simp [setCell, Vector.w]

/-- C24 fails in the code: the test of lines 226-227 joins its two conditions
with `&&`, so an `<analyze>` label is rejected only if its base type is not
`CCVariable` and, in addition, its subtype is not `double`.  For a label
that `VarLabel::find` knows, the body of the loop raises the exception of
line 231 exactly in that case; a `CCVariable<Vector>` and an
`NCVariable<double>` are both accepted and pushed onto `d_Qvars`. -/
theorem analyze_accepts_non_CCdouble :
    (∀ (find : String → Option VarLabel) (atoi : String → Int) (defaultMatl : Int)
      (attrs : String → String) (label : VarLabel), find (attrs "label") = some label →
      ((∃ msg, meanTurbFluxes.analyze find atoi defaultMatl attrs
          = Except.error { msg := msg, line := 231 }) ↔
        (label.baseType ≠ TypeKind.CCVariable ∧ label.subType ≠ TypeKind.double_type))) ∧
    (∃ qs, meanTurbFluxes.problemSetup
        (fun name =>
          if name = "vel_CC" then
            some { name := "vel_CC", baseType := TypeKind.CCVariable, subType := TypeKind.Vector }
          else if name = "T_NC" then
            some { name := "T_NC", baseType := TypeKind.NCVariable, subType := TypeKind.double_type }
          else none)
        (fun _ => 0) 0
        [fun key => if key = "label" then "vel_CC" else "",
         fun key => if key = "label" then "T_NC" else ""] []
      = Except.ok qs ∧ qs.map (fun q => (q.baseType, q.subType)) =
        [(TypeKind.CCVariable, TypeKind.Vector), (TypeKind.NCVariable, TypeKind.double_type)]) := by
  constructor
  · intro find atoi defaultMatl attrs label hfind
    by_cases hc : label.baseType ≠ TypeKind.CCVariable ∧ label.subType ≠ TypeKind.double_type
    · simp only [meanTurbFluxes.analyze, hfind, if_pos hc]
      exact ⟨fun _ => hc, fun _ => ⟨_, rfl⟩⟩
    · simp only [meanTurbFluxes.analyze, hfind, if_neg hc]
      constructor
      · rintro ⟨msg, h⟩
        split at h
        · cases h
        · cases h
      · intro h
        exact absurd h hc
  · exact ⟨_, rfl, rfl⟩

/-- C25 fails in the code: line 551 stores `vel.z() * vel.z()` as the third
component of the shear stress, not `vel.z() * vel.x()`.  For every cell of
the patch the normal stress is (u'u', v'v', w'w') and the shear stress is
(u'v', v'w', w'w'); for the fluctuation (1, 2, 3) the third shear component
is 9, where w'u' is 3. -/
theorem calc_TurbFluxes_shear_zz :
    (∀ (cells : List IntVector) (velPrime : IntVector → Vector Int)
      (diag offdiag : IntVector → Vector Int) (c : IntVector), c ∈ cells →
      (meanTurbFluxes.calc_TurbFluxes cells velPrime diag offdiag).1 c =
          { x := (velPrime c).x * (velPrime c).x
            y := (velPrime c).y * (velPrime c).y
            z := (velPrime c).z * (velPrime c).z } ∧
      (meanTurbFluxes.calc_TurbFluxes cells velPrime diag offdiag).2 c =
          { x := (velPrime c).x * (velPrime c).y
            y := (velPrime c).y * (velPrime c).z
            z := (velPrime c).z * (velPrime c).z }) ∧
    ((meanTurbFluxes.calc_TurbFluxes [{ x := 0, y := 0, z := 0 }]
        (fun _ => ({ x := 1, y := 2, z := 3 } : Vector Int))
        (fun _ => { x := 0, y := 0, z := 0 }) (fun _ => { x := 0, y := 0, z := 0 })).2
        { x := 0, y := 0, z := 0 }).z = 9 ∧
    (3 : Int) * 1 = 3 :=
  ⟨fun cells velPrime diag offdiag c hc => calc_TurbFluxes_cell velPrime cells diag offdiag c hc,
    by decide, by decide⟩

theorem mem_solverInitialize_kdim (params : SolverParams) (v : Int) (calls : List HypreCall)
    (b : Bool) (h : solverInitialize false params = some (calls, b)) :
    HypreCall.LGMRESSetKDim v ∈ calls ↔ (params.two_norm ≠ -1 ∧ v = params.k_dim) := by
  simp only [solverInitialize, Bool.false_eq_true, if_false, Option.some.injEq,
    Prod.mk.injEq] at h
  obtain ⟨h, _⟩ := h
  subst h
  simp only [List.mem_append, List.mem_singleton]
  constructor
  · intro hm
    rcases hm with (((((((hm | hm) | hm) | hm) | hm) | hm) | hm) | hm) | hm
    · cases hm
    all_goals
      split at hm
      next hc =>
        first
          | (simp at hm; done)
          | exact ⟨hc, by simpa using hm⟩
      · cases hm
  · rintro ⟨hc, rfl⟩
    exact Or.inl (Or.inl (Or.inr (by rw [if_pos hc]; exact List.mem_singleton.2 rfl)))

theorem mem_solverInitialize_augdim (params : SolverParams) (v : Int) (calls : List HypreCall)
    (b : Bool) (h : solverInitialize false params = some (calls, b)) :
    HypreCall.LGMRESSetAugDim v ∈ calls ↔ (params.two_norm ≠ -1 ∧ v = params.aug_dim) := by
  simp only [solverInitialize, Bool.false_eq_true, if_false, Option.some.injEq,
    Prod.mk.injEq] at h
  obtain ⟨h, _⟩ := h
  subst h
  simp only [List.mem_append, List.mem_singleton]
  constructor
  · intro hm
    rcases hm with (((((((hm | hm) | hm) | hm) | hm) | hm) | hm) | hm) | hm
    · cases hm
    all_goals
      split at hm
      next hc =>
        first
          | (simp at hm; done)
          | exact ⟨hc, by simpa using hm⟩
      · cases hm
  · rintro ⟨hc, rfl⟩
    exact Or.inl (Or.inr (by rw [if_pos hc]; exact List.mem_singleton.2 rfl))

/-- C26 fails in the code: lines 108-111 test `params->two_norm` where they
should test `params->k_dim` and `params->aug_dim`.  `HYPRE_LGMRESSetKDim`
and `HYPRE_LGMRESSetAugDim` are called exactly when `two_norm != -1`, with
the values of `k_dim` and `aug_dim` whatever they are.  With `k_dim = 30`,
`aug_dim = 2` and `two_norm` not set neither dimension reaches HYPRE; with
`two_norm = 1` and the dimensions not set, HYPRE is given -1 for both. -/
theorem solverInitialize_dims_follow_two_norm :
    (∀ (params : SolverParams) (calls : List HypreCall) (b : Bool) (v : Int),
      solverInitialize false params = some (calls, b) →
      (HypreCall.LGMRESSetKDim v ∈ calls ↔ (params.two_norm ≠ -1 ∧ v = params.k_dim)) ∧
      (HypreCall.LGMRESSetAugDim v ∈ calls ↔ (params.two_norm ≠ -1 ∧ v = params.aug_dim))) ∧
    solverInitialize false { unsetParams with k_dim := 30, aug_dim := 2 }
      = some ([HypreCall.SStructLGMRESCreate], true) ∧
    solverInitialize false { unsetParams with two_norm := 1 }
      = some ([HypreCall.SStructLGMRESCreate, HypreCall.LGMRESSetKDim (-1),
          HypreCall.LGMRESSetAugDim (-1)], true) :=
  ⟨fun params calls b v h =>
      ⟨mem_solverInitialize_kdim params v calls b h,
        mem_solverInitialize_augdim params v calls b h⟩,
    by decide, by decide⟩

end Uintah

namespace Uintah

/-! ## The arm post-processors and the wall timers -/

theorem wrap32_of_range (x : Int) (h0 : INT_MIN ≤ x) (h1 : x ≤ INT_MAX) : wrap32 x = x := by
  unfold INT_MIN at h0
  unfold INT_MAX at h1
  unfold wrap32
  omega

theorem skipUnset_le (m_locations : List Int) : ∀ n, skipUnset m_locations n ≤ n := by
  intro n
  induction n with
  | zero => exact le_refl _
  | succ n ih =>
    simp only [skipUnset]
    split
    · exact Nat.le_succ_of_le ih
    · exact le_refl _

theorem skipUnset_set (m_locations : List Int) :
    ∀ n, 0 < skipUnset m_locations n →
      m_locations.getD (skipUnset m_locations n - 1) 0 ≠ INT_MAX := by
  intro n
  induction n with
  | zero => intro h; simp [skipUnset] at h
  | succ n ih =>
    intro h
    simp only [skipUnset] at h ⊢
    split
    next hc => rw [if_pos hc] at h; exact ih h
    next hc => simpa using hc

theorem skipUnset_unset (m_locations : List Int) :
    ∀ n j, skipUnset m_locations n ≤ j → j < n → m_locations.getD j 0 = INT_MAX := by
  intro n
  induction n with
  | zero => intro j _ h; omega
  | succ n ih =>
    intro j h1 h2
    simp only [skipUnset] at h1
    split at h1
    next hc =>
      rcases Nat.lt_succ_iff_lt_or_eq.1 h2 with h | h
      · exact ih j h1 h
      · rw [h]; exact hc
    · omega

theorem skipBack_bounds (m_locations : List Int) :
    ∀ i, 1 ≤ i → 1 ≤ skipBack m_locations i ∧ skipBack m_locations i ≤ i := by
  intro i
  induction i using Nat.strong_induction_on with
  | _ i ih =>
    intro hi
    match i, hi, ih with
    | 1, _, _ => exact ⟨le_refl _, le_refl _⟩
    | i + 2, _, ih =>
      simp only [skipBack]
      split
      · have := ih (i + 1) (by omega) (by omega)
        exact ⟨this.1, by omega⟩
      · exact ⟨by omega, le_refl _⟩

/-- What `initializeData` computes, by the number `n` of entries up to the
last one that is set. -/
theorem initializeData_cases (m_locations : List Int) :
    (skipUnset m_locations m_locations.length = 0 → initializeData m_locations = (-1, 0)) ∧
    (skipUnset m_locations m_locations.length = 1 → initializeData m_locations = (-1, 2)) ∧
    (2 ≤ skipUnset m_locations m_locations.length →
      0 ≤ (initializeData m_locations).1 ∧
      (initializeData m_locations).1 < m_locations.length ∧
      2 ≤ (initializeData m_locations).2 ∧
      (initializeData m_locations).1 + (initializeData m_locations).2 =
        skipUnset m_locations m_locations.length) := by
  refine ⟨?_, ?_, ?_⟩
  · intro h
    simp [initializeData, h]
  · intro h
    simp [initializeData, h, skipBack]
  · intro h
    have hle := skipUnset_le m_locations m_locations.length
    have hb := skipBack_bounds m_locations (skipUnset m_locations m_locations.length - 1)
      (by omega)
    have hne : ((skipUnset m_locations m_locations.length : Nat) : Int) ≠ 0 := by omega
    simp only [initializeData, if_pos hne]
    refine ⟨by omega, by omega, by omega, by omega⟩

/-- C27 fails in the code when the first entry of the array is the only one
that is set.  Let `n` be the number of entries up to the last set one (the
entry `n - 1` is set, the entries from `n` on are not).  If `n >= 2` the
claim holds: `m_data_n0` is a valid index, `m_data_size >= 2` and
`m_data_n0 + m_data_size == n`; if `n == 0` then `m_data_n0 == -1` and
`m_data_size == 0`.  But if `n == 1` the second loop is not entered with
`i == 0` and line 368 sets `m_data_n0 = i - 1 = -1`, line 369
`m_data_size = 1 - (-1) = 2`: for the arrays `[5]` and
`[5, INT_MAX, INT_MAX]` the result is `m_data_n0 == -1`,
`m_data_size == 2`. -/
theorem initializeData_first_entry_only :
    (∀ m_locations : List Int,
      skipUnset m_locations m_locations.length ≤ m_locations.length ∧
      (0 < skipUnset m_locations m_locations.length →
        m_locations.getD (skipUnset m_locations m_locations.length - 1) 0 ≠ INT_MAX) ∧
      (∀ j, skipUnset m_locations m_locations.length ≤ j → j < m_locations.length →
        m_locations.getD j 0 = INT_MAX) ∧
      (skipUnset m_locations m_locations.length = 0 → initializeData m_locations = (-1, 0)) ∧
      (skipUnset m_locations m_locations.length = 1 → initializeData m_locations = (-1, 2)) ∧
      (2 ≤ skipUnset m_locations m_locations.length →
        0 ≤ (initializeData m_locations).1 ∧
        (initializeData m_locations).1 < m_locations.length ∧
        2 ≤ (initializeData m_locations).2 ∧
        (initializeData m_locations).1 + (initializeData m_locations).2 =
          skipUnset m_locations m_locations.length)) ∧
    initializeData [5] = (-1, 2) ∧
    initializeData [5, INT_MAX, INT_MAX] = (-1, 2) :=
  ⟨fun m_locations =>
      ⟨skipUnset_le m_locations _, skipUnset_set m_locations _, skipUnset_unset m_locations _,
        (initializeData_cases m_locations).1, (initializeData_cases m_locations).2.1,
        (initializeData_cases m_locations).2.2⟩,
    by decide, by decide⟩

theorem getInt_absent (spec : ArmSpec) (name : String) (d : Int)
    (h : (spec.ints.find? fun p => decide (p.1 = name)) = none) : spec.getInt name d = d := by
  simp only [ArmSpec.getInt, h]

/-- The polynomial branch of `create`: it raises exactly when one of the four
tests of lines 94-101 holds. -/
theorem create_polynomial_iff (VAR : VarType) (DIM : DimType) (spec : ArmSpec) (epsilon : ℚ)
    (dbg : Bool) (type0 : String) (htype : spec.type = some type0)
    (hpoly : tolower type0 = "polynomial") :
    (∃ e, ArmPostProcessorFactory.create VAR DIM (some spec) epsilon dbg = Except.error e) ↔
      (spec.getInt "deg0" (wrap32 (spec.getInt "npts0" 6 - 1)) ≥ spec.getInt "npts0" 6 ∨
        spec.getInt "deg1" 1 ≥ spec.getInt "npts1" 2 ∨
        spec.getInt "deg2" (wrap32 (spec.getInt "npts2" (spec.getInt "npts1" 2) - 1))
          ≥ spec.getInt "npts2" (spec.getInt "npts1" 2) ∨
        spec.getInt "deg3" (wrap32 (spec.getInt "npts3" 5 - 1)) ≥ spec.getInt "npts3" 5) := by
  simp only [ArmPostProcessorFactory.create, htype, hpoly, if_true]
  by_cases h0 : spec.getInt "deg0" (wrap32 (spec.getInt "npts0" 6 - 1)) ≥ spec.getInt "npts0" 6
  · rw [if_pos h0]
    exact ⟨fun _ => Or.inl h0, fun _ => ⟨_, rfl⟩⟩
  · rw [if_neg h0]
    by_cases h1 : spec.getInt "deg1" 1 ≥ spec.getInt "npts1" 2
    · rw [if_pos h1]
      exact ⟨fun _ => Or.inr (Or.inl h1), fun _ => ⟨_, rfl⟩⟩
    · rw [if_neg h1]
      by_cases h2 : spec.getInt "deg2" (wrap32 (spec.getInt "npts2" (spec.getInt "npts1" 2) - 1))
          ≥ spec.getInt "npts2" (spec.getInt "npts1" 2)
      · rw [if_pos h2]
        exact ⟨fun _ => Or.inr (Or.inr (Or.inl h2)), fun _ => ⟨_, rfl⟩⟩
      · rw [if_neg h2]
        by_cases h3 : spec.getInt "deg3" (wrap32 (spec.getInt "npts3" 5 - 1))
            ≥ spec.getInt "npts3" 5
        · rw [if_pos h3]
          exact ⟨fun _ => Or.inr (Or.inr (Or.inr h3)), fun _ => ⟨_, rfl⟩⟩
        · rw [if_neg h3]
          constructor
          · rintro ⟨e, he⟩
            split at he
            · cases he
            · split at he <;> cases he
          · rintro (h | h | h | h)
            · exact absurd h h0
            · exact absurd h h1
            · exact absurd h h2
            · exact absurd h h3

/-- C28: for a block whose type reads `polynomial` (in any case of the
letters), `create` raises `ProblemSetupException` if and only if
`deg_i >= npts_i` for some `i` in 0..3, the values being those of the block
or else the defaults `npts0 = 6`, `npts1 = 2`, `npts2 = npts1`, `npts3 = 5`,
`deg0 = npts0 - 1`, `deg1 = 1`, `deg2 = npts2 - 1`, `deg3 = npts3 - 1`.  With
no `int` entry in the block it does not raise.  With no degree in the block,
and `npts0`, `npts2` and `npts3` values of type `int` above `INT_MIN` (so
that `npts - 1` does not overflow), it raises exactly when `npts1 <= 1`. -/
theorem create_polynomial_raises (VAR : VarType) (DIM : DimType) (spec : ArmSpec) (epsilon : ℚ)
    (dbg : Bool) (type0 : String) (htype : spec.type = some type0)
    (hpoly : tolower type0 = "polynomial") :
    ((∃ e, ArmPostProcessorFactory.create VAR DIM (some spec) epsilon dbg = Except.error e) ↔
      (spec.getInt "deg0" (wrap32 (spec.getInt "npts0" 6 - 1)) ≥ spec.getInt "npts0" 6 ∨
        spec.getInt "deg1" 1 ≥ spec.getInt "npts1" 2 ∨
        spec.getInt "deg2" (wrap32 (spec.getInt "npts2" (spec.getInt "npts1" 2) - 1))
          ≥ spec.getInt "npts2" (spec.getInt "npts1" 2) ∨
        spec.getInt "deg3" (wrap32 (spec.getInt "npts3" 5 - 1)) ≥ spec.getInt "npts3" 5)) ∧
    (spec.ints = [] →
      ∃ p, ArmPostProcessorFactory.create VAR DIM (some spec) epsilon dbg = Except.ok (some p)) ∧
    ((∀ name ∈ ["deg0", "deg1", "deg2", "deg3"],
        (spec.ints.find? fun p => decide (p.1 = name)) = none) →
      (∀ n ∈ [spec.getInt "npts0" 6, spec.getInt "npts2" (spec.getInt "npts1" 2),
          spec.getInt "npts3" 5], INT_MIN < n ∧ n ≤ INT_MAX) →
      ((∃ e, ArmPostProcessorFactory.create VAR DIM (some spec) epsilon dbg = Except.error e) ↔
        spec.getInt "npts1" 2 ≤ 1)) := by
  have hiff := create_polynomial_iff VAR DIM spec epsilon dbg type0 htype hpoly
  refine ⟨hiff, ?_, ?_⟩
  · intro hints
    have hno : ¬ ∃ e, ArmPostProcessorFactory.create VAR DIM (some spec) epsilon dbg
        = Except.error e := by
      rw [hiff]
      simp only [ArmSpec.getInt, hints, List.find?_nil]
      decide
    cases hr : ArmPostProcessorFactory.create VAR DIM (some spec) epsilon dbg with
    | error e => exact absurd ⟨e, hr⟩ hno
    | ok p =>
      cases p with
      | some p => exact ⟨p, rfl⟩
      | none =>
        exfalso
        simp only [ArmPostProcessorFactory.create, htype, hpoly, if_true] at hr
        repeat (split at hr <;> try cases hr)
  · intro hdeg hrange
    rw [hiff]
    have d0 := hdeg "deg0" (by simp)
    have d1 := hdeg "deg1" (by simp)
    have d2 := hdeg "deg2" (by simp)
    have d3 := hdeg "deg3" (by simp)
    have r0 := hrange (spec.getInt "npts0" 6) (by simp)
    have r2 := hrange (spec.getInt "npts2" (spec.getInt "npts1" 2)) (by simp)
    have r3 := hrange (spec.getInt "npts3" 5) (by simp)
    rw [getInt_absent spec "deg0" _ d0, getInt_absent spec "deg1" _ d1,
      getInt_absent spec "deg2" _ d2, getInt_absent spec "deg3" _ d3]
    have w0 := wrap32_of_range (spec.getInt "npts0" 6 - 1) (by omega) (by omega)
    have w2 := wrap32_of_range (spec.getInt "npts2" (spec.getInt "npts1" 2) - 1) (by omega)
      (by omega)
    have w3 := wrap32_of_range (spec.getInt "npts3" 5 - 1) (by omega) (by omega)
    rw [w0, w2, w3]
    omega

/-- Witness of C28: with `npts1 = 1` and nothing else in the block, `create`
raises the exception of line 97. -/
theorem create_polynomial_raises_witness :
    ArmPostProcessorFactory.create VarType.CC DimType.D2 (some (polySpec [("npts1", 1)])) 1 false
      = Except.error
          { msg := "Cannot use polynomial interpolation with deg1 >= npts1.", line := 97 } ∧
    ((∃ e, ArmPostProcessorFactory.create VarType.CC DimType.D2
        (some (polySpec [("npts1", 1)])) 1 false = Except.error e) ↔
      (polySpec [("npts1", 1)]).getInt "npts1" 2 ≤ 1) :=
  ⟨rfl,
    (create_polynomial_raises VarType.CC DimType.D2 (polySpec [("npts1", 1)]) 1 false
      "polynomial" rfl (by decide)).2.2 (by decide) (by decide)⟩

theorem run_snoc (laps : List ℚ) (lap : ℚ) (t : WallTimers) :
    WallTimers.run (laps ++ [lap]) t = ((WallTimers.run laps t).updateExpMovingAverage lap).2 := by
  simp [WallTimers.run, List.foldl_append]

theorem run_cons (laps : List ℚ) (lap : ℚ) (t : WallTimers) :
    WallTimers.run (lap :: laps) t = WallTimers.run laps (t.updateExpMovingAverage lap).2 := rfl

theorem run_nSamples :
    ∀ (laps : List ℚ) (t : WallTimers), t.d_nSamples = 0 → laps.length < 2147483648 →
      (WallTimers.run laps t).d_nSamples = laps.length := by
  intro laps
  induction laps using List.reverseRecOn with
  | nil => intro t h _; simpa [WallTimers.run] using h
  | append_singleton laps lap ih =>
    intro t h hl
    rw [run_snoc]
    simp only [List.length_append, List.length_singleton] at hl ⊢
    have := ih t h (by omega)
    simp only [WallTimers.updateExpMovingAverage, this]
    push_cast
    exact wrap32_of_range _ (by unfold INT_MIN; omega) (by unfold INT_MAX; omega)

theorem update_first (lap : ℚ) (t : WallTimers) (h : t.d_nSamples = 0) :
    (t.updateExpMovingAverage lap).2 = { d_nSamples := 1, ExpMovingAverage := lap } := by
  simp [WallTimers.updateExpMovingAverage, h, wrap32]

theorem update_second (lap prev : ℚ) :
    (WallTimers.updateExpMovingAverage lap { d_nSamples := 1, ExpMovingAverage := prev }).2
      = { d_nSamples := 2, ExpMovingAverage := lap } := by
  simp only [WallTimers.updateExpMovingAverage, AVERAGE_WINDOW, wrap32]
  norm_num

/-- C29: the first call of `updateExpMovingAverage` after construction or
`resetWindow` (`d_nSamples == 0`) sets the average to the lap time; every
other call sets it to `mult * lap + (1 - mult) * previous` with
`mult = 2 / (min(d_nSamples, 10) + 1)`, where `d_nSamples` is the number of
calls made since (as long as there were fewer than 2^31 of them); and after
two or more calls the object is the same whatever the first lap time and
whatever the average before the first call were. -/
theorem updateExpMovingAverage_ignores_first :
    (∀ (lap : ℚ) (t : WallTimers), t.d_nSamples = 0 →
      (t.updateExpMovingAverage lap).2.ExpMovingAverage = lap) ∧
    (∀ t : WallTimers, t.resetWindow.d_nSamples = 0) ∧
    (∀ (lap : ℚ) (t : WallTimers), t.d_nSamples ≠ 0 →
      (t.updateExpMovingAverage lap).2.ExpMovingAverage =
        2 / ((min t.d_nSamples 10 : Int) + 1) * lap
          + (1 - 2 / ((min t.d_nSamples 10 : Int) + 1)) * t.ExpMovingAverage) ∧
    (∀ (laps : List ℚ) (t : WallTimers), t.d_nSamples = 0 → laps.length < 2147483648 →
      (WallTimers.run laps t).d_nSamples = laps.length) ∧
    (∀ (first first2 second : ℚ) (rest : List ℚ) (t t2 : WallTimers),
      t.d_nSamples = 0 → t2.d_nSamples = 0 →
      WallTimers.run (first :: second :: rest) t = WallTimers.run (first2 :: second :: rest) t2) := by
  refine ⟨?_, fun _ => rfl, ?_, run_nSamples, ?_⟩
  · intro lap t h
    rw [update_first lap t h]
  · intro lap t h
    simp only [WallTimers.updateExpMovingAverage, if_pos h, AVERAGE_WINDOW]
    norm_num
  · intro first first2 second rest t t2 h h2
    rw [run_cons, run_cons, run_cons, run_cons, update_first first t h,
      update_first first2 t2 h2, update_second, update_second]

/-- Witness of C29: three calls on a fresh object; the average after the
laps 100, 4, 7 is that after the laps 1, 4, 7, namely 2/3 * 7 + 1/3 * 4 = 6. -/
theorem updateExpMovingAverage_ignores_first_witness :
    WallTimers.run [100, 4, 7] { d_nSamples := 0, ExpMovingAverage := 0 }
      = WallTimers.run [1, 4, 7] { d_nSamples := 0, ExpMovingAverage := 55 } ∧
    (WallTimers.run [1, 4, 7] { d_nSamples := 0, ExpMovingAverage := 55 }).d_nSamples = 3 ∧
    (WallTimers.run [1, 4, 7] { d_nSamples := 0, ExpMovingAverage := 55 }).ExpMovingAverage = 6 :=
  ⟨updateExpMovingAverage_ignores_first.2.2.2.2 100 1 4 [7]
      { d_nSamples := 0, ExpMovingAverage := 0 } { d_nSamples := 0, ExpMovingAverage := 55 }
      rfl rfl,
    updateExpMovingAverage_ignores_first.2.2.2.1 [1, 4, 7]
      { d_nSamples := 0, ExpMovingAverage := 55 } rfl (by decide),
    by norm_num [WallTimers.run, WallTimers.updateExpMovingAverage, AVERAGE_WINDOW, wrap32]⟩

end Uintah

namespace Uintah

/-! ## The weights of the node-centred error norm -/

theorem upTo_nat (k : Nat) : upTo (k : Int) = List.map (fun i : Nat => (i : Int)) (List.range k) := by
  simp [upTo]

theorem between_nat (k : Nat) :
    between ((k : Int) + 1) = List.map (fun i : Nat => (i : Int) + 1) (List.range k) := by
  simp [between]

theorem upTo_split (r : Int) (hr : 1 ≤ r) : upTo (r + 1) = 0 :: between r ++ [r] := by
  obtain ⟨k, rfl⟩ : ∃ k : Nat, r = (k : Int) + 1 := ⟨(r - 1).toNat, by omega⟩
  have h2 : ((k : Int) + 1 + 1) = ((k + 2 : Nat) : Int) := by push_cast; ring
  rw [h2, upTo_nat, between_nat, List.range_succ, List.range_succ_eq_map]
  simp [Function.comp_def]

theorem mem_between {r o : Int} (h : o ∈ between r) : 1 ≤ o ∧ o < r := by
  simp only [between, List.mem_map, List.mem_range, Int.ofNat_eq_coe] at h
  obtain ⟨i, hi, rfl⟩ := h
  omega

theorem mem_upTo {r o : Int} : o ∈ upTo r ↔ 0 ≤ o ∧ o < r := by
  simp only [upTo, List.mem_map, List.mem_range, Int.ofNat_eq_coe]
  constructor
  · rintro ⟨i, hi, rfl⟩
    omega
  · rintro ⟨h0, h1⟩
    exact ⟨o.toNat, by omega, by omega⟩

theorem upTo_nodup (r : Int) : (upTo r).Nodup := by
  unfold upTo
  exact (List.nodup_range _).map (fun a b h => by simpa using h)

theorem trapezoid_zero (r : Int) : trapezoid r 0 = 1 / 2 := by
  simp [trapezoid]

theorem trapezoid_end (r : Int) : trapezoid r r = 1 / 2 := by
  simp [trapezoid]

theorem trapezoid_between {r o : Int} (h : o ∈ between r) : trapezoid r o = 1 := by
  have := mem_between h
  have h0 : ¬ (o = 0 ∨ o = r) := by omega
  simp only [trapezoid, if_neg h0]

theorem flatMap_upTo_split {β : Type} (r : Int) (hr : 1 ≤ r) (f : Int → List β) :
    (upTo (r + 1)).flatMap f = f 0 ++ (between r).flatMap f ++ f r := by
  rw [upTo_split r hr]
  simp [List.flatMap_cons, List.flatMap_append]

theorem flatMap_congr_mem {α β : Type} {l : List α} {f g : α → List β}
    (h : ∀ a ∈ l, f a = g a) : l.flatMap f = l.flatMap g := by
  induction l with
  | nil => rfl
  | cons a l ih =>
    simp only [List.flatMap_cons]
    rw [h a (List.mem_cons_self _ _), ih fun b hb => h b (List.mem_cons_of_mem _ hb)]

/-- The three blocks on `offset[Z]` visit every offset from 0 to
`refinement[Z]` once, with `c` times the trapezoid weight, when the weights
passed are `c / 2`, `c` and `c / 2`. -/
theorem zBlocks_eq (id_finest refinement : IntVector) (ox oy : Int) (c w0 w1 w2 : ℚ)
    (hz : 1 ≤ refinement.z) (h0 : w0 = c * (1 / 2)) (h1 : w1 = c) (h2 : w2 = c * (1 / 2)) :
    Heat.zBlocks id_finest refinement ox oy w0 w1 w2 =
      (upTo (refinement.z + 1)).map fun oz =>
        (id_finest + { x := ox, y := oy, z := oz }, c * trapezoid refinement.z oz) := by
  rw [upTo_split _ hz]
  simp only [Heat.zBlocks, List.map_cons, List.map_append, List.map_nil, trapezoid_zero,
    trapezoid_end, h0, h1, h2]
  have hm : (between refinement.z).map (fun oz =>
        ((id_finest + { x := ox, y := oy, z := oz } : IntVector), c)) =
      (between refinement.z).map (fun oz =>
        ((id_finest + { x := ox, y := oy, z := oz } : IntVector),
          c * trapezoid refinement.z oz)) := by
    apply List.map_congr_left
    intro oz hoz
    rw [trapezoid_between hoz, mul_one]
  rw [hm]
  simp

/-- The three groups on `offset[Y]` for a fixed `offset[X]`. -/
theorem yBlocks_eq (id_finest refinement : IntVector) (ox : Int) (c p q q2 s : ℚ)
    (hy : 1 ≤ refinement.y) (hz : 1 ≤ refinement.z)
    (hp : p = c * (1 / 2) * (1 / 2)) (hq : q = c * (1 / 2)) (hq2 : q2 = c * (1 / 2))
    (hs : s = c) :
    Heat.zBlocks id_finest refinement ox 0 p q p
        ++ (between refinement.y).flatMap (fun oy =>
            Heat.zBlocks id_finest refinement ox oy q2 s q2)
        ++ Heat.zBlocks id_finest refinement ox refinement.y p q p =
      (upTo (refinement.y + 1)).flatMap fun oy =>
        (upTo (refinement.z + 1)).map fun oz =>
          (id_finest + { x := ox, y := oy, z := oz },
            c * trapezoid refinement.y oy * trapezoid refinement.z oz) := by
  rw [flatMap_upTo_split _ hy, trapezoid_zero, trapezoid_end]
  rw [zBlocks_eq id_finest refinement ox 0 (c * (1 / 2)) p q p hz (by rw [hp]) hq (by rw [hp]),
    zBlocks_eq id_finest refinement ox refinement.y (c * (1 / 2)) p q p hz (by rw [hp]) hq
      (by rw [hp])]
  congr 2
  apply flatMap_congr_mem
  intro oy hoy
  rw [trapezoid_between hoy, mul_one]
  exact zBlocks_eq id_finest refinement ox oy c q2 s q2 hz hq2 hs hq2

/-- The node-centred branch makes the visits `nodeVisits` describes. -/
theorem node_branch_eq (id refinement : IntVector) (hx : 1 ≤ refinement.x)
    (hy : 1 ≤ refinement.y) (hz : 1 ≤ refinement.z) :
    Heat.time_advance_solution_error VarType.NC false id refinement =
      nodeVisits (id * refinement) refinement := by
  simp only [Heat.time_advance_solution_error, Bool.false_eq_true, if_false, nodeVisits]
  rw [if_neg (by decide), flatMap_upTo_split _ hx, trapezoid_zero, trapezoid_end]
  rw [yBlocks_eq (id * refinement) refinement 0 (1 / 2) 0.125 0.25 0.25 0.5 hy hz
      (by norm_num) (by norm_num) (by norm_num) (by norm_num),
    yBlocks_eq (id * refinement) refinement refinement.x (1 / 2) 0.125 0.25 0.25 0.5 hy hz
      (by norm_num) (by norm_num) (by norm_num) (by norm_num)]
  congr 2
  apply flatMap_congr_mem
  intro ox hox
  rw [trapezoid_between hox]
  exact yBlocks_eq (id * refinement) refinement ox 1 0.25 0.5 0.5 1 hy hz
    (by norm_num) (by norm_num) (by norm_num) (by norm_num)

theorem sum_flatMap_eq {α : Type} (l : List α) (f : α → List ℚ) :
    (l.flatMap f).sum = (l.map fun a => (f a).sum).sum := by
  induction l with
  | nil => rfl
  | cons a l ih => simp [List.flatMap_cons, List.sum_append, ih]

theorem sum_map_one {α : Type} (l : List α) (g : α → ℚ) (h : ∀ a ∈ l, g a = 1) :
    (l.map g).sum = l.length := by
  induction l with
  | nil => simp
  | cons a l ih =>
    simp only [List.map_cons, List.sum_cons, List.length_cons]
    rw [h a (List.mem_cons_self _ _), ih fun b hb => h b (List.mem_cons_of_mem _ hb)]
    push_cast
    ring

/-- The trapezoid weights of an axis with `r >= 1` intervals sum to `r`. -/
theorem axis_sum (r : Int) (hr : 1 ≤ r) : ((upTo (r + 1)).map (trapezoid r)).sum = (r : ℚ) := by
  rw [upTo_split r hr]
  simp only [List.map_cons, List.map_append, List.map_nil, List.sum_cons, List.sum_append,
    List.sum_nil, trapezoid_zero, trapezoid_end]
  rw [sum_map_one _ _ fun o ho => trapezoid_between ho]
  have hl : ((between r).length : ℚ) = (r : ℚ) - 1 := by
    have h1 : (between r).length = (r - 1).toNat := by simp [between]
    rw [h1]
    have h2 : (((r - 1).toNat : Int) : ℚ) = ((r - 1 : Int) : ℚ) := by
      rw [Int.toNat_of_nonneg (by omega)]
    have h3 : (((r - 1).toNat : Int) : ℚ) = ((r - 1).toNat : ℚ) := by simp
    rw [← h3, h2]
    push_cast
    ring
  rw [hl]
  ring

theorem nodeVisits_sum (id_finest refinement : IntVector) (hx : 1 ≤ refinement.x)
    (hy : 1 ≤ refinement.y) (hz : 1 ≤ refinement.z) :
    ((nodeVisits id_finest refinement).map fun v => v.2).sum =
      (refinement.x : ℚ) * refinement.y * refinement.z := by
  have inner : ∀ ox oy : Int,
      ((upTo (refinement.z + 1)).map fun oz =>
        trapezoid refinement.x ox * trapezoid refinement.y oy * trapezoid refinement.z oz).sum
      = trapezoid refinement.x ox * trapezoid refinement.y oy * refinement.z := by
    intro ox oy
    rw [List.sum_map_mul_left, axis_sum _ hz]
  have middle : ∀ ox : Int,
      ((upTo (refinement.y + 1)).map fun oy =>
        trapezoid refinement.x ox * trapezoid refinement.y oy * (refinement.z : ℚ)).sum
      = trapezoid refinement.x ox * refinement.y * refinement.z := by
    intro ox
    rw [List.sum_map_mul_right, List.sum_map_mul_left, axis_sum _ hy]
  simp only [nodeVisits, List.map_flatMap, List.map_map, Function.comp_def, sum_flatMap_eq,
    inner, middle]
  rw [List.sum_map_mul_right, List.sum_map_mul_right, axis_sum _ hx]

theorem IntVector.add_cancel (a b c : IntVector) (h : a + b = a + c) : b = c := by
  have hx : (a + b).x = (a + c).x := by rw [h]
  have hy : (a + b).y = (a + c).y := by rw [h]
  have hz : (a + b).z = (a + c).z := by rw [h]
  have ex : ∀ u v : IntVector, (u + v).x = u.x + v.x := fun _ _ => rfl
  have ey : ∀ u v : IntVector, (u + v).y = u.y + v.y := fun _ _ => rfl
  have ez : ∀ u v : IntVector, (u + v).z = u.z + v.z := fun _ _ => rfl
  rw [ex, ex] at hx
  rw [ey, ey] at hy
  rw [ez, ez] at hz
  cases b
  cases c
  simp only [IntVector.mk.injEq]
  simp only at hx hy hz
  omega

theorem nodeVisits_mem (id_finest refinement : IntVector) (p : IntVector) :
    p ∈ (nodeVisits id_finest refinement).map (fun v => v.1) ↔
      ∃ ox oy oz : Int, (0 ≤ ox ∧ ox ≤ refinement.x) ∧ (0 ≤ oy ∧ oy ≤ refinement.y) ∧
        (0 ≤ oz ∧ oz ≤ refinement.z) ∧ p = id_finest + { x := ox, y := oy, z := oz } := by
  simp only [nodeVisits, List.mem_map, List.mem_flatMap, mem_upTo]
  constructor
  · rintro ⟨v, ⟨ox, hox, oy, hoy, oz, hoz, rfl⟩, rfl⟩
    exact ⟨ox, oy, oz, ⟨hox.1, by omega⟩, ⟨hoy.1, by omega⟩, ⟨hoz.1, by omega⟩, rfl⟩
  · rintro ⟨ox, oy, oz, hox, hoy, hoz, rfl⟩
    exact ⟨_, ⟨ox, ⟨hox.1, by omega⟩, oy, ⟨hoy.1, by omega⟩, oz, ⟨hoz.1, by omega⟩, rfl⟩, rfl⟩

theorem nodeVisits_nodup (id_finest refinement : IntVector) :
    ((nodeVisits id_finest refinement).map fun v => v.1).Nodup := by
  simp only [nodeVisits, List.map_flatMap, List.map_map, Function.comp_def]
  rw [List.nodup_flatMap]
  constructor
  · intro ox _
    rw [List.nodup_flatMap]
    constructor
    · intro oy _
      refine (upTo_nodup _).map ?_
      intro a b h
      have := IntVector.add_cancel _ _ _ h
      simpa using this
    · refine (upTo_nodup _).imp ?_
      intro a b hab
      simp only [Function.onFun, List.disjoint_left, List.mem_map]
      rintro p ⟨oz, _, rfl⟩ ⟨oz2, _, h⟩
      have := IntVector.add_cancel _ _ _ h
      simp only [IntVector.mk.injEq] at this
      exact hab this.2.1.symm
  · refine (upTo_nodup _).imp ?_
    intro a b hab
    simp only [Function.onFun, List.disjoint_left, List.mem_flatMap, List.mem_map]
    rintro p ⟨oy, _, oz, _, rfl⟩ ⟨oy2, _, oz2, _, h⟩
    have := IntVector.add_cancel _ _ _ h
    simp only [IntVector.mk.injEq] at this
    exact hab this.1.symm

/-- C30: in the node-centred branch of the multi-grid
`time_advance_solution_error`, for every refinement ratio with
`rx, ry, rz >= 1`, the calls of `do_loop` are those of `nodeVisits`: every
fine node `id_finest + (ox, oy, oz)` with `0 <= ox <= rx`, `0 <= oy <= ry`,
`0 <= oz <= rz` is passed once, no other node is, and the weight passed
with it is the product of the trapezoid weights of the three axes (one half
at offset 0 and at offset `r`, one in between); the weights sum to
`rx * ry * rz`. -/
theorem node_weights_trapezoid (id refinement : IntVector) (hx : 1 ≤ refinement.x)
    (hy : 1 ≤ refinement.y) (hz : 1 ≤ refinement.z) :
    Heat.time_advance_solution_error VarType.NC false id refinement
      = nodeVisits (id * refinement) refinement ∧
    ((Heat.time_advance_solution_error VarType.NC false id refinement).map
      fun v => v.1).Nodup ∧
    (∀ p, p ∈ (Heat.time_advance_solution_error VarType.NC false id refinement).map
        (fun v => v.1) ↔
      ∃ ox oy oz : Int, (0 ≤ ox ∧ ox ≤ refinement.x) ∧ (0 ≤ oy ∧ oy ≤ refinement.y) ∧
        (0 ≤ oz ∧ oz ≤ refinement.z) ∧ p = id * refinement + { x := ox, y := oy, z := oz }) ∧
    (∀ v ∈ Heat.time_advance_solution_error VarType.NC false id refinement,
      ∃ ox oy oz : Int, v.1 = id * refinement + { x := ox, y := oy, z := oz } ∧
        v.2 = trapezoid refinement.x ox * trapezoid refinement.y oy
          * trapezoid refinement.z oz) ∧
    ((Heat.time_advance_solution_error VarType.NC false id refinement).map fun v => v.2).sum
      = (refinement.x : ℚ) * refinement.y * refinement.z := by
  have he := node_branch_eq id refinement hx hy hz
  rw [he]
  refine ⟨rfl, nodeVisits_nodup _ _, nodeVisits_mem _ _, ?_, nodeVisits_sum _ _ hx hy hz⟩
  intro v hv
  simp only [nodeVisits, List.mem_flatMap, List.mem_map] at hv
  obtain ⟨ox, _, oy, _, oz, _, rfl⟩ := hv
  exact ⟨ox, oy, oz, rfl, rfl⟩

/-- Witness of C30: the refinement ratio (2, 1, 1) at the coarse node
(1, 0, 0): twelve fine nodes, the weights sum to 2. -/
theorem node_weights_trapezoid_witness :
    (Heat.time_advance_solution_error VarType.NC false { x := 1, y := 0, z := 0 }
      { x := 2, y := 1, z := 1 }).length = 12 ∧
    ((Heat.time_advance_solution_error VarType.NC false { x := 1, y := 0, z := 0 }
      { x := 2, y := 1, z := 1 }).map fun v => v.2).sum = 2 := by
  have h := node_weights_trapezoid { x := 1, y := 0, z := 0 } { x := 2, y := 1, z := 1 }
    (by decide) (by decide) (by decide)
  refine ⟨?_, ?_⟩
  · rw [h.1]
    decide
  · rw [h.2.2.2.2]
    norm_num

end Uintah
